import Mathlib

/-! # CONVERSOR_LND: key derivation, address rendering, seeds and batch verification

Shallow embedding of `main.go`.  The btcd packages the program calls
(`hdkeychain`, `btcutil`, `txscript`, `schnorr`) are external: their
cryptographic functions are the fields of `Lib`, and the few library routines
whose control flow matters (length checks, the script builder, `fmt.Sprintf`)
are written out.  A function of `main.go` returns its Go result pair together
with the list of effects (library calls, log lines) it performed, in order.
The seed package `internal/crypto` and the two balance functions, which do
network I/O, are parameters (`Aezeed`, `BalanceSource`); the functions that
read or write the global variables take and return an `AppState`.
-/

namespace LND

/-! ## Constants (`main.go`, lines 36-53) -/

def BIP44Purpose : Nat := 44
def BIP49Purpose : Nat := 49
def BIP84Purpose : Nat := 84
def BIP86Purpose : Nat := 86
def CoinTypeBitcoin : Nat := 0
def DefaultAccount : Nat := 0
def ExternalChain : Nat := 0
def InternalChain : Nat := 1
def AddressBatchSize : Nat := 20
def addressSearchLimit : Nat := 20000

/-- The constant `hdkeychain.HardenedKeyStart` (0x80000000). -/
def HardenedKeyStart : Nat := 2147483648

/-- Truncation to the range of a Go `uint32`. -/
def u32 (n : Nat) : Nat := n % 2 ^ 32

/-! ## Network parameters and addresses -/

/-- The fields of `chaincfg.Params` the program reaches. -/
structure Params where
  PubKeyHashAddrID : Nat
  ScriptHashAddrID : Nat
  Bech32HRPSegwit : String
  deriving DecidableEq, Repr

/-- The value `chaincfg.MainNetParams`. -/
def MainNetParams : Params :=
  { PubKeyHashAddrID := 0, ScriptHashAddrID := 5, Bech32HRPSegwit := "bc" }

/-- The global `netParams` (`main.go`, line 61). -/
def netParams : Params := MainNetParams

/-- The address values of `btcutil` (`AddressPubKeyHash`, `AddressScriptHash`,
`AddressWitnessPubKeyHash`, `AddressWitnessScriptHash`, `AddressTaproot`,
`AddressPubKey`), each with the fields the library stores. -/
inductive Address where
  | pubKeyHash (hash : List Nat) (netID : Nat)
  | scriptHash (hash : List Nat) (netID : Nat)
  | witnessPubKeyHash (hrp : String) (witnessVersion : Nat) (witnessProgram : List Nat)
  | witnessScriptHash (hrp : String) (witnessVersion : Nat) (witnessProgram : List Nat)
  | taproot (hrp : String) (witnessVersion : Nat) (witnessProgram : List Nat)
  | pubKey (serialized : List Nat) (netID : Nat)
  deriving DecidableEq, Repr

/-- The four encodings the program renders, and the two it only decodes. -/
inductive AddrKind where
  | legacy | nested | native | taproot | witnessScript | rawPubKey
  deriving DecidableEq, Repr

def Address.kind : Address → AddrKind
  | .pubKeyHash _ _ => .legacy
  | .scriptHash _ _ => .nested
  | .witnessPubKeyHash _ _ _ => .native
  | .taproot _ _ _ => .taproot
  | .witnessScriptHash _ _ _ => .witnessScript
  | .pubKey _ _ => .rawPubKey

/-! ## The external library -/

/-- The cryptographic functions of btcd the program calls.  `Key` is
`*hdkeychain.ExtendedKey`, `PubKey` is `*btcec.PublicKey`, `Err` the error
values the library returns. -/
structure Lib where
  Key : Type
  PubKey : Type
  Err : Type
  /-- `(*ExtendedKey).Derive` -/
  derive : Key → Nat → Except Err Key
  /-- `(*ExtendedKey).Neuter` -/
  neuter : Key → Except Err Key
  /-- `(*ExtendedKey).SetNet` -/
  setNet : Key → Params → Key
  /-- `(*ExtendedKey).String` -/
  keyString : Key → String
  /-- `(*ExtendedKey).ECPubKey` -/
  ecPubKey : Key → Except Err PubKey
  /-- `(*PublicKey).SerializeCompressed` -/
  serializeCompressed : PubKey → List Nat
  /-- `btcutil.Hash160` -/
  hash160 : List Nat → List Nat
  /-- `txscript.ComputeTaprootKeyNoScript` -/
  computeTaprootKeyNoScript : PubKey → PubKey
  /-- `schnorr.SerializePubKey` -/
  schnorrSerializePubKey : PubKey → List Nat
  /-- `btcutil.DecodeAddress` -/
  decodeAddress : String → Params → Except Err Address
  /-- `Address.String` -/
  addrString : Address → String

/-- A Go `error` value: one returned by the library, one made by `errors.New`
(or `fmt.Errorf` without `%w`), or one made by `fmt.Errorf("<msg>: %w", err)`. -/
inductive GoError (E : Type) where
  | lib (e : E)
  | new (msg : String)
  | wrap (msg : String) (err : GoError E)
  deriving DecidableEq, Repr

/-- The lines `findAddressInSeed` writes with `log.Printf`. -/
inductive LogLine (E : Type) where
  | searchStart (target : String) (lastIndex : Nat)
  | checkingPurpose (purposeName : String)
  | checkingChange (changeType : Nat)
  | deriveError (purposeName : String) (changeType index : Nat) (err : GoError E)
  | genError (purposeName : String) (changeType index : Nat) (err : GoError E)
  | found (purposeName : String) (changeType index : Nat)
  | notFound (target : String) (limit : Nat)

/-- The effects a function of `main.go` performs: a library call with its
arguments, the start of an iteration of the search loop, a log line. -/
inductive Event (L : Lib) where
  | derive (parent : L.Key) (child : Nat)
  | neuter (key : L.Key)
  | serialize (key : L.Key)
  | decodeAddress (s : String)
  | iteration (purpose changeType index : Nat)
  | log (line : LogLine L.Err)

/-! ## Key derivation (`main.go`, lines 216-261)

A Go result pair `(value, err)` is an `Except`: `.error err` is the pair whose
value is the zero value (`nil`, `""`) and whose error is `err`; `.ok v` is the
pair `(v, nil)`. -/

/-- The function `deriveChildKey`, with the library calls it makes. -/
def deriveChildKey (L : Lib) (masterKey : L.Key)
    (purpose coinType account chain index : Nat) :
    Except (GoError L.Err) L.Key × List (Event L) :=
  let c1 := u32 (purpose + HardenedKeyStart)
  match L.derive masterKey c1 with
  | .error err =>
    (.error (.wrap "failed to derive purpose key" (.lib err)),
      [.derive masterKey c1])
  | .ok purposeKey =>
    let c2 := u32 (coinType + HardenedKeyStart)
    match L.derive purposeKey c2 with
    | .error err =>
      (.error (.wrap "failed to derive coin type key" (.lib err)),
        [.derive masterKey c1, .derive purposeKey c2])
    | .ok coinTypeKey =>
      let c3 := u32 (account + HardenedKeyStart)
      match L.derive coinTypeKey c3 with
      | .error err =>
        (.error (.wrap "failed to derive account key" (.lib err)),
          [.derive masterKey c1, .derive purposeKey c2, .derive coinTypeKey c3])
      | .ok accountKey =>
        match L.derive accountKey chain with
        | .error err =>
          (.error (.wrap "failed to derive chain key" (.lib err)),
            [.derive masterKey c1, .derive purposeKey c2, .derive coinTypeKey c3,
              .derive accountKey chain])
        | .ok chainKey =>
          match L.derive chainKey index with
          | .error err =>
            (.error (.wrap ("failed to derive index key " ++ toString index) (.lib err)),
              [.derive masterKey c1, .derive purposeKey c2, .derive coinTypeKey c3,
                .derive accountKey chain, .derive chainKey index])
          | .ok indexKey =>
            (.ok indexKey,
              [.derive masterKey c1, .derive purposeKey c2, .derive coinTypeKey c3,
                .derive accountKey chain, .derive chainKey index])

/-- The function `deriveAccountXpub`, with the library calls it makes. -/
def deriveAccountXpub (L : Lib) (masterKey : L.Key)
    (purpose coinType account : Nat) (netParams : Params) :
    Except (GoError L.Err) String × List (Event L) :=
  let c1 := u32 (purpose + HardenedKeyStart)
  match L.derive masterKey c1 with
  | .error err =>
    (.error (.wrap "failed to derive purpose key for xpub" (.lib err)),
      [.derive masterKey c1])
  | .ok purposeKey =>
    let c2 := u32 (coinType + HardenedKeyStart)
    match L.derive purposeKey c2 with
    | .error err =>
      (.error (.wrap "failed to derive coin type key for xpub" (.lib err)),
        [.derive masterKey c1, .derive purposeKey c2])
    | .ok coinTypeKey =>
      let c3 := u32 (account + HardenedKeyStart)
      match L.derive coinTypeKey c3 with
      | .error err =>
        (.error (.wrap "failed to derive account key for xpub" (.lib err)),
          [.derive masterKey c1, .derive purposeKey c2, .derive coinTypeKey c3])
      | .ok accountKey =>
        match L.neuter accountKey with
        | .error err =>
          (.error (.wrap "failed to neuter account key for xpub" (.lib err)),
            [.derive masterKey c1, .derive purposeKey c2, .derive coinTypeKey c3,
              .neuter accountKey])
        | .ok xpubKey =>
          (.ok (L.keyString (L.setNet xpubKey netParams)),
            [.derive masterKey c1, .derive purposeKey c2, .derive coinTypeKey c3,
              .neuter accountKey, .serialize (L.setNet xpubKey netParams)])

/-! ## Library routines with control flow (`btcutil`, `txscript`) -/

/-- `btcutil.NewAddressPubKeyHash`: rejects a hash that is not 20 bytes long. -/
def NewAddressPubKeyHash (E : Type) (pkHash : List Nat) (net : Params) :
    Except (GoError E) Address :=
  if pkHash.length ≠ 20 then .error (.new "pkHash must be 20 bytes")
  else .ok (.pubKeyHash pkHash net.PubKeyHashAddrID)

/-- `btcutil.NewAddressScriptHashFromHash`: rejects a hash that is not 20 bytes
long. -/
def NewAddressScriptHashFromHash (E : Type) (scriptHash : List Nat) (net : Params) :
    Except (GoError E) Address :=
  if scriptHash.length ≠ 20 then .error (.new "scriptHash must be 20 bytes")
  else .ok (.scriptHash scriptHash net.ScriptHashAddrID)

/-- `btcutil.NewAddressWitnessPubKeyHash`: rejects a program that is not 20
bytes long. -/
def NewAddressWitnessPubKeyHash (E : Type) (witnessProg : List Nat) (net : Params) :
    Except (GoError E) Address :=
  if witnessProg.length ≠ 20 then
    .error (.new "witness program must be 20 bytes for p2wpkh")
  else .ok (.witnessPubKeyHash net.Bech32HRPSegwit.toLower 0 witnessProg)

/-- `btcutil.NewAddressTaproot`: rejects a program that is not 32 bytes long. -/
def NewAddressTaproot (E : Type) (witnessProg : List Nat) (net : Params) :
    Except (GoError E) Address :=
  if witnessProg.length ≠ 32 then
    .error (.new "witness program must be 32 bytes for p2tr")
  else .ok (.taproot net.Bech32HRPSegwit.toLower 1 witnessProg)

def MaxScriptSize : Nat := 10000
def MaxScriptElementSize : Nat := 520
def OP_0 : Nat := 0
def OP_DATA_1 : Nat := 1
def OP_PUSHDATA1 : Nat := 76
def OP_PUSHDATA2 : Nat := 77
def OP_PUSHDATA4 : Nat := 78
def OP_1NEGATE : Nat := 79
def OP_1 : Nat := 81

/-- `txscript.ScriptBuilder`: the script built so far and the first error. -/
structure ScriptBuilder where
  script : List Nat
  err : Option String
  deriving DecidableEq, Repr

/-- `txscript.NewScriptBuilder` -/
def NewScriptBuilder : ScriptBuilder := { script := [], err := none }

/-- `(*ScriptBuilder).AddOp` -/
def ScriptBuilder.AddOp (b : ScriptBuilder) (opcode : Nat) : ScriptBuilder :=
  if b.err ≠ none then b
  else if b.script.length + 1 > MaxScriptSize then
    { b with err := some "adding an opcode would exceed the maximum allowed canonical script length" }
  else { b with script := b.script ++ [opcode] }

/-- `txscript.canonicalDataSize` -/
def canonicalDataSize (data : List Nat) : Nat :=
  let dataLen := data.length
  if dataLen = 0 then 1
  else if dataLen = 1 ∧ data.headD 0 ≤ 16 then 1
  else if dataLen = 1 ∧ data.headD 0 = 129 then 1
  else if dataLen < OP_PUSHDATA1 then 1 + dataLen
  else if dataLen ≤ 255 then 2 + dataLen
  else if dataLen ≤ 65535 then 3 + dataLen
  else 5 + dataLen

/-- `(*ScriptBuilder).addData`: the canonical push of `data`. -/
def ScriptBuilder.addData (b : ScriptBuilder) (data : List Nat) : ScriptBuilder :=
  let dataLen := data.length
  if dataLen = 0 ∨ (dataLen = 1 ∧ data.headD 0 = 0) then
    { b with script := b.script ++ [OP_0] }
  else if dataLen = 1 ∧ data.headD 0 ≤ 16 then
    { b with script := b.script ++ [(OP_1 - 1) + data.headD 0] }
  else if dataLen = 1 ∧ data.headD 0 = 129 then
    { b with script := b.script ++ [OP_1NEGATE] }
  else if dataLen < OP_PUSHDATA1 then
    { b with script := b.script ++ [(OP_DATA_1 - 1) + dataLen] ++ data }
  else if dataLen ≤ 255 then
    { b with script := b.script ++ [OP_PUSHDATA1, dataLen] ++ data }
  else if dataLen ≤ 65535 then
    { b with script := b.script ++ [OP_PUSHDATA2, dataLen % 256, dataLen / 256] ++ data }
  else
    { b with script := b.script ++
        [OP_PUSHDATA4, dataLen % 256, dataLen / 256 % 256, dataLen / 65536 % 256,
          dataLen / 16777216 % 256] ++ data }

/-- `(*ScriptBuilder).AddData` -/
def ScriptBuilder.AddData (b : ScriptBuilder) (data : List Nat) : ScriptBuilder :=
  if b.err ≠ none then b
  else if b.script.length + canonicalDataSize data > MaxScriptSize then
    { b with err := some "adding data would exceed the maximum allowed canonical script length" }
  else if data.length > MaxScriptElementSize then
    { b with err := some "adding a data element would exceed the maximum allowed script element size" }
  else b.addData data

/-- `(*ScriptBuilder).Script` -/
def ScriptBuilder.Script (b : ScriptBuilder) : Except String (List Nat) :=
  match b.err with
  | some e => .error e
  | none => .ok b.script

/-! ## Address rendering (`main.go`, lines 263-310) -/

/-- The function `generateLegacyAddress` -/
def generateLegacyAddress (L : Lib) (key : L.Key) (netParams : Params) :
    Except (GoError L.Err) Address :=
  match L.ecPubKey key with
  | .error err => .error (.wrap "failed to get public key" (.lib err))
  | .ok pubKey =>
    NewAddressPubKeyHash L.Err (L.hash160 (L.serializeCompressed pubKey)) netParams

/-- The function `generateNestedSegWitAddress` -/
def generateNestedSegWitAddress (L : Lib) (key : L.Key) (netParams : Params) :
    Except (GoError L.Err) Address :=
  match L.ecPubKey key with
  | .error err => .error (.wrap "failed to get public key" (.lib err))
  | .ok pubKey =>
    let pubKeyBytes := L.serializeCompressed pubKey
    let pubKeyHash := L.hash160 pubKeyBytes
    let builder := NewScriptBuilder
    let builder := builder.AddOp OP_0
    let builder := builder.AddData pubKeyHash
    match builder.Script with
    | .error err => .error (.wrap "failed to build witness script" (.new err))
    | .ok witnessScript =>
      let scriptHash := L.hash160 witnessScript
      NewAddressScriptHashFromHash L.Err scriptHash netParams

/-- The function `generateNativeSegWitAddress` -/
def generateNativeSegWitAddress (L : Lib) (key : L.Key) (netParams : Params) :
    Except (GoError L.Err) Address :=
  match L.ecPubKey key with
  | .error err => .error (.wrap "failed to get public key" (.lib err))
  | .ok pubKey =>
    let pubKeyBytes := L.serializeCompressed pubKey
    let pubKeyHash := L.hash160 pubKeyBytes
    NewAddressWitnessPubKeyHash L.Err pubKeyHash netParams

/-- The function `generateTaprootAddress` -/
def generateTaprootAddress (L : Lib) (key : L.Key) (netParams : Params) :
    Except (GoError L.Err) Address :=
  match L.ecPubKey key with
  | .error err => .error (.wrap "failed to get public key" (.lib err))
  | .ok pubKey =>
    let taprootPubKey := L.computeTaprootKeyNoScript pubKey
    NewAddressTaproot L.Err (L.schnorrSerializePubKey taprootPubKey) netParams

/-! ## `fmt.Sprintf` (the verbs the program uses on these paths) -/

/-- An operand of `fmt.Sprintf`. -/
inductive FmtArg where
  | uint32 (n : Nat)
  | str (s : String)
  deriving DecidableEq, Repr

/-- The operand printed with `%v`. -/
def FmtArg.value : FmtArg → String
  | .uint32 n => toString n
  | .str s => s

/-- The name `reflect.TypeOf` gives the operand. -/
def FmtArg.typeName : FmtArg → String
  | .uint32 _ => "uint32"
  | .str _ => "string"

/-- What `Sprintf` appends for operands left over once the format is used up. -/
def sprintfExtra (args : List FmtArg) : String :=
  "%!(EXTRA " ++ ", ".intercalate (args.map fun a => a.typeName ++ "=" ++ a.value) ++ ")"

/-- The loop of `fmt.Sprintf` over the format, for the verbs `%d` and `%s`: each
verb consumes the next operand, a verb without an operand prints `MISSING`, and
operands left at the end are reported as `EXTRA`. -/
def sprintfGo : List Char → List FmtArg → String
  | [], [] => ""
  | [], a :: as => sprintfExtra (a :: as)
  | '%' :: 'd' :: cs, [] => "%!d(MISSING)" ++ sprintfGo cs []
  | '%' :: 'd' :: cs, .uint32 n :: as => toString n ++ sprintfGo cs as
  | '%' :: 'd' :: cs, .str s :: as => "%!d(string=" ++ s ++ ")" ++ sprintfGo cs as
  | '%' :: 's' :: cs, [] => "%!s(MISSING)" ++ sprintfGo cs []
  | '%' :: 's' :: cs, .str s :: as => s ++ sprintfGo cs as
  | '%' :: 's' :: cs, .uint32 n :: as => "%!s(uint32=" ++ toString n ++ ")" ++ sprintfGo cs as
  | c :: cs, as => String.singleton c ++ sprintfGo cs as

/-- `fmt.Sprintf` -/
def Sprintf (format : String) (args : List FmtArg) : String :=
  sprintfGo format.toList args

/-! ## Address lookup (`main.go`, lines 1020-1102) -/

/-- The struct `AddressLookupResult`; the interface `Address` and the pointer
`DerivedKey` are `none` when nil. -/
structure AddressLookupResult (L : Lib) where
  Found : Bool
  Purpose : Nat
  Index : Nat
  DerivationPath : String
  Address : Option Address
  DerivedKey : Option L.Key

/-- The map literal `purposes` of `findAddressInSeed`. -/
def purposes : List (Nat × String) :=
  [(BIP44Purpose, "BIP44 (Legacy)"), (BIP49Purpose, "BIP49 (Nested SegWit)"),
    (BIP84Purpose, "BIP84 (Native SegWit)"), (BIP86Purpose, "BIP86 (Taproot)")]

/-- The `switch purpose` of the search loop: the encoder of the purpose, `none`
for the `default` branch. -/
def generateForPurpose (L : Lib) (purpose : Nat) (key : L.Key) :
    Option (Except (GoError L.Err) Address) :=
  if purpose = BIP44Purpose then some (generateLegacyAddress L key netParams)
  else if purpose = BIP49Purpose then some (generateNestedSegWitAddress L key netParams)
  else if purpose = BIP84Purpose then some (generateNativeSegWitAddress L key netParams)
  else if purpose = BIP86Purpose then some (generateTaprootAddress L key netParams)
  else none

/-- The body of the innermost loop of `findAddressInSeed` at one index: `some r`
when it returns `r`, `none` when the loop goes on (`continue` or end of body). -/
def searchStep (L : Lib) (masterKey : L.Key) (targetAddrStr : String)
    (purpose : Nat) (purposeName : String) (changeType : Nat)
    (derivationPrefix : String) (index : Nat) :
    Option (AddressLookupResult L) × List (Event L) :=
  match deriveChildKey L masterKey purpose CoinTypeBitcoin DefaultAccount changeType index with
  | (.error err, calls) =>
    (none, .iteration purpose changeType index :: calls ++
      (if index = 0 ∧ changeType = ExternalChain then
        [.log (.deriveError purposeName changeType index err)] else []))
  | (.ok key, calls) =>
    match generateForPurpose L purpose key with
    | none => (none, .iteration purpose changeType index :: calls)
    | some (.error genErr) =>
      (none, .iteration purpose changeType index :: calls ++
        (if index = 0 ∧ changeType = ExternalChain then
          [.log (.genError purposeName changeType index genErr)] else []))
    | some (.ok generatedAddr) =>
      if L.addrString generatedAddr = targetAddrStr then
        let derivationPathStr := Sprintf "%s/%d" [.str derivationPrefix, .uint32 index]
        (some { Found := true, Purpose := purpose, Index := index,
                DerivationPath := derivationPathStr, Address := some generatedAddr,
                DerivedKey := some key },
          .iteration purpose changeType index :: calls ++
            [.log (.found purposeName changeType index)])
      else (none, .iteration purpose changeType index :: calls)

/-- The loop `for index := uint32(0); index < addressSearchLimit; index++`,
entered at `index` with `fuel` iterations allowed. -/
def indexLoop (L : Lib) (masterKey : L.Key) (targetAddrStr : String)
    (purpose : Nat) (purposeName : String) (changeType : Nat)
    (derivationPrefix : String) :
    Nat → Nat → Option (AddressLookupResult L) × List (Event L)
  | 0, _ => (none, [])
  | fuel + 1, index =>
    if index < addressSearchLimit then
      match searchStep L masterKey targetAddrStr purpose purposeName changeType
          derivationPrefix index with
      | (some r, t) => (some r, t)
      | (none, t) =>
        let rest := indexLoop L masterKey targetAddrStr purpose purposeName changeType
          derivationPrefix fuel (index + 1)
        (rest.1, t ++ rest.2)
    else (none, [])

/-- The loop over `[]uint32{ExternalChain, InternalChain}`, on the chains still
to visit. -/
def chainLoop (L : Lib) (masterKey : L.Key) (targetAddrStr : String)
    (purpose : Nat) (purposeName : String) :
    List Nat → Option (AddressLookupResult L) × List (Event L)
  | [] => (none, [])
  | changeType :: chains =>
    let derivationPrefix := Sprintf "m/%d'/0'/%d'/%d"
      [.uint32 purpose, .uint32 CoinTypeBitcoin, .uint32 DefaultAccount, .uint32 changeType]
    match indexLoop L masterKey targetAddrStr purpose purposeName changeType
        derivationPrefix addressSearchLimit 0 with
    | (some r, t) => (some r, .log (.checkingChange changeType) :: t)
    | (none, t) =>
      let rest := chainLoop L masterKey targetAddrStr purpose purposeName chains
      (rest.1, .log (.checkingChange changeType) :: t ++ rest.2)

/-- The loop `for purpose, purposeName := range purposes`, on the entries of the
map still to visit, in the order the runtime yields them. -/
def purposeLoop (L : Lib) (masterKey : L.Key) (targetAddrStr : String) :
    List (Nat × String) → Option (AddressLookupResult L) × List (Event L)
  | [] => (none, [])
  | (purpose, purposeName) :: entries =>
    match chainLoop L masterKey targetAddrStr purpose purposeName
        [ExternalChain, InternalChain] with
    | (some r, t) => (some r, .log (.checkingPurpose purposeName) :: t)
    | (none, t) =>
      let rest := purposeLoop L masterKey targetAddrStr entries
      (rest.1, .log (.checkingPurpose purposeName) :: t ++ rest.2)

/-- The function `findAddressInSeed`.  `order` is the order in which the Go
runtime yields the entries of the map `purposes` (the language leaves it
unspecified); `currentMasterKey` is the global of that name, `none` when nil. -/
def findAddressInSeed (L : Lib) (order : List (Nat × String))
    (currentMasterKey : Option L.Key) (targetAddrStr : String) :
    Except (GoError L.Err) (AddressLookupResult L) × List (Event L) :=
  match currentMasterKey with
  | none => (.error (.new "nenhuma seed Aezeed carregada"), [])
  | some masterKey =>
    match L.decodeAddress targetAddrStr netParams with
    | .error err =>
      (.error (.wrap "endereço Bitcoin inválido" (.lib err)),
        [.decodeAddress targetAddrStr])
    | .ok targetAddr =>
      let targetAddrStr1 := L.addrString targetAddr
      match purposeLoop L masterKey targetAddrStr1 order with
      | (some r, t) =>
        (.ok r, .decodeAddress targetAddrStr ::
          .log (.searchStart targetAddrStr1 (addressSearchLimit - 1)) :: t)
      | (none, t) =>
        (.ok { Found := false, Purpose := 0, Index := 0, DerivationPath := "",
               Address := none, DerivedKey := none },
          .decodeAddress targetAddrStr ::
            .log (.searchStart targetAddrStr1 (addressSearchLimit - 1)) :: t ++
            [.log (.notFound targetAddrStr1 addressSearchLimit)])

/-! ## Vocabulary of the statements -/

/-- The `Derive` calls of a trace, in order. -/
def derivesOf {L : Lib} : List (Event L) → List (L.Key × Nat)
  | [] => []
  | .derive k i :: t => (k, i) :: derivesOf t
  | _ :: t => derivesOf t

/-- The keys a trace serialises with `String`, in order. -/
def serializedOf {L : Lib} : List (Event L) → List L.Key
  | [] => []
  | .serialize k :: t => k :: serializedOf t
  | _ :: t => serializedOf t

/-- The coordinates `(purpose, chain, index)` whose loop body a trace enters, in
order. -/
def iterationsOf {L : Lib} : List (Event L) → List (Nat × Nat × Nat)
  | [] => []
  | .iteration p c i :: t => (p, c, i) :: iterationsOf t
  | _ :: t => iterationsOf t

/-- The key and the address at `m/purpose'/0'/0'/chain/index` when derivation and
rendering (by the encoder of the purpose) both succeed. -/
def renderAt (L : Lib) (masterKey : L.Key) (purpose changeType index : Nat) :
    Option (L.Key × Address) :=
  match (deriveChildKey L masterKey purpose CoinTypeBitcoin DefaultAccount changeType index).1 with
  | .error _ => none
  | .ok key =>
    match generateForPurpose L purpose key with
    | some (.ok a) => some (key, a)
    | _ => none

/-- The coordinate renders to an address whose string is `target`. -/
def matchesAt (L : Lib) (masterKey : L.Key) (target : String) (c : Nat × Nat × Nat) : Bool :=
  match renderAt L masterKey c.1 c.2.1 c.2.2 with
  | some (_, a) => decide (L.addrString a = target)
  | none => false

/-- The coordinates of the search, in the order the loops visit them when the
map yields its entries in `order`. -/
def searchSpace (order : List (Nat × String)) : List (Nat × Nat × Nat) :=
  order.flatMap fun e => [ExternalChain, InternalChain].flatMap fun c =>
    (List.range' 0 addressSearchLimit).map fun i => (e.1, c, i)

/-- An address the program can hold on the network `net`: payload of the length
its kind fixes, network identifier or prefix of `net`. -/
def Address.wellFormed (net : Params) : Address → Prop
  | .pubKeyHash h id => h.length = 20 ∧ id = net.PubKeyHashAddrID
  | .scriptHash h id => h.length = 20 ∧ id = net.ScriptHashAddrID
  | .witnessPubKeyHash hrp v w => hrp = net.Bech32HRPSegwit.toLower ∧ v = 0 ∧ w.length = 20
  | .witnessScriptHash hrp v w => hrp = net.Bech32HRPSegwit.toLower ∧ v = 0 ∧ w.length = 32
  | .taproot hrp v w => hrp = net.Bech32HRPSegwit.toLower ∧ v = 1 ∧ w.length = 32
  | .pubKey s id => (s.length = 33 ∨ s.length = 65) ∧ id = net.PubKeyHashAddrID

/-- Library fact: `Hash160` yields 20 bytes. -/
def Hash160Sized (L : Lib) : Prop := ∀ b, (L.hash160 b).length = 20

/-- Library fact: the x-only serialisation of a public key is 32 bytes. -/
def XOnlySized (L : Lib) : Prop := ∀ p, (L.schnorrSerializePubKey p).length = 32

/-- Library fact: on one network, addresses of different kinds have different
strings (base58 with different version bytes, bech32 with different witness
versions). -/
def KindSeparated (L : Lib) : Prop :=
  ∀ a b : Address, a.wellFormed netParams → b.wellFormed netParams →
    L.addrString a = L.addrString b → a.kind = b.kind

/-- The child numbers `deriveChildKey` hands to `Derive`, step by step. -/
def childPath (purpose coinType account chain index : Nat) : List Nat :=
  [u32 (purpose + HardenedKeyStart), u32 (coinType + HardenedKeyStart),
    u32 (account + HardenedKeyStart), chain, index]

/-- The `Derive` calls of a walk down `path` from `key` that stops at the first
failing step. -/
def pathCalls (L : Lib) : L.Key → List Nat → List (L.Key × Nat)
  | _, [] => []
  | key, n :: path =>
    (key, n) :: match L.derive key n with
      | .ok child => pathCalls L child path
      | .error _ => []

/-- The outcome of that walk: the last key, or the position (from `start`) and
the error of the first failing step. -/
def pathResult (L : Lib) (start : Nat) : L.Key → List Nat → Except (Nat × L.Err) L.Key
  | key, [] => .ok key
  | key, n :: path =>
    match L.derive key n with
    | .ok child => pathResult L (start + 1) child path
    | .error e => .error (start, e)

/-- The message `deriveChildKey` puts before the error of step `j`. -/
def stepMessage (index : Nat) : Nat → String
  | 0 => "failed to derive purpose key"
  | 1 => "failed to derive coin type key"
  | 2 => "failed to derive account key"
  | 3 => "failed to derive chain key"
  | _ => "failed to derive index key " ++ toString index

/-- The child numbers of the `Derive` calls `deriveChildKey` makes, in order. -/
def childNumbersPassed (L : Lib) (m : L.Key) (purpose coinType account chain index : Nat) :
    List Nat :=
  (derivesOf (deriveChildKey L m purpose coinType account chain index).2).map Prod.snd

/-- From step `j` on, the child numbers of steps 0, 1, 2 (purpose, coin type,
account) are hardened, in `[2^31, 2^32)`, and those of the later steps (chain,
index) are not, in `[0, 2^31)`. -/
def hardenedSplitFrom : Nat → List Nat → Prop
  | _, [] => True
  | j, n :: rest =>
    (if j < 3 then 2 ^ 31 ≤ n ∧ n < 2 ^ 32 else n < 2 ^ 31) ∧ hardenedSplitFrom (j + 1) rest

/-- The derivation prefix `findAddressInSeed` formats for a purpose and a chain. -/
def derivationPrefixOf (purpose changeType : Nat) : String :=
  Sprintf "m/%d'/0'/%d'/%d"
    [.uint32 purpose, .uint32 CoinTypeBitcoin, .uint32 DefaultAccount, .uint32 changeType]

/-- The record the loop body of `findAddressInSeed` returns at a coordinate that
renders to `target`; `none` at a coordinate that does not. -/
def recordAt (L : Lib) (masterKey : L.Key) (target : String) (c : Nat × Nat × Nat) :
    Option (AddressLookupResult L) :=
  match renderAt L masterKey c.1 c.2.1 c.2.2 with
  | some (key, a) =>
    if L.addrString a = target then
      some { Found := true, Purpose := c.1, Index := c.2.2,
             DerivationPath :=
               Sprintf "%s/%d" [.str (derivationPrefixOf c.1 c.2.1), .uint32 c.2.2],
             Address := some a, DerivedKey := some key }
    else none
  | none => none

/-- The encoding each purpose of the map is rendered in. -/
def kindOfPurpose (purpose : Nat) : AddrKind :=
  if purpose = BIP44Purpose then .legacy
  else if purpose = BIP49Purpose then .nested
  else if purpose = BIP84Purpose then .native
  else .taproot

/-- The value `&AddressLookupResult{Found: false}`. -/
def notFoundResult (L : Lib) : AddressLookupResult L :=
  { Found := false, Purpose := 0, Index := 0, DerivationPath := "",
    Address := none, DerivedKey := none }

/-! ## Libraries on which the definitions can be run

Keys are derivation paths; addresses are written as a kind letter, a chain
letter and the index in unary.  `demoLib` renders distinct coordinates to
distinct strings. -/

structure DemoKey where
  path : List Nat
  priv : Bool
  deriving DecidableEq, Repr

def demoTag : AddrKind → Char
  | .legacy => '1'
  | .nested => '3'
  | .native => 'q'
  | .taproot => 'p'
  | .witnessScript => 's'
  | .rawPubKey => 'k'

/-- The payload of an address. -/
def Address.payload : Address → List Nat
  | .pubKeyHash h _ => h
  | .scriptHash h _ => h
  | .witnessPubKeyHash _ _ w => w
  | .witnessScriptHash _ _ w => w
  | .taproot _ _ w => w
  | .pubKey s _ => s

def demoAddrString (a : Address) : String :=
  let body := match a with
    | .scriptHash h _ => h.drop 2
    | other => other.payload
  String.mk (demoTag a.kind :: (if body.getD 1 0 = 0 then 'e' else 'i') ::
    List.replicate (body.headD 0) 'x')

def demoPad (n : Nat) (b : List Nat) : List Nat := (b ++ List.replicate n 0).take n

def demoDecode (s : String) (net : Params) : Except String Address :=
  match s.toList with
  | tag :: ch :: xs =>
    if xs.all (fun x => x == 'x') ∧ (ch = 'e' ∨ ch = 'i') then
      let chain := if ch = 'e' then 0 else 1
      if tag = '1' then .ok (.pubKeyHash (demoPad 20 [xs.length, chain]) net.PubKeyHashAddrID)
      else if tag = '3' then
        .ok (.scriptHash (demoPad 20 [0, 20, xs.length, chain]) net.ScriptHashAddrID)
      else if tag = 'q' then
        .ok (.witnessPubKeyHash net.Bech32HRPSegwit.toLower 0 (demoPad 20 [xs.length, chain]))
      else if tag = 'p' then
        .ok (.taproot net.Bech32HRPSegwit.toLower 1 (demoPad 32 [xs.length, chain]))
      else .error "unknown address type"
    else .error "decoded address is of unknown format"
  | _ => .error "decoded address is of unknown format"

def demoLib : Lib where
  Key := DemoKey
  PubKey := List Nat
  Err := String
  derive k i :=
    if k.priv = true then .ok { path := i :: k.path, priv := true }
    else if HardenedKeyStart ≤ i then .error "cannot derive a hardened key from a public key"
    else .ok { path := i :: k.path, priv := false }
  neuter k := .ok { path := k.path, priv := false }
  setNet k _ := k
  keyString k := (if k.priv then "xprv" else "xpub") ++ toString k.path
  ecPubKey k := .ok k.path
  serializeCompressed p := p
  hash160 b := demoPad 20 b
  computeTaprootKeyNoScript p := p
  schnorrSerializePubKey p := demoPad 32 p
  decodeAddress := demoDecode
  addrString := demoAddrString

/-- A private master key of the example libraries. -/
def demoMaster : DemoKey := { path := [], priv := true }

/-- A public master key: its hardened derivations fail. -/
def demoPublicMaster : DemoKey := { path := [], priv := false }

/-- The record of the first coordinate, `m/44'/0'/0'/0/0`. -/
def demoFirstRecord (L : Lib) (key : L.Key) (hash : List Nat) : AddressLookupResult L :=
  { Found := true, Purpose := 44, Index := 0,
    DerivationPath := "m/44'/0'/0'/0%!(EXTRA uint32=0)/0",
    Address := some (.pubKeyHash hash 0), DerivedKey := some key }

/-- The failures a trace writes to the log: purpose name, chain and index of each
`deriveError` and `genError` line, in order. -/
def errorLogsOf {L : Lib} : List (Event L) → List (String × Nat × Nat)
  | [] => []
  | .log (.deriveError name c i _) :: t => (name, c, i) :: errorLogsOf t
  | .log (.genError name c i _) :: t => (name, c, i) :: errorLogsOf t
  | _ :: t => errorLogsOf t

/-- The library `demoLib` with a `Derive` that fails for child number 7. -/
def failLib : Lib :=
  { demoLib with
    derive := fun k i => if i = 7 then .error "invalid child" else demoLib.derive k i }

/-! ## Application state, standard-library helpers and the seed package -/

def SourceOffline : String := "Offline"
def SourceBlockstream : String := "Blockstream.info (Público)"
def SourceLocalNode : String := "Nó Local (RPC)"

/-- Modelled from the spec: the constant `crypto.NumMnemonicWords` of the package
`internal/crypto`, which is not among the sources; the spec fixes a mnemonic at
exactly 24 words. -/
def NumMnemonicWords : Nat := 24

/-- The conversion `[]byte(s)`: the UTF-8 bytes of a string. -/
def bytesOf (s : String) : List UInt8 := s.data.flatMap String.utf8EncodeChar

/-- `unicode.IsSpace` -/
def isSpace (c : Char) : Bool :=
  c = '\t' || c = '\n' || c = '\x0b' || c = '\x0c' || c = '\r' || c = ' ' ||
  c = '\u0085' || c = '\u00a0' || c = '\u1680' || ('\u2000' ≤ c && c ≤ '\u200a') ||
  c = '\u2028' || c = '\u2029' || c = '\u202f' || c = '\u205f' || c = '\u3000'

/-- The scan of `strings.Fields`: `cur` holds, reversed, the characters of the
field being read. -/
def fieldsAux : List Char → List Char → List (List Char)
  | [], cur => if cur = [] then [] else [cur.reverse]
  | c :: cs, cur =>
    if isSpace c then
      if cur = [] then fieldsAux cs [] else cur.reverse :: fieldsAux cs []
    else fieldsAux cs (c :: cur)

/-- `strings.Fields`: the maximal runs of non-space characters, in order. -/
def Fields (s : String) : List String := (fieldsAux s.data []).map String.mk

/-- `strings.Join` -/
def Join : List String → String → String
  | [], _ => ""
  | [a], _ => a
  | a :: b :: rest, sep => a ++ sep ++ Join (b :: rest) sep

/-- The package `internal/crypto` (part of the repository, not among the
sources) and `hdkeychain.NewMaster`, as the functions the program calls on them.
A `Mnemonic`, the array `[NumMnemonicWords]string`, is the list of its words. -/
structure Aezeed (L : Lib) where
  Seed : Type
  /-- `crypto.New` -/
  New : Nat → List UInt8 → Nat → Except L.Err Seed
  /-- `(*CipherSeed).ToMnemonic` -/
  ToMnemonic : Seed → List UInt8 → Except L.Err (List String)
  /-- `(*Mnemonic).ToCipherSeed` -/
  ToCipherSeed : List String → List UInt8 → Except L.Err Seed
  /-- The field `Entropy` of a cipher seed. -/
  Entropy : Seed → List UInt8
  /-- `hdkeychain.NewMaster` -/
  NewMaster : List UInt8 → Params → Except L.Err L.Key

/-- The global variables and entry texts the modelled functions read and write. -/
structure AppState (L : Lib) where
  currentChangeType : Nat
  currentBatchStart : Nat
  currentMasterKey : Option L.Key
  selectedBlockchainSource : String
  passphraseEntryText : String
  mnemonicEntryText : String

/-- The messages handed to `showStatus`. -/
inductive StatusMsg (L : Lib) where
  | entropyError (err : L.Err)
  | seedError (err : L.Err)
  | mnemonicError (err : L.Err)
  | masterKeyError (err : L.Err)
  | seedGenerated
  | wordCountError (want got : Nat)
  | decodeError (err : L.Err)
  | decodedMasterKeyError (err : L.Err)
  | mnemonicDecoded
  | verificationOffline
  | noMasterKey
  | verificationStarted (count : Nat) (purposeName source : String)
  | derivationErrors
  | checkingLocalNode (index : Nat) (addrStr : String)
  | verificationDone (purposeName : String) (errorCount : Nat)
  | showingExternal
  | showingInternal
  | batchLoaded (start : Nat)
  | lookupEmpty
  | lookupNoSeed
  | lookupStarted (target : String)
  | lookupError (err : GoError L.Err)
  | lookupNotFound
  | lookupFound

/-- A line of the report of `checkDerivationInfo`. -/
inductive ReportLine (L : Lib) where
  | error (index : Nat) (err : GoError L.Err)
  | result (index : Nat) (addrStr : String) (info : String)
  | noInfo (index : Nat) (addrStr : String)

/-- The effects of the application-level functions: library and package calls
with their arguments, widget updates, balance lookups (with the batch position
they are made for), the start of a batch iteration, the report shown. -/
inductive AppEvent (L : Lib) where
  | core (e : Event L)
  | showStatus (msg : StatusMsg L) (isError : Bool)
  | logDefaultPassphrase
  | randRead
  | cryptoNew (version : Nat) (entropy : List UInt8) (birth : Nat)
  | toMnemonic (passphrase : List UInt8)
  | toCipherSeed (mnemonic : List String) (passphrase : List UInt8)
  | newMaster (entropy : List UInt8)
  | setMnemonicText (text : String)
  | updateXPUBDisplay
  | updateAddressGrid
  | enableLoadMore
  | showVerificationButtons
  | batchPosition (i : Nat)
  | nilDereference
  | lookupLocalNode (position : Nat) (addr : Address) (key : Option L.Key) (purpose : Nat)
  | lookupBlockstream (position : Nat) (addrStr : String)
  | showReport (purposeName : String) (lines : List (ReportLine L)) (footer : Option Nat)
  | setToggleText (text : String)
  | oracleBlockstream (addrStr : String)
  | oracleLocalNode (addr : Option Address) (key : Option L.Key) (purpose : Nat)
  | showLookupDialog (searchError : Option (GoError L.Err)) (found : Bool)
      (online : Option (Except (GoError L.Err) String))

/-! ## Seed generation and decoding (`main.go`, lines 536-636) -/

/-- The function `generateNewSeedAndAddresses`.  `randRead` is what `rand.Read`
delivers (the entropy, or its error), `now` is `time.Now()`. -/
def generateNewSeedAndAddresses (L : Lib) (A : Aezeed L)
    (randRead : Except L.Err (List UInt8)) (now : Nat) (s : AppState L) :
    AppState L × List (AppEvent L) :=
  let passphrase0 := bytesOf s.passphraseEntryText
  let passphrase := if passphrase0.length = 0 then bytesOf "aezeed" else passphrase0
  let t0 : List (AppEvent L) := if passphrase0.length = 0 then [.logDefaultPassphrase] else []
  match randRead with
  | .error err =>
    (s, t0 ++ [.randRead, .showStatus (.entropyError err) true, .updateXPUBDisplay])
  | .ok entropy =>
    match A.New 0 entropy now with
    | .error err =>
      (s, t0 ++ [.randRead, .cryptoNew 0 entropy now, .showStatus (.seedError err) true,
        .updateXPUBDisplay])
    | .ok seed =>
      match A.ToMnemonic seed passphrase with
      | .error err =>
        (s, t0 ++ [.randRead, .cryptoNew 0 entropy now, .toMnemonic passphrase,
          .showStatus (.mnemonicError err) true, .updateXPUBDisplay])
      | .ok mnemonicArray =>
        let text := Join mnemonicArray " "
        let s1 := { s with mnemonicEntryText := text }
        match A.NewMaster (A.Entropy seed) netParams with
        | .error err =>
          (s1, t0 ++ [.randRead, .cryptoNew 0 entropy now, .toMnemonic passphrase,
            .setMnemonicText text, .newMaster (A.Entropy seed),
            .showStatus (.masterKeyError err) true, .updateXPUBDisplay])
        | .ok masterKey =>
          ({ s1 with currentMasterKey := some masterKey, currentBatchStart := 0 },
            t0 ++ [.randRead, .cryptoNew 0 entropy now, .toMnemonic passphrase,
              .setMnemonicText text, .newMaster (A.Entropy seed),
              .updateXPUBDisplay, .updateAddressGrid, .enableLoadMore] ++
            (if s.selectedBlockchainSource ≠ SourceOffline then [.showVerificationButtons]
              else []) ++
            [.showStatus .seedGenerated false])

/-- The function `decodeMnemonicAndAddresses`. -/
def decodeMnemonicAndAddresses (L : Lib) (A : Aezeed L) (s : AppState L) :
    AppState L × List (AppEvent L) :=
  let mnemonicStr := s.mnemonicEntryText
  let passphrase0 := bytesOf s.passphraseEntryText
  let passphrase := if passphrase0.length = 0 then bytesOf "aezeed" else passphrase0
  let t0 : List (AppEvent L) := if passphrase0.length = 0 then [.logDefaultPassphrase] else []
  let words := Fields mnemonicStr
  if words.length ≠ NumMnemonicWords then
    (s, t0 ++ [.showStatus (.wordCountError NumMnemonicWords words.length) true,
      .updateXPUBDisplay])
  else
    let mnemonic := words.take NumMnemonicWords
    match A.ToCipherSeed mnemonic passphrase with
    | .error err =>
      (s, t0 ++ [.toCipherSeed mnemonic passphrase, .showStatus (.decodeError err) true,
        .updateXPUBDisplay])
    | .ok seed =>
      match A.NewMaster (A.Entropy seed) netParams with
      | .error err =>
        (s, t0 ++ [.toCipherSeed mnemonic passphrase, .newMaster (A.Entropy seed),
          .showStatus (.decodedMasterKeyError err) true, .updateXPUBDisplay])
      | .ok masterKey =>
        ({ s with currentMasterKey := some masterKey, currentBatchStart := 0 },
          t0 ++ [.toCipherSeed mnemonic passphrase, .newMaster (A.Entropy seed),
            .updateXPUBDisplay, .updateAddressGrid, .enableLoadMore] ++
          (if s.selectedBlockchainSource ≠ SourceOffline then [.showVerificationButtons]
            else []) ++
          [.showStatus .mnemonicDecoded false])

/-- The passphrases a trace hands to the seed package, in order. -/
def codecPassphrasesOf {L : Lib} : List (AppEvent L) → List (List UInt8)
  | [] => []
  | .toMnemonic p :: t => p :: codecPassphrasesOf t
  | .toCipherSeed _ p :: t => p :: codecPassphrasesOf t
  | _ :: t => codecPassphrasesOf t

/-- The calls of `ToCipherSeed` (with the words passed) and of `NewMaster` in a
trace, in order. -/
def cryptoCallsOf {L : Lib} : List (AppEvent L) → List (Option (List String))
  | [] => []
  | .toCipherSeed words _ :: t => some words :: cryptoCallsOf t
  | .newMaster _ :: t => none :: cryptoCallsOf t
  | _ :: t => cryptoCallsOf t

/-- The error statuses a trace shows. -/
def errorStatusCount {L : Lib} : List (AppEvent L) → Nat
  | [] => 0
  | .showStatus _ true :: t => errorStatusCount t + 1
  | _ :: t => errorStatusCount t

/-! ## Batch verification (`main.go`, lines 795-949) -/

/-- The slices `results`, `errors`, `addresses` and `keys` of
`checkDerivationInfo`, indexed by batch position; `none` is nil. -/
structure Buffers (L : Lib) where
  results : Nat → String
  errors : Nat → Option (GoError L.Err)
  addresses : Nat → Option Address
  keys : Nat → Option L.Key

/-- The four slices as `make` leaves them: zero values everywhere. -/
def Buffers.make (L : Lib) : Buffers L :=
  { results := fun _ => "", errors := fun _ => none, addresses := fun _ => none,
    keys := fun _ => none }

/-- The assignment `xs[i] = v`. -/
def setAt {α : Type} (xs : Nat → α) (i : Nat) (v : α) : Nat → α :=
  fun j => if j = i then v else xs j

/-- The functions `checkAddressLocalNodeWithScan` and `checkAddressBlockstream`
by their outcome; the first argument is the batch position the lookup is made
for, as the network may answer every call differently. -/
structure BalanceSource (L : Lib) where
  checkAddressLocalNodeWithScan :
    Nat → Address → Option L.Key → Nat → Except (GoError L.Err) String
  checkAddressBlockstream : Nat → String → Except (GoError L.Err) String

/-- The `switch purpose` in the first pass of `checkDerivationInfo`; `none` is
its `default` branch. -/
def checkSwitch (L : Lib) (purpose : Nat) (key : L.Key) :
    Option (Except (GoError L.Err) Address) :=
  if purpose = BIP44Purpose then some (generateLegacyAddress L key netParams)
  else if purpose = BIP49Purpose then some (generateNestedSegWitAddress L key netParams)
  else if purpose = BIP84Purpose then some (generateNativeSegWitAddress L key netParams)
  else if purpose = BIP86Purpose then some (generateTaprootAddress L key netParams)
  else none

/-- The body of the first loop of `checkDerivationInfo` at position `i`. -/
def firstPassStep (L : Lib) (masterKey : L.Key) (purpose changeType batchStart : Nat)
    (i : Nat) (b : Buffers L) (derivationErrors : Bool) :
    (Buffers L × Bool) × List (AppEvent L) :=
  let index := u32 (batchStart + i)
  match deriveChildKey L masterKey purpose CoinTypeBitcoin DefaultAccount changeType index with
  | (.error err, calls) =>
    let e : GoError L.Err := .wrap ("idx " ++ toString index ++ ": erro ao derivar chave") err
    (({ b with errors := setAt b.errors i (some e) }, true),
      .batchPosition i :: calls.map .core)
  | (.ok key, calls) =>
    let b1 := { b with keys := setAt b.keys i (some key) }
    match checkSwitch L purpose key with
    | none =>
      let e : GoError L.Err :=
        .new ("idx " ++ toString index ++ ": propósito desconhecido " ++ toString purpose)
      (({ b1 with errors := setAt b1.errors i (some e) }, true),
        .batchPosition i :: calls.map .core)
    | some (.error err) =>
      let e : GoError L.Err :=
        .wrap ("idx " ++ toString index ++ ": erro ao gerar endereço") err
      (({ b1 with errors := setAt b1.errors i (some e) }, true),
        .batchPosition i :: calls.map .core)
    | some (.ok addr) =>
      (({ b1 with addresses := setAt b1.addresses i (some addr) }, derivationErrors),
        .batchPosition i :: calls.map .core)

/-- The first loop of `checkDerivationInfo` over the given positions, in order. -/
def firstPass (L : Lib) (masterKey : L.Key) (purpose changeType batchStart : Nat) :
    List Nat → Buffers L → Bool → (Buffers L × Bool) × List (AppEvent L)
  | [], b, derivationErrors => ((b, derivationErrors), [])
  | i :: rest, b, derivationErrors =>
    let r := firstPassStep L masterKey purpose changeType batchStart i b derivationErrors
    let r2 := firstPass L masterKey purpose changeType batchStart rest r.1.1 r.1.2
    (r2.1, r.2 ++ r2.2)

/-- The statement `if err != nil { errors[i] = ... } else { results[i] = info }`
that ends the lookup of a position. -/
def storeOutcome {L : Lib} (b : Buffers L) (i index : Nat) (addrStr : String)
    (outcome : Except (GoError L.Err) String) : Buffers L :=
  match outcome with
  | .error err =>
    let e : GoError L.Err :=
      .wrap ("idx " ++ toString index ++ " (" ++ addrStr ++ "): erro na verificação") err
    { b with errors := setAt b.errors i (some e) }
  | .ok info => { b with results := setAt b.results i info }

/-- The body of the sequential loop over the local node at position `i`; the
buffers are `none` when `addr.String()` is called on a nil address. -/
def localNodeStep (L : Lib) (S : BalanceSource L) (purpose batchStart : Nat)
    (i : Nat) (b : Buffers L) : Option (Buffers L) × List (AppEvent L) :=
  match b.addresses i with
  | none => (none, [.nilDereference])
  | some addr =>
    let key := b.keys i
    let addrStr := L.addrString addr
    let index := u32 (batchStart + i)
    (some (storeOutcome b i index addrStr
        (S.checkAddressLocalNodeWithScan i addr key purpose)),
      [.showStatus (.checkingLocalNode index addrStr) false,
        .lookupLocalNode i addr key purpose])

/-- The goroutine started for position `idx`, run to its end. -/
def blockstreamStep (L : Lib) (S : BalanceSource L) (batchStart : Nat)
    (idx : Nat) (b : Buffers L) : Option (Buffers L) × List (AppEvent L) :=
  match b.addresses idx with
  | none => (none, [.nilDereference])
  | some addr =>
    let addrStr := L.addrString addr
    (some (storeOutcome b idx (u32 (batchStart + idx)) addrStr
        (S.checkAddressBlockstream idx addrStr)),
      [.lookupBlockstream idx addrStr])

/-- A lookup body run at the given positions, one after the other, until one
of them fails on a nil address. -/
def runPositions {L : Lib} (step : Nat → Buffers L → Option (Buffers L) × List (AppEvent L)) :
    List Nat → Buffers L → Option (Buffers L) × List (AppEvent L)
  | [], b => (some b, [])
  | i :: rest, b =>
    match step i b with
    | (none, t) => (none, t)
    | (some b1, t) =>
      let r := runPositions step rest b1
      (r.1, t ++ r.2)

/-- The loop that writes the report: its lines and `errorCount`. -/
def reportLoop {L : Lib} (batchStart : Nat) (b : Buffers L) :
    List Nat → List (ReportLine L) × Nat
  | [] => ([], 0)
  | i :: rest =>
    let index := u32 (batchStart + i)
    let addrStr := match b.addresses i with
      | some addr => L.addrString addr
      | none => ""
    let r := reportLoop batchStart b rest
    match b.errors i with
    | some err => (.error index err :: r.1, r.2 + 1)
    | none =>
      if b.results i ≠ "" then (.result index addrStr (b.results i) :: r.1, r.2)
      else (.noInfo index addrStr :: r.1, r.2)

/-- The function `checkDerivationInfo`.  The goroutines of the parallel branch
write disjoint slots, so a run of them is the run of their bodies in the order
`sched` in which they complete; the sequential branch visits 0..19 in order. -/
def checkDerivationInfo (L : Lib) (S : BalanceSource L) (sched : List Nat) (s : AppState L)
    (purpose : Nat) (purposeName : String) : List (AppEvent L) :=
  if s.selectedBlockchainSource = SourceOffline then
    [.showStatus .verificationOffline false]
  else
    match s.currentMasterKey with
    | none => [.showStatus .noMasterKey true]
    | some masterKey =>
      let t0 : List (AppEvent L) :=
        [.showStatus (.verificationStarted AddressBatchSize purposeName
          s.selectedBlockchainSource) false]
      let fp := firstPass L masterKey purpose s.currentChangeType s.currentBatchStart
        (List.range AddressBatchSize) (Buffers.make L) false
      if fp.1.2 then t0 ++ fp.2 ++ [.showStatus .derivationErrors true]
      else
        let sp :=
          if s.selectedBlockchainSource = SourceLocalNode then
            runPositions (localNodeStep L S purpose s.currentBatchStart)
              (List.range AddressBatchSize) fp.1.1
          else
            runPositions (blockstreamStep L S s.currentBatchStart) sched fp.1.1
        match sp.1 with
        | none => t0 ++ fp.2 ++ sp.2
        | some b =>
          let rep := reportLoop s.currentBatchStart b (List.range AddressBatchSize)
          t0 ++ fp.2 ++ sp.2 ++
            [.showReport purposeName rep.1 (if rep.2 > 0 then some rep.2 else none),
              .showStatus (.verificationDone purposeName rep.2) (decide (rep.2 > 0))]

/-- The batch positions whose first-pass iteration a trace enters, in order. -/
def positionsOf {L : Lib} (t : List (AppEvent L)) : List Nat :=
  t.filterMap fun e => match e with
    | .batchPosition i => some i
    | _ => none

/-- The batch positions a trace looks up at a balance source, in order. -/
def lookupsOf {L : Lib} (t : List (AppEvent L)) : List Nat :=
  t.filterMap fun e => match e with
    | .lookupLocalNode i _ _ _ => some i
    | .lookupBlockstream i _ => some i
    | _ => none

/-- The reports a trace shows: their lines and the error count of the footer. -/
def reportsOf {L : Lib} (t : List (AppEvent L)) : List (List (ReportLine L) × Option Nat) :=
  t.filterMap fun e => match e with
    | .showReport _ lines footer => some (lines, footer)
    | _ => none

/-- The outcome of the lookup made for position `i` at the selected source. -/
def outcomeAt (L : Lib) (S : BalanceSource L) (source : String) (purpose i : Nat)
    (key : L.Key) (addr : Address) : Except (GoError L.Err) String :=
  if source = SourceLocalNode then S.checkAddressLocalNodeWithScan i addr (some key) purpose
  else S.checkAddressBlockstream i (L.addrString addr)

/-- The report line a position is due: named by `index`, with the error of its
lookup, or its result, or the remark that nothing came back. -/
def expectedLine (L : Lib) (index : Nat) (addr : Address)
    (outcome : Except (GoError L.Err) String) : ReportLine L :=
  match outcome with
  | .error err =>
    .error index (.wrap ("idx " ++ toString index ++ " (" ++ L.addrString addr ++
      "): erro na verificação") err)
  | .ok info =>
    if info ≠ "" then .result index (L.addrString addr) info
    else .noInfo index (L.addrString addr)

/-! ## The address grid (`main.go`, lines 733-790) -/

/-- What a cell of the grid shows. -/
inductive GridCell where
  | errDeriv
  | errGen
  | address (addrStr : String)
  deriving DecidableEq, Repr

/-- The closure `createAddressCell` of `updateAddressGrid`. -/
def createAddressCell (L : Lib) (key : Except (GoError L.Err) L.Key)
    (genFunc : L.Key → Params → Except (GoError L.Err) Address) : GridCell :=
  match key with
  | .error _ => .errDeriv
  | .ok k =>
    match genFunc k netParams with
    | .error _ => .errGen
    | .ok addr => .address (L.addrString addr)

/-- A row of the grid: the index and the four address cells. -/
structure GridRow where
  index : Nat
  legacy : GridCell
  nested : GridCell
  native : GridCell
  taproot : GridCell
  deriving DecidableEq, Repr

/-- The body of the loop of `updateAddressGrid` at position `i`. -/
def gridRow (L : Lib) (masterKey : L.Key) (changeType batchStart i : Nat) : GridRow :=
  let index := u32 (batchStart + i)
  let legacyKey :=
    (deriveChildKey L masterKey BIP44Purpose CoinTypeBitcoin DefaultAccount changeType index).1
  let nestedKey :=
    (deriveChildKey L masterKey BIP49Purpose CoinTypeBitcoin DefaultAccount changeType index).1
  let nativeKey :=
    (deriveChildKey L masterKey BIP84Purpose CoinTypeBitcoin DefaultAccount changeType index).1
  let taprootKey :=
    (deriveChildKey L masterKey BIP86Purpose CoinTypeBitcoin DefaultAccount changeType index).1
  { index := index
    legacy := createAddressCell L legacyKey (generateLegacyAddress L)
    nested := createAddressCell L nestedKey (generateNestedSegWitAddress L)
    native := createAddressCell L nativeKey (generateNativeSegWitAddress L)
    taproot := createAddressCell L taprootKey (generateTaprootAddress L) }

/-- The rows `updateAddressGrid` adds; `none` when there is no master key. -/
def updateAddressGrid (L : Lib) (s : AppState L) : Option (List GridRow) :=
  match s.currentMasterKey with
  | none => none
  | some masterKey =>
    some ((List.range AddressBatchSize).map
      (gridRow L masterKey s.currentChangeType s.currentBatchStart))

/-- The cell due to purpose `purpose` at an index: the address the encoder of
that purpose renders for the key derived under that purpose. -/
def cellAt (L : Lib) (masterKey : L.Key) (purpose changeType index : Nat) : GridCell :=
  match (deriveChildKey L masterKey purpose CoinTypeBitcoin DefaultAccount changeType index).1 with
  | .error _ => .errDeriv
  | .ok key =>
    match generateForPurpose L purpose key with
    | some (.ok addr) => .address (L.addrString addr)
    | _ => .errGen

/-- The passphrase rule in the spec's words: the default when the entry is
empty, the bytes of the entry otherwise. -/
def effectivePassphrase (text : String) : List UInt8 :=
  if text = "" then bytesOf "aezeed" else bytesOf text

/-- The calls a trace makes into the seed package and to `NewMaster`, with
their arguments. -/
def codecCallsOf {L : Lib} (t : List (AppEvent L)) : List (AppEvent L) :=
  t.filter fun e => match e with
    | .cryptoNew _ _ _ => true
    | .toMnemonic _ => true
    | .toCipherSeed _ _ => true
    | .newMaster _ => true
    | _ => false

/-- A seed package for examples: the seed is its entropy, every mnemonic is 24
times the word `seed` and decodes to the entropy 1, 2, 3. -/
def demoAezeed : Aezeed demoLib where
  Seed := List UInt8
  New := fun _ entropy _ => .ok entropy
  ToMnemonic := fun _ _ => .ok (List.replicate 24 "seed")
  ToCipherSeed := fun words _ =>
    if words = List.replicate 24 "seed" then .ok [1, 2, 3] else .error "invalid mnemonic"
  Entropy := fun seed => seed
  NewMaster := fun _ _ => .ok demoMaster

/-- A balance source for examples: the local node answers, Blockstream fails at
odd positions. -/
def demoSource (L : Lib) : BalanceSource L where
  checkAddressLocalNodeWithScan := fun _ _ _ _ => .ok "Saldo: 0.00000000 BTC"
  checkAddressBlockstream := fun i _ =>
    if i % 2 = 1 then .error (.new "timeout") else .ok ""

/-- An application state for examples. -/
def demoState (L : Lib) (masterKey : Option L.Key) (source passphrase mnemonic : String) :
    AppState L :=
  { currentChangeType := 0, currentBatchStart := 0, currentMasterKey := masterKey,
    selectedBlockchainSource := source, passphraseEntryText := passphrase,
    mnemonicEntryText := mnemonic }

/-- The positions of the batch whose lookup at the selected source fails. -/
def failedPositions (L : Lib) (S : BalanceSource L) (source : String) (purpose : Nat)
    (key : Nat → L.Key) (addr : Nat → Address) : List Nat :=
  (List.range AddressBatchSize).filter
    (fun i => !(outcomeAt L S source purpose i (key i) (addr i)).toBool)

/-- The key at `m/44'/0'/0'/0/i` in the example library. -/
def demoKeyAt (i : Nat) : DemoKey :=
  { path := [u32 i, 0, u32 (DefaultAccount + HardenedKeyStart),
      u32 (CoinTypeBitcoin + HardenedKeyStart), u32 (BIP44Purpose + HardenedKeyStart)],
    priv := true }

/-- The legacy address of `demoKeyAt i` in the example library. -/
def demoAddrAt (i : Nat) : Address := .pubKeyHash (demoPad 20 (demoKeyAt i).path) 0

/-! ## Handlers that change the state (`main.go`, lines 338-349, 373-375, 639-647) -/

/-- The global variables as their declarations initialise them, with empty
entries. -/
def initialState (L : Lib) : AppState L :=
  { currentChangeType := ExternalChain, currentBatchStart := 0, currentMasterKey := none,
    selectedBlockchainSource := SourceOffline, passphraseEntryText := "",
    mnemonicEntryText := "" }

/-- The handler of `accountToggleButton`; `1 - currentChangeType` is a `uint32`
subtraction. -/
def accountToggle (L : Lib) (s : AppState L) : AppState L × List (AppEvent L) :=
  let changeType := u32 (1 + 2 ^ 32 - s.currentChangeType)
  if changeType = ExternalChain then
    ({ s with currentChangeType := changeType, currentBatchStart := 0 },
      [.setToggleText "Mostrar Endereços Internos (Change 1)",
        .showStatus .showingExternal false, .updateAddressGrid])
  else
    ({ s with currentChangeType := changeType, currentBatchStart := 0 },
      [.setToggleText "Mostrar Endereços Externos (Change 0)",
        .showStatus .showingInternal false, .updateAddressGrid])

/-- The function `loadNextBatch`. -/
def loadNextBatch (L : Lib) (s : AppState L) : AppState L × List (AppEvent L) :=
  match s.currentMasterKey with
  | none => (s, [.showStatus .noMasterKey true])
  | some _ =>
    let start := u32 (s.currentBatchStart + AddressBatchSize)
    ({ s with currentBatchStart := start },
      [.updateAddressGrid, .showStatus (.batchLoaded start) false])

/-- The handler of `blockchainSourceRadio`, as far as the state goes. -/
def selectSource (L : Lib) (selected : String) (s : AppState L) : AppState L :=
  { s with selectedBlockchainSource := selected }

/-! ## Address lookup dialog (`main.go`, lines 1105-1205) -/

/-- The function `handleAddressLookup`.  `targetAddrStr` is the text of the lookup
entry, `online` what the balance function delivers if it is called. -/
def handleAddressLookup (L : Lib) (order : List (Nat × String))
    (online : Except (GoError L.Err) String) (s : AppState L) (targetAddrStr : String) :
    List (AppEvent L) :=
  if targetAddrStr = "" then [.showStatus .lookupEmpty true]
  else
    match s.currentMasterKey with
    | none => [.showStatus .lookupNoSeed true]
    | some _ =>
      let r := findAddressInSeed L order s.currentMasterKey targetAddrStr
      let t0 : List (AppEvent L) :=
        .showStatus (.lookupStarted targetAddrStr) false :: r.2.map .core
      match r.1 with
      | .error findErr =>
        t0 ++ [.showStatus (.lookupError findErr) true,
          .showLookupDialog (some findErr) false none]
      | .ok findResult =>
        if findResult.Found = false then
          if s.selectedBlockchainSource ≠ SourceOffline then
            if s.selectedBlockchainSource = SourceBlockstream then
              t0 ++ [.oracleBlockstream targetAddrStr, .showStatus .lookupNotFound false,
                .showLookupDialog none false (some online)]
            else
              t0 ++ [.showStatus .lookupNotFound false,
                .showLookupDialog none false (some (.ok
                  ("(Verificação de saldo via Nó Local requer que o endereço seja " ++
                    "encontrado na seed primeiro)")))]
          else
            t0 ++ [.showStatus .lookupNotFound false, .showLookupDialog none false none]
        else
          if s.selectedBlockchainSource ≠ SourceOffline then
            if s.selectedBlockchainSource = SourceBlockstream then
              t0 ++ [.oracleBlockstream targetAddrStr, .showStatus .lookupFound false,
                .showLookupDialog none true (some online)]
            else
              t0 ++ [.oracleLocalNode findResult.Address findResult.DerivedKey
                  findResult.Purpose,
                .showStatus .lookupFound false, .showLookupDialog none true (some online)]
          else
            t0 ++ [.showStatus .lookupFound false, .showLookupDialog none true none]

/-! ## Runs of the application -/

/-- What the user can do to the application: the buttons, the radio group and
the two entries. -/
inductive Action (L : Lib) where
  | toggleAccount
  | generate (randRead : Except L.Err (List UInt8)) (now : Nat)
  | decode
  | loadMore
  | selectSource (selected : String)
  | typePassphrase (text : String)
  | typeMnemonic (text : String)
  | verify (purpose : Nat) (purposeName : String)
  | lookup (targetAddrStr : String)

/-- The state an action leaves. -/
def perform (L : Lib) (A : Aezeed L) (a : Action L) (s : AppState L) : AppState L :=
  match a with
  | .toggleAccount => (accountToggle L s).1
  | .generate randRead now => (generateNewSeedAndAddresses L A randRead now s).1
  | .decode => (decodeMnemonicAndAddresses L A s).1
  | .loadMore => (loadNextBatch L s).1
  | .selectSource selected => selectSource L selected s
  | .typePassphrase text => { s with passphraseEntryText := text }
  | .typeMnemonic text => { s with mnemonicEntryText := text }
  | .verify _ _ => s
  | .lookup _ => s

/-- The state after a sequence of actions. -/
def runActions (L : Lib) (A : Aezeed L) : List (Action L) → AppState L → AppState L
  | [], s => s
  | a :: rest, s => runActions L A rest (perform L A a s)

/-- The library calls in a trace of the application, in order. -/
def coreOf {L : Lib} (t : List (AppEvent L)) : List (Event L) :=
  t.filterMap fun e => match e with
    | .core e => some e
    | _ => none

/-- The calls of `checkAddressBlockstream` and `checkAddressLocalNodeWithScan`
(the only caller of `getRPCClient`) in a trace. -/
def oracleCallsOf {L : Lib} (t : List (AppEvent L)) : List (AppEvent L) :=
  t.filter fun e => match e with
    | .lookupLocalNode _ _ _ _ => true
    | .lookupBlockstream _ _ => true
    | .oracleBlockstream _ => true
    | .oracleLocalNode _ _ _ => true
    | _ => false

/-! ## The string encodings of `btcutil` (`base58`, `bech32`, `address.go`)

`Address.String` written out.  The hash of the base58 checksum, the regrouping
of bits, the bech32 checksum and the bech32 decoder are taken as they come. -/

/-- The functions of the two encodings that are not written out. -/
structure Encodings (E : Type) where
  /-- `base58.checksum`: the first four bytes of the double SHA-256. -/
  checksum : List Nat → List Nat
  /-- `bech32.ConvertBits` -/
  ConvertBits : List Nat → Nat → Nat → Bool → Except E (List Nat)
  /-- The six characters `writeBech32Checksum` writes, for bech32 (`Version0`,
  0) or bech32m (`VersionM`, 1). -/
  bech32Checksum : String → List Nat → Nat → List Char
  /-- `decodeSegWitAddress`: witness version and program of a bech32 string. -/
  decodeSegWitAddress : String → Except E (Nat × List Nat)

/-- The alphabet of `base58`. -/
def base58Alphabet : String := "123456789ABCDEFGHJKLMNPQRSTUVWXYZabcdefghijkmnopqrstuvwxyz"

/-- The character set of `bech32`. -/
def bech32Charset : String := "qpzry9x8gf2tvdw0s3jn54khce6mua7l"

/-- `(*big.Int).SetBytes`: the number a big-endian byte string denotes. -/
def bytesToNat (b : List Nat) : Nat := b.foldl (fun x y => x * 256 + y) 0

/-- `base58.Encode`: the base-58 digits of the number, least significant first
(Go divides by 58^10 at a time and splits the remainder, which gives the same
digits), then one `1` for every leading zero byte, the whole reversed. -/
def Base58Encode (b : List Nat) : String :=
  let digits := (Nat.digits 58 (bytesToNat b)).map fun d => base58Alphabet.data.getD d '1'
  let zeros := List.replicate (b.takeWhile fun y => y == 0).length '1'
  String.mk (digits ++ zeros).reverse

/-- `base58.CheckEncode` -/
def CheckEncode {E : Type} (B : Encodings E) (input : List Nat) (version : Nat) : String :=
  let b := version :: input
  Base58Encode (b ++ B.checksum b)

/-- `encodeGeneric` of `bech32`: the lower-case prefix, the separator `1`, the
data in the character set and the checksum; an error on a data value that is
not in the character set. -/
def bech32EncodeGeneric {E : Type} (B : Encodings E) (hrp : String) (data : List Nat)
    (version : Nat) : Except (GoError E) String :=
  let hrp1 := hrp.toLower
  match data.find? fun b => decide (bech32Charset.length ≤ b) with
  | some b => .error (.new ("invalid data byte: " ++ toString b))
  | none =>
    .ok (hrp1 ++ "1" ++ String.mk (data.map fun b => bech32Charset.data.getD b 'q') ++
      String.mk (B.bech32Checksum hrp1 data version))

/-- `encodeSegWitAddress` of `btcutil` -/
def encodeSegWitAddress {E : Type} (B : Encodings E) (hrp : String) (witnessVersion : Nat)
    (witnessProgram : List Nat) : Except (GoError E) String :=
  match B.ConvertBits witnessProgram 8 5 true with
  | .error err => .error (.lib err)
  | .ok converted =>
    let combined := witnessVersion :: converted
    let encoded :=
      if witnessVersion = 0 then bech32EncodeGeneric B hrp combined 0
      else if witnessVersion = 1 then bech32EncodeGeneric B hrp combined 1
      else .error (.new ("unsupported witness version " ++ toString witnessVersion))
    match encoded with
    | .error err => .error err
    | .ok bech =>
      match B.decodeSegWitAddress bech with
      | .error err => .error (.wrap "invalid segwit address" (.lib err))
      | .ok (version, program) =>
        if version ≠ witnessVersion ∨ program ≠ witnessProgram then
          .error (.new "invalid segwit address")
        else .ok bech

/-- `EncodeAddress`, which `String` returns, of the six address types: base58
with the network identifier for the hash addresses, bech32 for the witness
addresses, where a failure of the encoder gives the empty string. -/
def EncodeAddress (L : Lib) (B : Encodings L.Err) : Address → String
  | .pubKeyHash hash netID => CheckEncode B (hash.take 20) netID
  | .scriptHash hash netID => CheckEncode B (hash.take 20) netID
  | .witnessPubKeyHash hrp v prog =>
    match encodeSegWitAddress B hrp v prog with
    | .error _ => ""
    | .ok str => str
  | .witnessScriptHash hrp v prog =>
    match encodeSegWitAddress B hrp v prog with
    | .error _ => ""
    | .ok str => str
  | .taproot hrp v prog =>
    match encodeSegWitAddress B hrp v prog with
    | .error _ => ""
    | .ok str => str
  | .pubKey serialized netID => CheckEncode B ((L.hash160 serialized).take 20) netID

/-- Library fact: the bytes of a `Hash160` are bytes. -/
def Hash160Bytes (L : Lib) : Prop := ∀ b, ∀ x ∈ L.hash160 b, x < 256

/-- Library fact: the base58 checksum is four bytes. -/
def ChecksumSized {E : Type} (B : Encodings E) : Prop :=
  ∀ b, (B.checksum b).length = 4 ∧ ∀ x ∈ B.checksum b, x < 256

/-- Library fact, at one witness program: the bech32 encoder of `btcutil` accepts
it on the network of the program (it fails on no program of a valid length). -/
def SegWitEncodes {E : Type} (B : Encodings E) (witnessVersion : Nat)
    (witnessProgram : List Nat) : Prop :=
  ∃ str, encodeSegWitAddress B netParams.Bech32HRPSegwit.toLower witnessVersion
    witnessProgram = .ok str

/-- The example library with a `Hash160` of bytes. -/
def byteLib : Lib := { demoLib with hash160 := fun b => demoPad 20 (b.map fun x => x % 256) }

/-- Encodings for examples: a zero checksum, and a decoder that reads the
witness version off the fourth character and returns a program of zeros. -/
def demoEncodings : Encodings String where
  checksum := fun _ => [0, 0, 0, 0]
  ConvertBits := fun d _ _ _ => .ok (d.map fun x => x % 32)
  bech32Checksum := fun _ _ _ => List.replicate 6 'q'
  decodeSegWitAddress := fun s =>
    if s.data.getD 3 'q' = 'q' then .ok (0, List.replicate 20 0)
    else .ok (1, List.replicate 32 0)

/-- Library fact: on the network of the program the decoder accepts the string
of a well-formed address of one of the four kinds the program renders, and the
address it returns has that same string. -/
def DecodesOwnStrings (L : Lib) : Prop :=
  ∀ a : Address, a.wellFormed netParams →
    (a.kind = .legacy ∨ a.kind = .nested ∨ a.kind = .native ∨ a.kind = .taproot) →
    ∃ a1, L.decodeAddress (L.addrString a) netParams = .ok a1 ∧
      L.addrString a1 = L.addrString a

/-- Library fact, at one master key: under one purpose, coordinates of the search
space with different indices render different strings (the hashes and the key
derivation do not collide on the 40000 keys of a purpose). -/
def IndexSeparated (L : Lib) (m : L.Key) : Prop :=
  ∀ x ∈ searchSpace purposes, ∀ y ∈ searchSpace purposes, x.1 = y.1 →
    ∀ kx ax ky ay, renderAt L m x.1 x.2.1 x.2.2 = some (kx, ax) →
      renderAt L m y.1 y.2.1 y.2.2 = some (ky, ay) →
      L.addrString ax = L.addrString ay → x.2.2 = y.2.2

end LND

namespace LND

/-! ## Key derivation: theorems -/

theorem u32_add_hardened (n : Nat) (h : n < 2 ^ 31) :
    u32 (n + HardenedKeyStart) = n + 2 ^ 31 := by
  unfold u32 HardenedKeyStart
  omega

/-- C1: when the five `Derive` calls succeed, `deriveChildKey` returns the key
reached by deriving, in this order, purpose + 2^31, coinType + 2^31,
account + 2^31 (uint32 additions), chain and index, and these five calls are the
only derivations it makes. -/
theorem C1_deriveChildKey_five_steps (L : Lib) (m : L.Key)
    (purpose coinType account chain index : Nat) (kp kc ka kch ki : L.Key)
    (h1 : L.derive m (u32 (purpose + HardenedKeyStart)) = .ok kp)
    (h2 : L.derive kp (u32 (coinType + HardenedKeyStart)) = .ok kc)
    (h3 : L.derive kc (u32 (account + HardenedKeyStart)) = .ok ka)
    (h4 : L.derive ka chain = .ok kch)
    (h5 : L.derive kch index = .ok ki) :
    (deriveChildKey L m purpose coinType account chain index).1 = .ok ki ∧
    derivesOf (deriveChildKey L m purpose coinType account chain index).2 =
      [(m, u32 (purpose + HardenedKeyStart)), (kp, u32 (coinType + HardenedKeyStart)),
        (kc, u32 (account + HardenedKeyStart)), (ka, chain), (kch, index)] ∧
    (purpose < 2 ^ 31 → u32 (purpose + HardenedKeyStart) = purpose + 2 ^ 31) ∧
    (coinType < 2 ^ 31 → u32 (coinType + HardenedKeyStart) = coinType + 2 ^ 31) ∧
    (account < 2 ^ 31 → u32 (account + HardenedKeyStart) = account + 2 ^ 31) := by
  refine ⟨?_, ?_, u32_add_hardened _, u32_add_hardened _, u32_add_hardened _⟩
  · simp [deriveChildKey, h1, h2, h3, h4, h5]
  · simp [deriveChildKey, h1, h2, h3, h4, h5, derivesOf]

theorem C1_witness :
    (deriveChildKey demoLib demoMaster 44 0 0 1 7).1 =
        .ok { path := [7, 1, 2147483648, 2147483648, 2147483692], priv := true } ∧
      derivesOf (deriveChildKey demoLib demoMaster 44 0 0 1 7).2 =
        [(demoMaster, u32 (44 + HardenedKeyStart)),
          ({ path := [2147483692], priv := true }, u32 (0 + HardenedKeyStart)),
          ({ path := [2147483648, 2147483692], priv := true }, u32 (0 + HardenedKeyStart)),
          ({ path := [2147483648, 2147483648, 2147483692], priv := true }, 1),
          ({ path := [1, 2147483648, 2147483648, 2147483692], priv := true }, 7)] ∧
      (44 < 2 ^ 31 → u32 (44 + HardenedKeyStart) = 44 + 2 ^ 31) ∧
      (0 < 2 ^ 31 → u32 (0 + HardenedKeyStart) = 0 + 2 ^ 31) ∧
      (0 < 2 ^ 31 → u32 (0 + HardenedKeyStart) = 0 + 2 ^ 31) :=
  C1_deriveChildKey_five_steps demoLib demoMaster 44 0 0 1 7
    { path := [2147483692], priv := true }
    { path := [2147483648, 2147483692], priv := true }
    { path := [2147483648, 2147483648, 2147483692], priv := true }
    { path := [1, 2147483648, 2147483648, 2147483692], priv := true }
    { path := [7, 1, 2147483648, 2147483648, 2147483692], priv := true }
    rfl rfl rfl rfl rfl

/-- The `Derive` calls of `deriveChildKey` are those of the walk down its child
path that stops at the first failing step. -/
theorem deriveChildKey_calls (L : Lib) (m : L.Key)
    (purpose coinType account chain index : Nat) :
    derivesOf (deriveChildKey L m purpose coinType account chain index).2 =
      pathCalls L m (childPath purpose coinType account chain index) := by
  unfold deriveChildKey childPath
  cases h1 : L.derive m (u32 (purpose + HardenedKeyStart)) with
  | error e => simp [derivesOf, pathCalls, h1]
  | ok kp =>
    cases h2 : L.derive kp (u32 (coinType + HardenedKeyStart)) with
    | error e => simp [derivesOf, pathCalls, h1, h2]
    | ok kc =>
      cases h3 : L.derive kc (u32 (account + HardenedKeyStart)) with
      | error e => simp [derivesOf, pathCalls, h1, h2, h3]
      | ok ka =>
        cases h4 : L.derive ka chain with
        | error e => simp [derivesOf, pathCalls, h1, h2, h3, h4]
        | ok kch =>
          cases h5 : L.derive kch index with
          | error e => simp [derivesOf, pathCalls, h1, h2, h3, h4, h5]
          | ok ki => simp [derivesOf, pathCalls, h1, h2, h3, h4, h5]

/-- The result of `deriveChildKey` is that of the walk, its error wrapped with
the message of the failing step. -/
theorem deriveChildKey_result (L : Lib) (m : L.Key)
    (purpose coinType account chain index : Nat) :
    (deriveChildKey L m purpose coinType account chain index).1 =
      match pathResult L 0 m (childPath purpose coinType account chain index) with
      | .ok k => .ok k
      | .error (j, e) => .error (.wrap (stepMessage index j) (.lib e)) := by
  unfold deriveChildKey childPath
  cases h1 : L.derive m (u32 (purpose + HardenedKeyStart)) with
  | error e => simp [pathResult, stepMessage, h1]
  | ok kp =>
    cases h2 : L.derive kp (u32 (coinType + HardenedKeyStart)) with
    | error e => simp [pathResult, stepMessage, h1, h2]
    | ok kc =>
      cases h3 : L.derive kc (u32 (account + HardenedKeyStart)) with
      | error e => simp [pathResult, stepMessage, h1, h2, h3]
      | ok ka =>
        cases h4 : L.derive ka chain with
        | error e => simp [pathResult, stepMessage, h1, h2, h3, h4]
        | ok kch =>
          cases h5 : L.derive kch index with
          | error e => simp [pathResult, stepMessage, h1, h2, h3, h4, h5]
          | ok ki => simp [pathResult, stepMessage, h1, h2, h3, h4, h5]

/-- The calls of a walk carry an initial segment of the child numbers of its
path, so they keep the hardened split of the path. -/
theorem hardenedSplitFrom_pathCalls (L : Lib) :
    ∀ (path : List Nat) (j : Nat) (k : L.Key), hardenedSplitFrom j path →
      hardenedSplitFrom j ((pathCalls L k path).map Prod.snd) := by
  intro path
  induction path with
  | nil => intro j k _; simp only [pathCalls, List.map_nil, hardenedSplitFrom]
  | cons n path ih =>
    intro j k h
    obtain ⟨hn, hrest⟩ := h
    cases hd : L.derive k n with
    | error e =>
      simp only [pathCalls, hd, List.map_cons, List.map_nil, hardenedSplitFrom]
      exact ⟨hn, trivial⟩
    | ok child =>
      simp only [pathCalls, hd, List.map_cons, hardenedSplitFrom]
      exact ⟨hn, ih (j + 1) child hrest⟩

/-- C2, as amended: for purpose, coinType and account below 2^31 and chain and
index below 2^31, the child numbers `deriveChildKey` passes to `Derive` are
hardened for the first three steps and non-hardened for the last two. -/
theorem C2_hardened_split_small_inputs (L : Lib) (m : L.Key)
    (purpose coinType account chain index : Nat)
    (hp : purpose < 2 ^ 31) (hc : coinType < 2 ^ 31) (ha : account < 2 ^ 31)
    (hch : chain < 2 ^ 31) (hi : index < 2 ^ 31) :
    hardenedSplitFrom 0 (childNumbersPassed L m purpose coinType account chain index) := by
  have e1 := u32_add_hardened purpose hp
  have e2 := u32_add_hardened coinType hc
  have e3 := u32_add_hardened account ha
  unfold childNumbersPassed
  rw [deriveChildKey_calls]
  apply hardenedSplitFrom_pathCalls
  unfold childPath
  rw [e1, e2, e3]
  simp only [hardenedSplitFrom]
  refine ⟨?_, ?_, ?_, ?_, ?_, trivial⟩
  · rw [if_pos (by decide)]; omega
  · rw [if_pos (by decide)]; omega
  · rw [if_pos (by decide)]; omega
  · rw [if_neg (by decide)]; omega
  · rw [if_neg (by decide)]; omega

theorem C2_witness :
    hardenedSplitFrom 0 (childNumbersPassed demoLib demoMaster 84 0 0 1 19999) :=
  C2_hardened_split_small_inputs demoLib demoMaster 84 0 0 1 19999
    (by decide) (by decide) (by decide) (by decide) (by decide)

/-- C2 fails as stated: with the uint32 values purpose = 2^31 and chain = 2^31
the purpose step is passed child number 0, which is not hardened, and the chain
step is passed 2^31, which is. -/
theorem C2_counterexample :
    2147483648 < 2 ^ 32 ∧
    childNumbersPassed demoLib demoMaster 2147483648 0 0 2147483648 0 =
      [0, 2147483648, 2147483648, 2147483648, 0] ∧
    ¬ hardenedSplitFrom 0 (childNumbersPassed demoLib demoMaster 2147483648 0 0 2147483648 0) := by
  have h : childNumbersPassed demoLib demoMaster 2147483648 0 0 2147483648 0 =
      [0, 2147483648, 2147483648, 2147483648, 0] := by decide
  refine ⟨by decide, h, ?_⟩
  rw [h]
  simp [hardenedSplitFrom]

/-- C3: `deriveChildKey` makes its `Derive` calls one after the other down the
child path and stops at the first that fails; it returns an error exactly when a
call it made failed, and then the failing call is the last one made, every call
before it succeeded, and the error wraps the library error of that call under
the message of its step. -/
theorem C3_deriveChildKey_first_error (L : Lib) (m : L.Key)
    (purpose coinType account chain index : Nat) :
    derivesOf (deriveChildKey L m purpose coinType account chain index).2 =
      pathCalls L m (childPath purpose coinType account chain index) ∧
    ((∃ e, (deriveChildKey L m purpose coinType account chain index).1 = .error e) ↔
      ∃ call ∈ derivesOf (deriveChildKey L m purpose coinType account chain index).2,
        ∃ le, L.derive call.1 call.2 = .error le) ∧
    (∀ e, (deriveChildKey L m purpose coinType account chain index).1 = .error e →
      ∃ j k n le, j < 5 ∧
        (derivesOf (deriveChildKey L m purpose coinType account chain index).2).length = j + 1 ∧
        (childPath purpose coinType account chain index)[j]? = some n ∧
        (derivesOf (deriveChildKey L m purpose coinType account chain index).2).getLast? =
          some (k, n) ∧
        L.derive k n = .error le ∧
        e = .wrap (stepMessage index j) (.lib le) ∧
        ∀ call ∈ (derivesOf (deriveChildKey L m purpose coinType account chain index).2).dropLast,
          ∃ k1, L.derive call.1 call.2 = .ok k1) := by
  refine ⟨deriveChildKey_calls L m purpose coinType account chain index, ?_, ?_⟩
  · unfold deriveChildKey
    cases h1 : L.derive m (u32 (purpose + HardenedKeyStart)) with
    | error e =>
      simp only [h1, derivesOf]
      exact ⟨fun _ => ⟨(m, u32 (purpose + HardenedKeyStart)), List.mem_singleton.2 rfl, e, h1⟩,
        fun _ => ⟨_, rfl⟩⟩
    | ok kp =>
      cases h2 : L.derive kp (u32 (coinType + HardenedKeyStart)) with
      | error e =>
        simp only [h1, h2, derivesOf]
        exact ⟨fun _ => ⟨(kp, u32 (coinType + HardenedKeyStart)), by simp only [List.mem_cons, true_or, or_true], e, h2⟩,
          fun _ => ⟨_, rfl⟩⟩
      | ok kc =>
        cases h3 : L.derive kc (u32 (account + HardenedKeyStart)) with
        | error e =>
          simp only [h1, h2, h3, derivesOf]
          exact ⟨fun _ => ⟨(kc, u32 (account + HardenedKeyStart)), by simp only [List.mem_cons, true_or, or_true], e, h3⟩,
            fun _ => ⟨_, rfl⟩⟩
        | ok ka =>
          cases h4 : L.derive ka chain with
          | error e =>
            simp only [h1, h2, h3, h4, derivesOf]
            exact ⟨fun _ => ⟨(ka, chain), by simp only [List.mem_cons, true_or, or_true], e, h4⟩,
              fun _ => ⟨_, rfl⟩⟩
          | ok kch =>
            cases h5 : L.derive kch index with
            | error e =>
              simp only [h1, h2, h3, h4, h5, derivesOf]
              exact ⟨fun _ => ⟨(kch, index), by simp only [List.mem_cons, true_or, or_true], e, h5⟩,
                fun _ => ⟨_, rfl⟩⟩
            | ok ki =>
              simp only [h1, h2, h3, h4, h5, derivesOf]
              constructor
              · rintro ⟨e, he⟩
                cases he
              · rintro ⟨call, hc, le, hle⟩
                simp only [List.mem_cons, List.not_mem_nil, or_false] at hc
                rcases hc with rfl | rfl | rfl | rfl | rfl
                · rw [h1] at hle; cases hle
                · rw [h2] at hle; cases hle
                · rw [h3] at hle; cases hle
                · rw [h4] at hle; cases hle
                · rw [h5] at hle; cases hle
  · intro e
    unfold deriveChildKey childPath
    cases h1 : L.derive m (u32 (purpose + HardenedKeyStart)) with
    | error le =>
      simp only [h1, derivesOf]
      intro he
      cases he
      refine ⟨0, m, _, le, by decide, rfl, rfl, rfl, h1, rfl, ?_⟩
      intro call hc
      simp only [List.dropLast_single, List.not_mem_nil] at hc
    | ok kp =>
      cases h2 : L.derive kp (u32 (coinType + HardenedKeyStart)) with
      | error le =>
        simp only [h1, h2, derivesOf]
        intro he
        cases he
        refine ⟨1, kp, _, le, by decide, rfl, rfl, rfl, h2, rfl, ?_⟩
        intro call hc
        simp only [List.dropLast_cons₂, List.dropLast_single, List.mem_cons,
          List.not_mem_nil, or_false] at hc
        subst hc
        exact ⟨_, h1⟩
      | ok kc =>
        cases h3 : L.derive kc (u32 (account + HardenedKeyStart)) with
        | error le =>
          simp only [h1, h2, h3, derivesOf]
          intro he
          cases he
          refine ⟨2, kc, _, le, by decide, rfl, rfl, rfl, h3, rfl, ?_⟩
          intro call hc
          simp only [List.dropLast_cons₂, List.dropLast_single, List.mem_cons,
            List.not_mem_nil, or_false] at hc
          rcases hc with rfl | rfl
          · exact ⟨_, h1⟩
          · exact ⟨_, h2⟩
        | ok ka =>
          cases h4 : L.derive ka chain with
          | error le =>
            simp only [h1, h2, h3, h4, derivesOf]
            intro he
            cases he
            refine ⟨3, ka, _, le, by decide, rfl, rfl, rfl, h4, rfl, ?_⟩
            intro call hc
            simp only [List.dropLast_cons₂, List.dropLast_single, List.mem_cons,
              List.not_mem_nil, or_false] at hc
            rcases hc with rfl | rfl | rfl
            · exact ⟨_, h1⟩
            · exact ⟨_, h2⟩
            · exact ⟨_, h3⟩
          | ok kch =>
            cases h5 : L.derive kch index with
            | error le =>
              simp only [h1, h2, h3, h4, h5, derivesOf]
              intro he
              cases he
              refine ⟨4, kch, _, le, by decide, rfl, rfl, rfl, h5, rfl, ?_⟩
              intro call hc
              simp only [List.dropLast_cons₂, List.dropLast_single, List.mem_cons,
                List.not_mem_nil, or_false] at hc
              rcases hc with rfl | rfl | rfl | rfl
              · exact ⟨_, h1⟩
              · exact ⟨_, h2⟩
              · exact ⟨_, h3⟩
              · exact ⟨_, h4⟩
            | ok ki =>
              simp only [h1, h2, h3, h4, h5]
              intro he
              cases he

/-- C4: when the three hardened steps and `Neuter` succeed, `deriveAccountXpub`
returns the string of the neutered account node with the network set, that key is
the only one it serialises, and the account node is the one from which
`deriveChildKey` goes on with the chain and index steps; it returns an error
exactly when one of the four steps fails, and then serialises nothing. -/
theorem C4_deriveAccountXpub_neutered (L : Lib) (m : L.Key)
    (purpose coinType account : Nat) (net : Params) :
    (∀ kp kc ka kx,
      L.derive m (u32 (purpose + HardenedKeyStart)) = .ok kp →
      L.derive kp (u32 (coinType + HardenedKeyStart)) = .ok kc →
      L.derive kc (u32 (account + HardenedKeyStart)) = .ok ka →
      L.neuter ka = .ok kx →
      (deriveAccountXpub L m purpose coinType account net).1 =
          .ok (L.keyString (L.setNet kx net)) ∧
        serializedOf (deriveAccountXpub L m purpose coinType account net).2 =
          [L.setNet kx net] ∧
        derivesOf (deriveAccountXpub L m purpose coinType account net).2 =
          [(m, u32 (purpose + HardenedKeyStart)), (kp, u32 (coinType + HardenedKeyStart)),
            (kc, u32 (account + HardenedKeyStart))] ∧
        ∀ chain index,
          derivesOf (deriveChildKey L m purpose coinType account chain index).2 =
            derivesOf (deriveAccountXpub L m purpose coinType account net).2 ++
              pathCalls L ka [chain, index] ∧
          (deriveChildKey L m purpose coinType account chain index).1 =
            match pathResult L 3 ka [chain, index] with
            | .ok k => .ok k
            | .error (j, e) => .error (.wrap (stepMessage index j) (.lib e))) ∧
    ((∃ e, (deriveAccountXpub L m purpose coinType account net).1 = .error e) ↔
      ¬ ∃ kp kc ka kx,
        L.derive m (u32 (purpose + HardenedKeyStart)) = .ok kp ∧
        L.derive kp (u32 (coinType + HardenedKeyStart)) = .ok kc ∧
        L.derive kc (u32 (account + HardenedKeyStart)) = .ok ka ∧
        L.neuter ka = .ok kx) ∧
    ((∃ e, (deriveAccountXpub L m purpose coinType account net).1 = .error e) →
      serializedOf (deriveAccountXpub L m purpose coinType account net).2 = []) := by
  refine ⟨?_, ?_, ?_⟩
  · intro kp kc ka kx h1 h2 h3 hn
    refine ⟨?_, ?_, ?_, ?_⟩
    · simp [deriveAccountXpub, h1, h2, h3, hn]
    · simp [deriveAccountXpub, h1, h2, h3, hn, serializedOf]
    · simp [deriveAccountXpub, h1, h2, h3, hn, derivesOf]
    · intro chain index
      constructor
      · rw [deriveChildKey_calls]
        simp [deriveAccountXpub, childPath, pathCalls, h1, h2, h3, hn, derivesOf]
      · rw [deriveChildKey_result]
        simp [childPath, pathResult, h1, h2, h3]
  · unfold deriveAccountXpub
    cases h1 : L.derive m (u32 (purpose + HardenedKeyStart)) with
    | error e => simp [h1]
    | ok kp =>
      cases h2 : L.derive kp (u32 (coinType + HardenedKeyStart)) with
      | error e => simp [h1, h2]
      | ok kc =>
        cases h3 : L.derive kc (u32 (account + HardenedKeyStart)) with
        | error e => simp [h1, h2, h3]
        | ok ka =>
          cases hn : L.neuter ka with
          | error e => simp [h1, h2, h3, hn]
          | ok kx => simp [h1, h2, h3, hn]
  · unfold deriveAccountXpub
    cases h1 : L.derive m (u32 (purpose + HardenedKeyStart)) with
    | error e => simp [h1, serializedOf]
    | ok kp =>
      cases h2 : L.derive kp (u32 (coinType + HardenedKeyStart)) with
      | error e => simp [h1, h2, serializedOf]
      | ok kc =>
        cases h3 : L.derive kc (u32 (account + HardenedKeyStart)) with
        | error e => simp [h1, h2, h3, serializedOf]
        | ok ka =>
          cases hn : L.neuter ka with
          | error e => simp [h1, h2, h3, hn, serializedOf]
          | ok kx => simp [h1, h2, h3, hn, serializedOf]

/-- The account-level key of the demonstration library: the string returned is
that of the public node, and the private account node is not what is
serialised. -/
theorem C4_witness :
    (deriveAccountXpub demoLib demoMaster 84 0 0 netParams).1 =
        .ok (demoLib.keyString
          (demoLib.setNet { path := [2147483648, 2147483648, 2147483732], priv := false }
            netParams)) ∧
      serializedOf (deriveAccountXpub demoLib demoMaster 84 0 0 netParams).2 =
        [{ path := [2147483648, 2147483648, 2147483732], priv := false }] :=
  ⟨((C4_deriveAccountXpub_neutered demoLib demoMaster 84 0 0 netParams).1
      { path := [2147483732], priv := true }
      { path := [2147483648, 2147483732], priv := true }
      { path := [2147483648, 2147483648, 2147483732], priv := true }
      { path := [2147483648, 2147483648, 2147483732], priv := false }
      rfl rfl rfl rfl).1,
    ((C4_deriveAccountXpub_neutered demoLib demoMaster 84 0 0 netParams).1
      { path := [2147483732], priv := true }
      { path := [2147483648, 2147483732], priv := true }
      { path := [2147483648, 2147483648, 2147483732], priv := true }
      { path := [2147483648, 2147483648, 2147483732], priv := false }
      rfl rfl rfl rfl).2.1⟩

/-! ## Address rendering: theorems -/

/-- The script built from `OP_0` and a 20-byte push is the 22 bytes
`0x00, 0x14, h`, and the builder reports no error. -/
theorem witnessScript_of_hash (h : List Nat) (hlen : h.length = 20) :
    ((NewScriptBuilder.AddOp OP_0).AddData h).Script = .ok (0 :: 20 :: h) := by
  simp [NewScriptBuilder, ScriptBuilder.AddOp, ScriptBuilder.AddData, ScriptBuilder.addData,
    ScriptBuilder.Script, canonicalDataSize, hlen, MaxScriptSize, MaxScriptElementSize,
    OP_0, OP_DATA_1, OP_PUSHDATA1]

theorem generateLegacyAddress_ok (L : Lib) (hH : Hash160Sized L) (key : L.Key) (net : Params)
    (pub : L.PubKey) (hpub : L.ecPubKey key = .ok pub) :
    generateLegacyAddress L key net =
      .ok (.pubKeyHash (L.hash160 (L.serializeCompressed pub)) net.PubKeyHashAddrID) := by
  simp [generateLegacyAddress, hpub, NewAddressPubKeyHash, hH _]

theorem generateNestedSegWitAddress_ok (L : Lib) (hH : Hash160Sized L) (key : L.Key)
    (net : Params) (pub : L.PubKey) (hpub : L.ecPubKey key = .ok pub) :
    generateNestedSegWitAddress L key net =
      .ok (.scriptHash (L.hash160 (0 :: 20 :: L.hash160 (L.serializeCompressed pub)))
        net.ScriptHashAddrID) := by
  simp [generateNestedSegWitAddress, hpub, witnessScript_of_hash _ (hH _),
    NewAddressScriptHashFromHash, hH _]

theorem generateNativeSegWitAddress_ok (L : Lib) (hH : Hash160Sized L) (key : L.Key)
    (net : Params) (pub : L.PubKey) (hpub : L.ecPubKey key = .ok pub) :
    generateNativeSegWitAddress L key net =
      .ok (.witnessPubKeyHash net.Bech32HRPSegwit.toLower 0
        (L.hash160 (L.serializeCompressed pub))) := by
  simp [generateNativeSegWitAddress, hpub, NewAddressWitnessPubKeyHash, hH _]

theorem generateTaprootAddress_ok (L : Lib) (hX : XOnlySized L) (key : L.Key) (net : Params)
    (pub : L.PubKey) (hpub : L.ecPubKey key = .ok pub) :
    generateTaprootAddress L key net =
      .ok (.taproot net.Bech32HRPSegwit.toLower 1
        (L.schnorrSerializePubKey (L.computeTaprootKeyNoScript pub))) := by
  simp [generateTaprootAddress, hpub, NewAddressTaproot, hX _]

/-- C10: given that `Hash160` yields 20 bytes and the x-only serialisation 32
bytes, each of the four encoders returns an address and no error whenever
`ECPubKey` succeeds (the witness script it builds on the way is 22 bytes long),
and each returns an error exactly when `ECPubKey` fails, namely that error
wrapped. -/
theorem C10_encoders_fail_only_with_ECPubKey (L : Lib) (hH : Hash160Sized L)
    (hX : XOnlySized L) (key : L.Key) (net : Params) :
    (∀ pub, L.ecPubKey key = .ok pub →
      (∃ a, generateLegacyAddress L key net = .ok a) ∧
      (∃ a, generateNestedSegWitAddress L key net = .ok a) ∧
      (∃ a, generateNativeSegWitAddress L key net = .ok a) ∧
      (∃ a, generateTaprootAddress L key net = .ok a) ∧
      (∃ script,
        ((NewScriptBuilder.AddOp OP_0).AddData
          (L.hash160 (L.serializeCompressed pub))).Script = .ok script ∧
        script.length = 22)) ∧
    (∀ e, L.ecPubKey key = .error e →
      generateLegacyAddress L key net = .error (.wrap "failed to get public key" (.lib e)) ∧
      generateNestedSegWitAddress L key net =
        .error (.wrap "failed to get public key" (.lib e)) ∧
      generateNativeSegWitAddress L key net =
        .error (.wrap "failed to get public key" (.lib e)) ∧
      generateTaprootAddress L key net = .error (.wrap "failed to get public key" (.lib e))) ∧
    ((∃ e, generateLegacyAddress L key net = .error e) ↔ ∃ e, L.ecPubKey key = .error e) ∧
    ((∃ e, generateNestedSegWitAddress L key net = .error e) ↔
      ∃ e, L.ecPubKey key = .error e) ∧
    ((∃ e, generateNativeSegWitAddress L key net = .error e) ↔
      ∃ e, L.ecPubKey key = .error e) ∧
    ((∃ e, generateTaprootAddress L key net = .error e) ↔ ∃ e, L.ecPubKey key = .error e) := by
  have hsucc : ∀ pub, L.ecPubKey key = .ok pub →
      (∃ a, generateLegacyAddress L key net = .ok a) ∧
      (∃ a, generateNestedSegWitAddress L key net = .ok a) ∧
      (∃ a, generateNativeSegWitAddress L key net = .ok a) ∧
      (∃ a, generateTaprootAddress L key net = .ok a) ∧
      (∃ script,
        ((NewScriptBuilder.AddOp OP_0).AddData
          (L.hash160 (L.serializeCompressed pub))).Script = .ok script ∧
        script.length = 22) := by
    intro pub hpub
    refine ⟨⟨_, generateLegacyAddress_ok L hH key net pub hpub⟩,
      ⟨_, generateNestedSegWitAddress_ok L hH key net pub hpub⟩,
      ⟨_, generateNativeSegWitAddress_ok L hH key net pub hpub⟩,
      ⟨_, generateTaprootAddress_ok L hX key net pub hpub⟩,
      ⟨_, witnessScript_of_hash _ (hH _), ?_⟩⟩
    simp [hH _]
  have hfail : ∀ e, L.ecPubKey key = .error e →
      generateLegacyAddress L key net = .error (.wrap "failed to get public key" (.lib e)) ∧
      generateNestedSegWitAddress L key net =
        .error (.wrap "failed to get public key" (.lib e)) ∧
      generateNativeSegWitAddress L key net =
        .error (.wrap "failed to get public key" (.lib e)) ∧
      generateTaprootAddress L key net =
        .error (.wrap "failed to get public key" (.lib e)) := by
    intro e he
    simp [generateLegacyAddress, generateNestedSegWitAddress, generateNativeSegWitAddress,
      generateTaprootAddress, he]
  refine ⟨hsucc, hfail, ?_, ?_, ?_, ?_⟩
  all_goals
    cases hk : L.ecPubKey key with
    | error e =>
      obtain ⟨h1, h2, h3, h4⟩ := hfail e hk
      simp [h1, h2, h3, h4]
    | ok pub =>
      obtain ⟨⟨a1, h1⟩, ⟨a2, h2⟩, ⟨a3, h3⟩, ⟨a4, h4⟩, _⟩ := hsucc pub hk
      simp [h1, h2, h3, h4]

theorem demoPad_length (n : Nat) (b : List Nat) : (demoPad n b).length = n := by
  simp [demoPad]

theorem demoLib_hash160Sized : Hash160Sized demoLib := fun b => demoPad_length 20 b

theorem demoLib_xOnlySized : XOnlySized demoLib := fun p => demoPad_length 32 p

theorem C10_witness :
    (∃ a, generateLegacyAddress demoLib demoMaster netParams = .ok a) ∧
    (∃ a, generateNestedSegWitAddress demoLib demoMaster netParams = .ok a) ∧
    (∃ a, generateNativeSegWitAddress demoLib demoMaster netParams = .ok a) ∧
    (∃ a, generateTaprootAddress demoLib demoMaster netParams = .ok a) ∧
    (∃ script,
      ((NewScriptBuilder.AddOp OP_0).AddData
        (demoLib.hash160 (demoLib.serializeCompressed []))).Script = .ok script ∧
      script.length = 22) :=
  (C10_encoders_fail_only_with_ECPubKey demoLib demoLib_hash160Sized demoLib_xOnlySized
    demoMaster netParams).1 [] rfl

/-! ## Address lookup: the loops -/

theorem iterationsOf_append {L : Lib} (s t : List (Event L)) :
    iterationsOf (s ++ t) = iterationsOf s ++ iterationsOf t := by
  induction s with
  | nil => rfl
  | cons e s ih => cases e <;> simp [iterationsOf, ih]

theorem derivesOf_append {L : Lib} (s t : List (Event L)) :
    derivesOf (s ++ t) = derivesOf s ++ derivesOf t := by
  induction s with
  | nil => rfl
  | cons e s ih => cases e <;> simp [derivesOf, ih]

theorem iterationsOf_deriveChildKey (L : Lib) (m : L.Key)
    (purpose coinType account chain index : Nat) :
    iterationsOf (deriveChildKey L m purpose coinType account chain index).2 = [] := by
  unfold deriveChildKey
  cases h1 : L.derive m (u32 (purpose + HardenedKeyStart)) with
  | error e => simp [iterationsOf, h1]
  | ok kp =>
    cases h2 : L.derive kp (u32 (coinType + HardenedKeyStart)) with
    | error e => simp [iterationsOf, h1, h2]
    | ok kc =>
      cases h3 : L.derive kc (u32 (account + HardenedKeyStart)) with
      | error e => simp [iterationsOf, h1, h2, h3]
      | ok ka =>
        cases h4 : L.derive ka chain with
        | error e => simp [iterationsOf, h1, h2, h3, h4]
        | ok kch =>
          cases h5 : L.derive kch index with
          | error e => simp [iterationsOf, h1, h2, h3, h4, h5]
          | ok ki => simp [iterationsOf, h1, h2, h3, h4, h5]

/-- What the loop body returns at an index is the record of the coordinate. -/
theorem searchStep_result (L : Lib) (m : L.Key) (target : String)
    (purpose : Nat) (purposeName : String) (changeType index : Nat) :
    (searchStep L m target purpose purposeName changeType
      (derivationPrefixOf purpose changeType) index).1 =
      recordAt L m target (purpose, changeType, index) := by
  unfold searchStep recordAt renderAt
  generalize deriveChildKey L m purpose CoinTypeBitcoin DefaultAccount changeType index = d
  obtain ⟨r, t⟩ := d
  cases r with
  | error e => simp
  | ok key =>
    cases hg : generateForPurpose L purpose key with
    | none => simp [hg]
    | some g =>
      cases g with
      | error e => simp [hg]
      | ok a => by_cases hs : L.addrString a = target <;> simp [hg, hs]

/-- The loop body enters exactly the coordinate it is run at. -/
theorem searchStep_iterations (L : Lib) (m : L.Key) (target : String)
    (purpose : Nat) (purposeName : String) (changeType : Nat) (pre : String) (index : Nat) :
    iterationsOf (searchStep L m target purpose purposeName changeType pre index).2 =
      [(purpose, changeType, index)] := by
  have hd := iterationsOf_deriveChildKey L m purpose CoinTypeBitcoin DefaultAccount
    changeType index
  unfold searchStep
  generalize deriveChildKey L m purpose CoinTypeBitcoin DefaultAccount changeType index = d at hd
  obtain ⟨r, t⟩ := d
  simp only at hd
  cases r with
  | error e =>
    by_cases h0 : index = 0 ∧ changeType = ExternalChain <;>
      simp [iterationsOf, iterationsOf_append, hd, h0]
  | ok key =>
    cases hg : generateForPurpose L purpose key with
    | none => simp [hg, iterationsOf, hd]
    | some g =>
      cases g with
      | error e =>
        by_cases h0 : index = 0 ∧ changeType = ExternalChain <;>
          simp [hg, iterationsOf, iterationsOf_append, hd, h0]
      | ok a =>
        by_cases hs : L.addrString a = target <;>
          simp [hg, iterationsOf, iterationsOf_append, hd, hs]

/-- The index loop returns the record of the first matching index of its range;
the coordinates it enters are an initial segment of the range, and the whole
range when it returns nothing. -/
theorem indexLoop_spec (L : Lib) (m : L.Key) (target : String)
    (purpose : Nat) (purposeName : String) (changeType : Nat) :
    ∀ fuel index, index + fuel ≤ addressSearchLimit →
      (indexLoop L m target purpose purposeName changeType
          (derivationPrefixOf purpose changeType) fuel index).1 =
        (List.range' index fuel).findSome? (fun i => recordAt L m target (purpose, changeType, i)) ∧
      iterationsOf (indexLoop L m target purpose purposeName changeType
          (derivationPrefixOf purpose changeType) fuel index).2 <+:
        (List.range' index fuel).map (fun i => (purpose, changeType, i)) ∧
      ((indexLoop L m target purpose purposeName changeType
          (derivationPrefixOf purpose changeType) fuel index).1 = none →
        iterationsOf (indexLoop L m target purpose purposeName changeType
          (derivationPrefixOf purpose changeType) fuel index).2 =
        (List.range' index fuel).map (fun i => (purpose, changeType, i))) := by
  intro fuel
  induction fuel with
  | zero =>
    intro index _
    simp [indexLoop, iterationsOf]
  | succ fuel ih =>
    intro index hle
    have hlt : index < addressSearchLimit := by omega
    obtain ⟨ih1, ih2, ih3⟩ := ih (index + 1) (by omega)
    have hres := searchStep_result L m target purpose purposeName changeType index
    have hit := searchStep_iterations L m target purpose purposeName changeType
      (derivationPrefixOf purpose changeType) index
    simp only [indexLoop, if_pos hlt, List.range'_succ, List.findSome?_cons, List.map_cons]
    generalize searchStep L m target purpose purposeName changeType
      (derivationPrefixOf purpose changeType) index = st at hres hit
    obtain ⟨r, t⟩ := st
    simp only at hres hit
    rw [← hres]
    cases r with
    | some res =>
      simp only [hit]
      refine ⟨trivial, ?_, ?_⟩
      · exact ⟨_, rfl⟩
      · intro h
        cases h
    | none =>
      simp only [iterationsOf_append, hit]
      refine ⟨ih1, ?_, ?_⟩
      · simpa using ih2
      · intro h
        simp [ih3 h]

/-- The chain loop returns the record of the first matching coordinate of its
chains; the coordinates it enters are an initial segment of theirs, and all of
them when it returns nothing. -/
theorem chainLoop_spec (L : Lib) (m : L.Key) (target : String)
    (purpose : Nat) (purposeName : String) :
    ∀ chains : List Nat,
      (chainLoop L m target purpose purposeName chains).1 =
        chains.findSome? (fun c => (List.range' 0 addressSearchLimit).findSome?
          (fun i => recordAt L m target (purpose, c, i))) ∧
      iterationsOf (chainLoop L m target purpose purposeName chains).2 <+:
        chains.flatMap (fun c => (List.range' 0 addressSearchLimit).map
          (fun i => (purpose, c, i))) ∧
      ((chainLoop L m target purpose purposeName chains).1 = none →
        iterationsOf (chainLoop L m target purpose purposeName chains).2 =
        chains.flatMap (fun c => (List.range' 0 addressSearchLimit).map
          (fun i => (purpose, c, i)))) := by
  intro chains
  induction chains with
  | nil => simp [chainLoop, iterationsOf]
  | cons c chains ih =>
    obtain ⟨ih1, ih2, ih3⟩ := ih
    obtain ⟨h1, h2, h3⟩ := indexLoop_spec L m target purpose purposeName c
      addressSearchLimit 0 (by omega)
    unfold derivationPrefixOf at h1 h2 h3
    simp only [chainLoop, List.findSome?_cons, List.flatMap_cons]
    generalize indexLoop L m target purpose purposeName c
      (Sprintf "m/%d'/0'/%d'/%d"
        [.uint32 purpose, .uint32 CoinTypeBitcoin, .uint32 DefaultAccount, .uint32 c])
      addressSearchLimit 0 = st at h1 h2 h3
    obtain ⟨r, t⟩ := st
    simp only at h1 h2 h3
    rw [← h1]
    cases r with
    | some res =>
      simp only [iterationsOf]
      refine ⟨trivial, h2.trans (List.prefix_append _ _), ?_⟩
      intro h
      cases h
    | none =>
      simp only [iterationsOf, List.append_eq, iterationsOf_append, h3 rfl]
      refine ⟨ih1, ?_, ?_⟩
      · exact (List.prefix_append_right_inj _).2 ih2
      · intro h
        rw [ih3 h]

/-- The purpose loop returns the record of the first matching coordinate of the
search space in the order of its entries; the coordinates it enters are an
initial segment of that space, and all of it when it returns nothing. -/
theorem purposeLoop_spec (L : Lib) (m : L.Key) (target : String) :
    ∀ order : List (Nat × String),
      (purposeLoop L m target order).1 =
        order.findSome? (fun e => [ExternalChain, InternalChain].findSome? (fun c =>
          (List.range' 0 addressSearchLimit).findSome?
            (fun i => recordAt L m target (e.1, c, i)))) ∧
      iterationsOf (purposeLoop L m target order).2 <+: searchSpace order ∧
      ((purposeLoop L m target order).1 = none →
        iterationsOf (purposeLoop L m target order).2 = searchSpace order) := by
  intro order
  induction order with
  | nil => simp [purposeLoop, iterationsOf, searchSpace]
  | cons e order ih =>
    obtain ⟨purpose, purposeName⟩ := e
    obtain ⟨ih1, ih2, ih3⟩ := ih
    obtain ⟨h1, h2, h3⟩ := chainLoop_spec L m target purpose purposeName
      [ExternalChain, InternalChain]
    unfold searchSpace at ih2 ih3 ⊢
    rw [List.findSome?_cons, List.flatMap_cons]
    simp only [purposeLoop]
    generalize chainLoop L m target purpose purposeName [ExternalChain, InternalChain] = st
      at h1 h2 h3
    obtain ⟨r, t⟩ := st
    simp only at h1 h2 h3
    rw [← h1]
    cases r with
    | some res =>
      simp only [iterationsOf]
      refine ⟨trivial, h2.trans (List.prefix_append _ _), ?_⟩
      intro h
      cases h
    | none =>
      simp only [iterationsOf, List.append_eq, iterationsOf_append, h3 rfl]
      refine ⟨ih1, ?_, ?_⟩
      · exact (List.prefix_append_right_inj _).2 ih2
      · intro h
        rw [ih3 h]

/-! ## Address lookup: the search as a first match -/

theorem findSome?_flatMap_eq {α β γ : Type} (f : β → Option γ) (g : α → List β) (l : List α) :
    (l.flatMap g).findSome? f = l.findSome? (fun a => (g a).findSome? f) := by
  induction l with
  | nil => rfl
  | cons a l ih =>
    simp only [List.flatMap_cons, List.findSome?_append, List.findSome?_cons, ih]
    cases (g a).findSome? f <;> rfl

theorem findSome?_map_eq {α β γ : Type} (f : β → Option γ) (g : α → β) (l : List α) :
    (l.map g).findSome? f = l.findSome? (fun a => f (g a)) := by
  induction l with
  | nil => rfl
  | cons a l ih => simp only [List.map_cons, List.findSome?_cons, ih]

/-- A first-match search that succeeds splits its list at the first hit. -/
theorem findSome?_split {α β : Type} (f : α → Option β) :
    ∀ (l : List α) (b : β), l.findSome? f = some b →
      ∃ pre c post, l = pre ++ c :: post ∧ f c = some b ∧ ∀ x ∈ pre, f x = none := by
  intro l
  induction l with
  | nil => intro b h; simp at h
  | cons a l ih =>
    intro b h
    rw [List.findSome?_cons] at h
    cases hfa : f a with
    | some b1 =>
      rw [hfa] at h
      refine ⟨[], a, l, rfl, ?_, by simp⟩
      rw [hfa]
      exact h
    | none =>
      rw [hfa] at h
      obtain ⟨pre, c, post, hl, hc, hpre⟩ := ih b h
      refine ⟨a :: pre, c, post, by rw [hl]; rfl, hc, ?_⟩
      intro x hx
      cases hx with
      | head => exact hfa
      | tail _ hx1 => exact hpre x hx1

theorem findSome?_eq_none_of_forall {α β : Type} (f : α → Option β) :
    ∀ l : List α, (l.findSome? f = none ↔ ∀ x ∈ l, f x = none) := by
  intro l
  induction l with
  | nil => simp
  | cons a l ih =>
    rw [List.findSome?_cons]
    cases hfa : f a with
    | some b => simp [hfa]
    | none => simp [hfa, ih]

/-- When at most one element of a list is a hit, the first hit does not depend
on the order of the list. -/
theorem findSome?_perm_of_unique {α β : Type} (f : α → Option β) {l₁ l₂ : List α}
    (hp : l₁.Perm l₂)
    (hu : ∀ a ∈ l₁, ∀ b ∈ l₁, f a ≠ none → f b ≠ none → a = b) :
    l₁.findSome? f = l₂.findSome? f := by
  induction hp with
  | nil => rfl
  | cons x _ ih =>
    simp only [List.findSome?_cons]
    rw [ih (fun a ha b hb => hu a (List.mem_cons_of_mem _ ha) b (List.mem_cons_of_mem _ hb))]
  | swap x y l =>
    simp only [List.findSome?_cons]
    cases hx : f x with
    | none => cases hy : f y <;> rfl
    | some bx =>
      cases hy : f y with
      | none => rfl
      | some b2 =>
        have hxy : y = x := hu y (by simp) x (by simp) (by simp [hy]) (by simp [hx])
        subst hxy
        rw [hx] at hy
        simp [hy]
  | trans h₁ _ ih₁ ih₂ =>
    rw [ih₁ hu]
    exact ih₂ (fun a ha b hb => hu a (h₁.mem_iff.2 ha) b (h₁.mem_iff.2 hb))

/-- The purpose loop returns the record of the first coordinate of the search
space, in the order visited, that renders to the target. -/
theorem purposeLoop_result (L : Lib) (m : L.Key) (target : String)
    (order : List (Nat × String)) :
    (purposeLoop L m target order).1 = (searchSpace order).findSome? (recordAt L m target) := by
  rw [(purposeLoop_spec L m target order).1]
  unfold searchSpace
  simp only [findSome?_flatMap_eq, findSome?_map_eq]

theorem mem_searchSpace (order : List (Nat × String)) (x : Nat × Nat × Nat) :
    x ∈ searchSpace order ↔
      (∃ name, (x.1, name) ∈ order) ∧ (x.2.1 = 0 ∨ x.2.1 = 1) ∧ x.2.2 < addressSearchLimit := by
  obtain ⟨p, c, i⟩ := x
  simp only [searchSpace, List.mem_flatMap, List.mem_map, List.mem_range', ExternalChain,
    InternalChain]
  constructor
  · rintro ⟨e, he, c1, hc1, i1, hi1, heq⟩
    simp only [Prod.mk.injEq] at heq
    obtain ⟨h1, h2, h3⟩ := heq
    subst h1 h2 h3
    refine ⟨⟨e.2, he⟩, ?_, ?_⟩
    · simpa using hc1
    · obtain ⟨k, hk, hk2⟩ := hi1
      omega
  · rintro ⟨⟨name, hn⟩, hc, hi⟩
    refine ⟨(p, name), hn, c, ?_, i, ?_, rfl⟩
    · simpa using hc
    · exact ⟨i, hi, by omega⟩

theorem searchSpace_purposes_length : (searchSpace purposes).length = 160000 := by
  simp [searchSpace, purposes, addressSearchLimit]

theorem searchSpace_perm {order : List (Nat × String)} (hp : order.Perm purposes)
    (x : Nat × Nat × Nat) : x ∈ searchSpace order ↔ x ∈ searchSpace purposes := by
  rw [mem_searchSpace, mem_searchSpace]
  constructor
  · rintro ⟨⟨n, hn⟩, h2⟩
    exact ⟨⟨n, hp.mem_iff.1 hn⟩, h2⟩
  · rintro ⟨⟨n, hn⟩, h2⟩
    exact ⟨⟨n, hp.mem_iff.2 hn⟩, h2⟩

theorem searchSpace_perm_list {order : List (Nat × String)} (hp : order.Perm purposes) :
    (searchSpace order).Perm (searchSpace purposes) :=
  List.Perm.flatMap_right _ hp

theorem recordAt_eq_none_iff (L : Lib) (m : L.Key) (target : String) (c : Nat × Nat × Nat) :
    recordAt L m target c = none ↔ matchesAt L m target c = false := by
  unfold recordAt matchesAt
  cases renderAt L m c.1 c.2.1 c.2.2 with
  | none => simp
  | some ka =>
    obtain ⟨key, a⟩ := ka
    by_cases hs : L.addrString a = target <;> simp [hs]

/-- The record returned at a coordinate carries the coordinate, the key derived
there and the address rendered there, whose string is the target. -/
theorem recordAt_some (L : Lib) (m : L.Key) (target : String) (c : Nat × Nat × Nat)
    (r : AddressLookupResult L) (h : recordAt L m target c = some r) :
    matchesAt L m target c = true ∧ r.Found = true ∧ r.Purpose = c.1 ∧ r.Index = c.2.2 ∧
    r.DerivationPath =
      Sprintf "%s/%d" [.str (derivationPrefixOf c.1 c.2.1), .uint32 c.2.2] ∧
    ∃ key a, renderAt L m c.1 c.2.1 c.2.2 = some (key, a) ∧ L.addrString a = target ∧
      r.Address = some a ∧ r.DerivedKey = some key := by
  unfold recordAt at h
  unfold matchesAt
  cases hr : renderAt L m c.1 c.2.1 c.2.2 with
  | none => simp [hr] at h
  | some ka =>
    obtain ⟨key, a⟩ := ka
    by_cases hs : L.addrString a = target
    · simp only [hr, hs, if_true, Option.some.injEq] at h
      subst h
      exact ⟨by simp [hs], rfl, rfl, rfl, rfl, key, a, rfl, hs, rfl, rfl⟩
    · simp [hr, hs] at h

/-- With a master key loaded and a target the decoder accepts, `findAddressInSeed`
returns the record of the first coordinate, in the order visited, that renders to
the normalised target, and the not-found value when there is none; its loop
iterations are those of the purpose loop. -/
theorem findAddressInSeed_of_decoded (L : Lib) (order : List (Nat × String)) (m : L.Key)
    (target : String) (ta : Address) (hdec : L.decodeAddress target netParams = .ok ta) :
    (findAddressInSeed L order (some m) target).1 =
      .ok (((searchSpace order).findSome? (recordAt L m (L.addrString ta))).getD
        (notFoundResult L)) ∧
    iterationsOf (findAddressInSeed L order (some m) target).2 =
      iterationsOf (purposeLoop L m (L.addrString ta) order).2 := by
  have hres := purposeLoop_result L m (L.addrString ta) order
  simp only [findAddressInSeed, hdec]
  generalize purposeLoop L m (L.addrString ta) order = st at hres
  obtain ⟨r, t⟩ := st
  simp only at hres
  rw [← hres]
  cases r with
  | some res => simp [iterationsOf]
  | none => simp [iterationsOf, iterationsOf_append, notFoundResult]

/-- C6: for a target the decoder accepts, `findAddressInSeed` returns
`Found = false` (and no error) exactly when none of the 4 x 2 x 20000 = 160000
coordinates renders to the normalised target; in that case the loop body has been
entered at every coordinate of the search space, once each, and in every case
only at coordinates of the search space, whose index is below 20000. -/
theorem C6_locator_bounded (L : Lib) (order : List (Nat × String)) (m : L.Key)
    (target : String) (ta : Address)
    (hp : order.Perm purposes)
    (hdec : L.decodeAddress target netParams = .ok ta) :
    ((∃ res, (findAddressInSeed L order (some m) target).1 = .ok res ∧ res.Found = false) ↔
      ∀ c ∈ searchSpace purposes, matchesAt L m (L.addrString ta) c = false) ∧
    (searchSpace purposes).length = 160000 ∧
    ((∀ c ∈ searchSpace purposes, matchesAt L m (L.addrString ta) c = false) →
      (findAddressInSeed L order (some m) target).1 = .ok (notFoundResult L) ∧
      iterationsOf (findAddressInSeed L order (some m) target).2 = searchSpace order ∧
      (iterationsOf (findAddressInSeed L order (some m) target).2).Perm
        (searchSpace purposes)) ∧
    iterationsOf (findAddressInSeed L order (some m) target).2 <+: searchSpace order ∧
    (∀ x ∈ iterationsOf (findAddressInSeed L order (some m) target).2,
      x ∈ searchSpace purposes ∧ x.2.2 < 20000) := by
  obtain ⟨hres, hit⟩ := findAddressInSeed_of_decoded L order m target ta hdec
  obtain ⟨_, hpre, hall⟩ := purposeLoop_spec L m (L.addrString ta) order
  have hloop := purposeLoop_result L m (L.addrString ta) order
  have hnone : (∀ c ∈ searchSpace purposes, matchesAt L m (L.addrString ta) c = false) →
      (searchSpace order).findSome? (recordAt L m (L.addrString ta)) = none := by
    intro h
    rw [findSome?_eq_none_of_forall]
    intro x hx
    rw [recordAt_eq_none_iff]
    exact h x ((searchSpace_perm hp x).1 hx)
  refine ⟨?_, searchSpace_purposes_length, ?_, ?_, ?_⟩
  · constructor
    · rintro ⟨res, hok, hf⟩ c hc
      rw [hres] at hok
      cases hfs : (searchSpace order).findSome? (recordAt L m (L.addrString ta)) with
      | none =>
        rw [findSome?_eq_none_of_forall] at hfs
        rw [← recordAt_eq_none_iff]
        exact hfs c ((searchSpace_perm hp c).2 hc)
      | some r =>
        rw [hfs] at hok
        simp only [Option.getD_some, Except.ok.injEq] at hok
        subst hok
        obtain ⟨pre, c1, post, _, hc1, _⟩ := findSome?_split _ _ _ hfs
        have := (recordAt_some L m _ c1 r hc1).2.1
        rw [this] at hf
        cases hf
    · intro h
      refine ⟨notFoundResult L, ?_, rfl⟩
      rw [hres, hnone h]
      rfl
  · intro h
    have hn := hnone h
    have hl : (purposeLoop L m (L.addrString ta) order).1 = none := by rw [hloop, hn]
    refine ⟨by rw [hres, hn]; rfl, by rw [hit, hall hl], ?_⟩
    rw [hit, hall hl]
    exact searchSpace_perm_list hp
  · rw [hit]
    exact hpre
  · intro x hx
    rw [hit] at hx
    have hx1 : x ∈ searchSpace order := hpre.subset hx
    have hx2 := (searchSpace_perm hp x).1 hx1
    refine ⟨hx2, ?_⟩
    have := ((mem_searchSpace purposes x).1 hx2).2.2
    simpa [addressSearchLimit] using this

theorem C6_witness :
    iterationsOf (findAddressInSeed demoLib purposes (some demoMaster) "1exxx").2 <+:
      searchSpace purposes :=
  (C6_locator_bounded demoLib purposes demoMaster "1exxx"
    (.pubKeyHash (demoPad 20 [3, 0]) netParams.PubKeyHashAddrID)
    (List.Perm.refl _) rfl).2.2.2.1

/-- C7: a target the decoder rejects makes `findAddressInSeed` return an error
(and no result) after the decoder call alone, before any `Derive` call and any
loop iteration; an exhausted search returns the not-found result, whose `Found`
is false, and no error; the two returned values are never equal. -/
theorem C7_malformed_target_is_distinct (L : Lib) (order : List (Nat × String)) (m : L.Key) :
    (∀ target e, L.decodeAddress target netParams = .error e →
      (findAddressInSeed L order (some m) target).1 =
        .error (.wrap "endereço Bitcoin inválido" (.lib e)) ∧
      (findAddressInSeed L order (some m) target).2 = [.decodeAddress target] ∧
      derivesOf (findAddressInSeed L order (some m) target).2 = [] ∧
      iterationsOf (findAddressInSeed L order (some m) target).2 = []) ∧
    (∀ target ta, L.decodeAddress target netParams = .ok ta →
      (∀ c ∈ searchSpace order, matchesAt L m (L.addrString ta) c = false) →
      (findAddressInSeed L order (some m) target).1 = .ok (notFoundResult L) ∧
      (notFoundResult L).Found = false) ∧
    (∀ target1 target2 e ta, L.decodeAddress target1 netParams = .error e →
      L.decodeAddress target2 netParams = .ok ta →
      (findAddressInSeed L order (some m) target1).1 ≠
        (findAddressInSeed L order (some m) target2).1) := by
  refine ⟨?_, ?_, ?_⟩
  · intro target e he
    simp only [findAddressInSeed, he, derivesOf, iterationsOf, and_self]
  · intro target ta hdec hno
    refine ⟨?_, rfl⟩
    rw [(findAddressInSeed_of_decoded L order m target ta hdec).1]
    have : (searchSpace order).findSome? (recordAt L m (L.addrString ta)) = none := by
      rw [findSome?_eq_none_of_forall]
      intro x hx
      rw [recordAt_eq_none_iff]
      exact hno x hx
    rw [this]
    rfl
  · intro target1 target2 e ta h1 h2 heq
    rw [(findAddressInSeed_of_decoded L order m target2 ta h2).1] at heq
    simp only [findAddressInSeed, h1] at heq
    cases heq

theorem C7_witness :
    (findAddressInSeed demoLib purposes (some demoMaster) "zz").1 =
        .error (.wrap "endereço Bitcoin inválido"
          (.lib "decoded address is of unknown format")) ∧
      (findAddressInSeed demoLib purposes (some demoMaster) "zz").2 = [.decodeAddress "zz"] ∧
      derivesOf (findAddressInSeed demoLib purposes (some demoMaster) "zz").2 = [] ∧
      iterationsOf (findAddressInSeed demoLib purposes (some demoMaster) "zz").2 = [] :=
  (C7_malformed_target_is_distinct demoLib purposes demoMaster).1 "zz"
    "decoded address is of unknown format" rfl

/-! ## The encoding of each purpose -/

theorem generateLegacyAddress_kind (L : Lib) (key : L.Key) (net : Params) (a : Address)
    (h : generateLegacyAddress L key net = .ok a) :
    a.kind = .legacy ∧ a.wellFormed net := by
  unfold generateLegacyAddress at h
  cases hk : L.ecPubKey key with
  | error e => simp only [hk] at h; cases h
  | ok pub =>
    simp only [hk, NewAddressPubKeyHash] at h
    by_cases hl : (L.hash160 (L.serializeCompressed pub)).length = 20
    · simp only [hl, ne_eq, not_true_eq_false, if_false, Except.ok.injEq] at h
      subst h
      exact ⟨rfl, hl, rfl⟩
    · simp only [hl, ne_eq, not_false_eq_true, if_true] at h
      cases h

theorem generateNestedSegWitAddress_kind (L : Lib) (key : L.Key) (net : Params) (a : Address)
    (h : generateNestedSegWitAddress L key net = .ok a) :
    a.kind = .nested ∧ a.wellFormed net := by
  unfold generateNestedSegWitAddress at h
  cases hk : L.ecPubKey key with
  | error e => simp only [hk] at h; cases h
  | ok pub =>
    simp only [hk] at h
    cases hs : ((NewScriptBuilder.AddOp OP_0).AddData
        (L.hash160 (L.serializeCompressed pub))).Script with
    | error e => simp only [hs] at h; cases h
    | ok script =>
      simp only [hs, NewAddressScriptHashFromHash] at h
      by_cases hl : (L.hash160 script).length = 20
      · simp only [hl, ne_eq, not_true_eq_false, if_false, Except.ok.injEq] at h
        subst h
        exact ⟨rfl, hl, rfl⟩
      · simp only [hl, ne_eq, not_false_eq_true, if_true] at h
        cases h

theorem generateNativeSegWitAddress_kind (L : Lib) (key : L.Key) (net : Params) (a : Address)
    (h : generateNativeSegWitAddress L key net = .ok a) :
    a.kind = .native ∧ a.wellFormed net := by
  unfold generateNativeSegWitAddress at h
  cases hk : L.ecPubKey key with
  | error e => simp only [hk] at h; cases h
  | ok pub =>
    simp only [hk, NewAddressWitnessPubKeyHash] at h
    by_cases hl : (L.hash160 (L.serializeCompressed pub)).length = 20
    · simp only [hl, ne_eq, not_true_eq_false, if_false, Except.ok.injEq] at h
      subst h
      exact ⟨rfl, rfl, rfl, hl⟩
    · simp only [hl, ne_eq, not_false_eq_true, if_true] at h
      cases h

theorem generateTaprootAddress_kind (L : Lib) (key : L.Key) (net : Params) (a : Address)
    (h : generateTaprootAddress L key net = .ok a) :
    a.kind = .taproot ∧ a.wellFormed net := by
  unfold generateTaprootAddress at h
  cases hk : L.ecPubKey key with
  | error e => simp only [hk] at h; cases h
  | ok pub =>
    simp only [hk, NewAddressTaproot] at h
    by_cases hl : (L.schnorrSerializePubKey (L.computeTaprootKeyNoScript pub)).length = 32
    · simp only [hl, ne_eq, not_true_eq_false, if_false, Except.ok.injEq] at h
      subst h
      exact ⟨rfl, rfl, rfl, hl⟩
    · simp only [hl, ne_eq, not_false_eq_true, if_true] at h
      cases h

/-- The `switch` of the search loop renders a key only under one of the four
purposes of the map, and then in the encoding of that purpose. -/
theorem generateForPurpose_kind (L : Lib) (purpose : Nat) (key : L.Key) (a : Address)
    (h : generateForPurpose L purpose key = some (.ok a)) :
    (purpose = BIP44Purpose ∨ purpose = BIP49Purpose ∨ purpose = BIP84Purpose ∨
      purpose = BIP86Purpose) ∧
    a.kind = kindOfPurpose purpose ∧ a.wellFormed netParams := by
  unfold generateForPurpose at h
  unfold kindOfPurpose
  by_cases h44 : purpose = BIP44Purpose
  · rw [if_pos h44] at h
    have h1 := generateLegacyAddress_kind L key _ a (Option.some.inj h)
    rw [if_pos h44]
    exact ⟨Or.inl h44, h1⟩
  · rw [if_neg h44] at h
    by_cases h49 : purpose = BIP49Purpose
    · rw [if_pos h49] at h
      have h1 := generateNestedSegWitAddress_kind L key _ a (Option.some.inj h)
      rw [if_neg h44, if_pos h49]
      exact ⟨Or.inr (Or.inl h49), h1⟩
    · rw [if_neg h49] at h
      by_cases h84 : purpose = BIP84Purpose
      · rw [if_pos h84] at h
        have h1 := generateNativeSegWitAddress_kind L key _ a (Option.some.inj h)
        rw [if_neg h44, if_neg h49, if_pos h84]
        exact ⟨Or.inr (Or.inr (Or.inl h84)), h1⟩
      · rw [if_neg h84] at h
        by_cases h86 : purpose = BIP86Purpose
        · rw [if_pos h86] at h
          have h1 := generateTaprootAddress_kind L key _ a (Option.some.inj h)
          rw [if_neg h44, if_neg h49, if_neg h84]
          exact ⟨Or.inr (Or.inr (Or.inr h86)), h1⟩
        · rw [if_neg h86] at h
          cases h

theorem renderAt_kind (L : Lib) (m : L.Key) (purpose changeType index : Nat) (key : L.Key)
    (a : Address) (h : renderAt L m purpose changeType index = some (key, a)) :
    (purpose = BIP44Purpose ∨ purpose = BIP49Purpose ∨ purpose = BIP84Purpose ∨
      purpose = BIP86Purpose) ∧
    a.kind = kindOfPurpose purpose ∧ a.wellFormed netParams := by
  unfold renderAt at h
  generalize (deriveChildKey L m purpose CoinTypeBitcoin DefaultAccount changeType index).1 = d
    at h
  cases d with
  | error e => simp only at h; cases h
  | ok k =>
    simp only at h
    cases hg : generateForPurpose L purpose k with
    | none => simp only [hg] at h; cases h
    | some g =>
      cases g with
      | error e => simp only [hg] at h; cases h
      | ok a1 =>
        simp only [hg, Option.some.injEq, Prod.mk.injEq] at h
        obtain ⟨_, ha⟩ := h
        subst ha
        exact generateForPurpose_kind L purpose k a1 hg

theorem kindOfPurpose_injective (p q : Nat)
    (hp : p = BIP44Purpose ∨ p = BIP49Purpose ∨ p = BIP84Purpose ∨ p = BIP86Purpose)
    (hq : q = BIP44Purpose ∨ q = BIP49Purpose ∨ q = BIP84Purpose ∨ q = BIP86Purpose)
    (h : kindOfPurpose p = kindOfPurpose q) : p = q := by
  rcases hp with rfl | rfl | rfl | rfl <;> rcases hq with rfl | rfl | rfl | rfl <;>
    first
      | rfl
      | (exfalso; revert h; decide)

/-! ## The order of the map does not matter -/

theorem purposes_fst_injective (a b : Nat × String) (ha : a ∈ purposes) (hb : b ∈ purposes)
    (h : a.1 = b.1) : a = b := by
  simp only [purposes, List.mem_cons, List.mem_singleton, List.not_mem_nil, or_false] at ha hb
  rcases ha with rfl | rfl | rfl | rfl <;> rcases hb with rfl | rfl | rfl | rfl <;>
    first
      | rfl
      | (exfalso; revert h; decide)

theorem findSome?_ne_none {α β : Type} (f : α → Option β) (l : List α)
    (h : l.findSome? f ≠ none) : ∃ x ∈ l, f x ≠ none := by
  by_contra hne
  apply h
  rw [findSome?_eq_none_of_forall]
  intro x hx
  by_contra hx1
  exact hne ⟨x, hx, hx1⟩

/-- A coordinate with a record renders, under one of the four purposes, to an
address of the kind of its purpose whose string is the target. -/
theorem recordAt_ne_none (L : Lib) (m : L.Key) (target : String) (c : Nat × Nat × Nat)
    (h : recordAt L m target c ≠ none) :
    ∃ key a, renderAt L m c.1 c.2.1 c.2.2 = some (key, a) ∧ L.addrString a = target ∧
      (c.1 = BIP44Purpose ∨ c.1 = BIP49Purpose ∨ c.1 = BIP84Purpose ∨ c.1 = BIP86Purpose) ∧
      a.kind = kindOfPurpose c.1 ∧ a.wellFormed netParams := by
  cases hr : recordAt L m target c with
  | none => exact absurd hr h
  | some r =>
    obtain ⟨_, _, _, _, _, key, a, hra, hs, _, _⟩ := recordAt_some L m target c r hr
    exact ⟨key, a, hra, hs, renderAt_kind L m c.1 c.2.1 c.2.2 key a hra⟩

theorem searchSpace_findSome? (L : Lib) (m : L.Key) (target : String)
    (order : List (Nat × String)) :
    (searchSpace order).findSome? (recordAt L m target) =
      order.findSome? (fun e => [ExternalChain, InternalChain].findSome? (fun c =>
        (List.range' 0 addressSearchLimit).findSome?
          (fun i => recordAt L m target (e.1, c, i)))) := by
  unfold searchSpace
  simp only [findSome?_flatMap_eq, findSome?_map_eq]

/-- When addresses of different kinds have different strings, the first match of
the search is the same whatever the order in which the map yields its purposes. -/
theorem search_first_match_perm (L : Lib) (hK : KindSeparated L) (m : L.Key)
    (target : String) (order : List (Nat × String)) (hp : order.Perm purposes) :
    (searchSpace order).findSome? (recordAt L m target) =
      (searchSpace purposes).findSome? (recordAt L m target) := by
  rw [searchSpace_findSome?, searchSpace_findSome?]
  apply findSome?_perm_of_unique _ hp
  intro a ha b hb hGa hGb
  obtain ⟨ca, _, hca⟩ := findSome?_ne_none _ _ hGa
  obtain ⟨ia, _, hia⟩ := findSome?_ne_none _ _ hca
  obtain ⟨cb, _, hcb⟩ := findSome?_ne_none _ _ hGb
  obtain ⟨ib, _, hib⟩ := findSome?_ne_none _ _ hcb
  obtain ⟨_, aa, _, hsa, hpa, hka, hwa⟩ := recordAt_ne_none L m target _ hia
  obtain ⟨_, ab, _, hsb, hpb, hkb, hwb⟩ := recordAt_ne_none L m target _ hib
  have hkind : aa.kind = ab.kind := hK aa ab hwa hwb (by rw [hsa, hsb])
  have hpur : a.1 = b.1 := by
    apply kindOfPurpose_injective _ _ hpa hpb
    rw [← hka, ← hkb]
    exact hkind
  exact purposes_fst_injective a b (hp.mem_iff.1 ha) (hp.mem_iff.1 hb) hpur

/-- C8: given that addresses of different kinds have different strings, a
successful `findAddressInSeed` returns the record of the first coordinate, in the
canonical order (purposes 44, 49, 84, 86, then chain 0, 1, then index ascending),
that renders to the normalised target, and it returns that same record for every
order in which the map yields its purposes. -/
theorem C8_first_match_in_canonical_order (L : Lib) (hK : KindSeparated L)
    (order : List (Nat × String)) (hp : order.Perm purposes) (m : L.Key)
    (target : String) (ta : Address) (hdec : L.decodeAddress target netParams = .ok ta)
    (res : AddressLookupResult L)
    (hres : (findAddressInSeed L order (some m) target).1 = .ok res)
    (hfound : res.Found = true) :
    (∃ pre c post, searchSpace purposes = pre ++ c :: post ∧
      (∀ x ∈ pre, matchesAt L m (L.addrString ta) x = false) ∧
      matchesAt L m (L.addrString ta) c = true ∧
      recordAt L m (L.addrString ta) c = some res ∧
      res.Purpose = c.1 ∧ res.Index = c.2.2) ∧
    (∀ order2 : List (Nat × String), order2.Perm purposes →
      (findAddressInSeed L order2 (some m) target).1 = .ok res) := by
  have hfirst : (searchSpace purposes).findSome? (recordAt L m (L.addrString ta)) =
      some res := by
    rw [(findAddressInSeed_of_decoded L order m target ta hdec).1,
      search_first_match_perm L hK m _ order hp] at hres
    cases hfs : (searchSpace purposes).findSome? (recordAt L m (L.addrString ta)) with
    | none =>
      rw [hfs] at hres
      simp only [Option.getD_none, Except.ok.injEq] at hres
      rw [← hres] at hfound
      cases hfound
    | some r =>
      rw [hfs] at hres
      simp only [Option.getD_some, Except.ok.injEq] at hres
      rw [hres]
  constructor
  · obtain ⟨pre, c, post, hsplit, hc, hpre⟩ := findSome?_split _ _ _ hfirst
    obtain ⟨hm, _, hpur, hidx, _⟩ := recordAt_some L m _ c res hc
    refine ⟨pre, c, post, hsplit, ?_, hm, hc, hpur, hidx⟩
    intro x hx
    rw [← recordAt_eq_none_iff]
    exact hpre x hx
  · intro order2 hp2
    rw [(findAddressInSeed_of_decoded L order2 m target ta hdec).1,
      search_first_match_perm L hK m _ order2 hp2, hfirst]
    rfl

/-! ## Facts about the two libraries -/

theorem demoTag_injective (k1 k2 : AddrKind) (h : demoTag k1 = demoTag k2) : k1 = k2 := by
  cases k1 <;> cases k2 <;>
    first
      | rfl
      | (exfalso; revert h; decide)

theorem demoAddrString_kind (a b : Address) (h : demoAddrString a = demoAddrString b) :
    a.kind = b.kind := by
  unfold demoAddrString at h
  have h1 := congrArg String.data h
  exact demoTag_injective _ _ (List.head_eq_of_cons_eq h1)

theorem demoLib_kindSeparated : KindSeparated demoLib :=
  fun a b _ _ h => demoAddrString_kind a b h

theorem C8_witness :
    (∃ pre c post, searchSpace purposes = pre ++ c :: post ∧
      (∀ x ∈ pre, matchesAt demoLib demoMaster
        (demoLib.addrString (.pubKeyHash (demoPad 20 [0, 0]) 0)) x = false) ∧
      matchesAt demoLib demoMaster
        (demoLib.addrString (.pubKeyHash (demoPad 20 [0, 0]) 0)) c = true ∧
      recordAt demoLib demoMaster (demoLib.addrString (.pubKeyHash (demoPad 20 [0, 0]) 0)) c =
        some (demoFirstRecord demoLib
          { path := [0, 0, 2147483648, 2147483648, 2147483692], priv := true }
          (demoPad 20 [0, 0, 2147483648, 2147483648, 2147483692])) ∧
      (demoFirstRecord demoLib
          { path := [0, 0, 2147483648, 2147483648, 2147483692], priv := true }
          (demoPad 20 [0, 0, 2147483648, 2147483648, 2147483692])).Purpose = c.1 ∧
      (demoFirstRecord demoLib
          { path := [0, 0, 2147483648, 2147483648, 2147483692], priv := true }
          (demoPad 20 [0, 0, 2147483648, 2147483648, 2147483692])).Index = c.2.2) ∧
    (∀ order2 : List (Nat × String), order2.Perm purposes →
      (findAddressInSeed demoLib order2 (some demoMaster) "1e").1 =
        .ok (demoFirstRecord demoLib
          { path := [0, 0, 2147483648, 2147483648, 2147483692], priv := true }
          (demoPad 20 [0, 0, 2147483648, 2147483648, 2147483692]))) :=
  C8_first_match_in_canonical_order demoLib demoLib_kindSeparated purposes (List.Perm.refl _)
    demoMaster "1e" (.pubKeyHash (demoPad 20 [0, 0]) 0) rfl
    (demoFirstRecord demoLib
      { path := [0, 0, 2147483648, 2147483648, 2147483692], priv := true }
      (demoPad 20 [0, 0, 2147483648, 2147483648, 2147483692]))
    rfl rfl

/-! ## The derivation path of a match -/

/-- The format `"m/%d'/0'/%d'/%d"` has three verbs for four operands: the coin
type is written twice, the account takes the place of the chain, and the chain
comes out as an `EXTRA` operand. -/
theorem derivationPath_format (purpose changeType index : Nat) :
    Sprintf "%s/%d" [.str (derivationPrefixOf purpose changeType), .uint32 index] =
      "m/" ++ (toString purpose ++ ("'/0'/0'/0%!(EXTRA uint32=" ++
        (toString changeType ++ (")/" ++ toString index)))) := by
  have hpre : derivationPrefixOf purpose changeType =
      "m/" ++ (toString purpose ++ ("'/0'/0'/0%!(EXTRA uint32=" ++
        (toString changeType ++ ")"))) := rfl
  have hfmt : ∀ s : String,
      Sprintf "%s/%d" [.str s, .uint32 index] = s ++ ("/" ++ (toString index ++ "")) :=
    fun _ => rfl
  rw [hfmt, hpre]
  simp only [String.append_assoc, String.append_empty]
  rfl

/-- C9, evaluated: for the address of `m/44'/0'/0'/0/0` the `DerivationPath`
returned is `m/44'/0'/0'/0%!(EXTRA uint32=0)/0`, not `m/44'/0'/0'/0/0`; at the
coordinate with chain 1 and index 0 the loop body builds
`m/44'/0'/0'/0%!(EXTRA uint32=1)/0`, not `m/44'/0'/0'/1/0`. -/
theorem C9_derivation_path_has_extra_operand :
    (findAddressInSeed demoLib purposes (some demoMaster) "1e").1.toOption.map
        (fun r => (r.Found, r.Purpose, r.Index, r.DerivationPath)) =
      some (true, 44, 0, "m/44'/0'/0'/0%!(EXTRA uint32=0)/0") ∧
    "m/44'/0'/0'/0%!(EXTRA uint32=0)/0" ≠ "m/44'/0'/0'/0/0" ∧
    (recordAt demoLib demoMaster "1i" (44, 1, 0)).map
        (fun r => (r.Found, r.Purpose, r.Index, r.DerivationPath)) =
      some (true, 44, 0, "m/44'/0'/0'/0%!(EXTRA uint32=1)/0") ∧
    "m/44'/0'/0'/0%!(EXTRA uint32=1)/0" ≠ "m/44'/0'/0'/1/0" := by
  decide

/-! ## Completeness of the search -/

/-- For a coordinate of the search space at which derivation and rendering
succeed, whose address string the decoder accepts and normalises to itself, and
which is the only purpose and index of the search space rendering that string,
`findAddressInSeed` on that string returns the purpose and the index of the
coordinate, for every order in which the map yields its purposes. -/
theorem locator_complete_of_unique (L : Lib) (order : List (Nat × String))
    (hp : order.Perm purposes) (m : L.Key) (purpose changeType index : Nat)
    (key : L.Key) (a a1 : Address)
    (hin : (purpose, changeType, index) ∈ searchSpace purposes)
    (hrender : renderAt L m purpose changeType index = some (key, a))
    (hdec : L.decodeAddress (L.addrString a) netParams = .ok a1)
    (hnorm : L.addrString a1 = L.addrString a)
    (huniq : ∀ x ∈ searchSpace purposes, matchesAt L m (L.addrString a) x = true →
      x.1 = purpose ∧ x.2.2 = index) :
    ∃ res, (findAddressInSeed L order (some m) (L.addrString a)).1 = .ok res ∧
      res.Found = true ∧ res.Purpose = purpose ∧ res.Index = index := by
  rw [(findAddressInSeed_of_decoded L order m _ a1 hdec).1, hnorm]
  have hmatch : matchesAt L m (L.addrString a) (purpose, changeType, index) = true := by
    simp only [matchesAt, hrender, decide_True]
  cases hfs : (searchSpace order).findSome? (recordAt L m (L.addrString a)) with
  | none =>
    rw [findSome?_eq_none_of_forall] at hfs
    have h1 := hfs _ ((searchSpace_perm hp _).2 hin)
    rw [recordAt_eq_none_iff, hmatch] at h1
    cases h1
  | some r =>
    obtain ⟨pre, c, post, hsplit, hc, _⟩ := findSome?_split _ _ _ hfs
    obtain ⟨hm, hf, hpur, hidx, _⟩ := recordAt_some L m _ c r hc
    have hcmem : c ∈ searchSpace purposes := by
      apply (searchSpace_perm hp c).1
      rw [hsplit]
      simp only [List.mem_append, List.mem_cons, true_or, or_true]
    obtain ⟨h1, h2⟩ := huniq c hcmem hm
    exact ⟨r, rfl, hf, by rw [hpur, h1], by rw [hidx, h2]⟩

/-! ## Rendering in the library `demoLib` -/

theorem demoLib_derive_private (l : List Nat) (n : Nat) :
    demoLib.derive { path := l, priv := true } n = .ok { path := n :: l, priv := true } :=
  rfl

theorem demoLib_deriveChildKey (purpose coinType account chain index : Nat) :
    (deriveChildKey demoLib demoMaster purpose coinType account chain index).1 =
      .ok { path := [index, chain, u32 (account + HardenedKeyStart),
        u32 (coinType + HardenedKeyStart), u32 (purpose + HardenedKeyStart)], priv := true } := by
  simp only [deriveChildKey, demoMaster, demoLib_derive_private]

theorem demoPad_headD (n i : Nat) (rest : List Nat) :
    (demoPad (n + 1) (i :: rest)).headD 0 = i := rfl

theorem demoPad_getD_one (n i c : Nat) (rest : List Nat) :
    (demoPad (n + 2) (i :: c :: rest)).getD 1 0 = c := rfl

theorem demoLib_generate44 (l : List Nat) :
    generateForPurpose demoLib BIP44Purpose { path := l, priv := true } =
      some (.ok (.pubKeyHash (demoPad 20 l) 0)) := by
  simp only [generateForPurpose, if_true]
  rw [generateLegacyAddress_ok demoLib demoLib_hash160Sized
    ({ path := l, priv := true } : DemoKey) netParams l rfl]
  rfl

theorem demoLib_generate49 (l : List Nat) :
    generateForPurpose demoLib BIP49Purpose { path := l, priv := true } =
      some (.ok (.scriptHash (demoPad 20 (0 :: 20 :: demoPad 20 l)) 5)) := by
  simp only [generateForPurpose, if_true, if_neg (show BIP49Purpose ≠ BIP44Purpose by decide)]
  rw [generateNestedSegWitAddress_ok demoLib demoLib_hash160Sized
    ({ path := l, priv := true } : DemoKey) netParams l rfl]
  rfl

theorem demoLib_generate84 (l : List Nat) :
    generateForPurpose demoLib BIP84Purpose { path := l, priv := true } =
      some (.ok (.witnessPubKeyHash netParams.Bech32HRPSegwit.toLower 0 (demoPad 20 l))) := by
  simp only [generateForPurpose, if_true, if_neg (show BIP84Purpose ≠ BIP44Purpose by decide),
    if_neg (show BIP84Purpose ≠ BIP49Purpose by decide)]
  rw [generateNativeSegWitAddress_ok demoLib demoLib_hash160Sized
    ({ path := l, priv := true } : DemoKey) netParams l rfl]
  rfl

theorem demoLib_generate86 (l : List Nat) :
    generateForPurpose demoLib BIP86Purpose { path := l, priv := true } =
      some (.ok (.taproot netParams.Bech32HRPSegwit.toLower 1 (demoPad 32 l))) := by
  simp only [generateForPurpose, if_true, if_neg (show BIP86Purpose ≠ BIP44Purpose by decide),
    if_neg (show BIP86Purpose ≠ BIP49Purpose by decide),
    if_neg (show BIP86Purpose ≠ BIP84Purpose by decide)]
  rw [generateTaprootAddress_ok demoLib demoLib_xOnlySized
    ({ path := l, priv := true } : DemoKey) netParams l rfl]
  rfl

/-- In `demoLib` every coordinate of the four purposes renders, to the string
made of the letter of its encoding, the letter of its chain and its index in
unary. -/
theorem demoLib_render (p c i : Nat)
    (hp : p = BIP44Purpose ∨ p = BIP49Purpose ∨ p = BIP84Purpose ∨ p = BIP86Purpose) :
    ∃ key a, renderAt demoLib demoMaster p c i = some (key, a) ∧
      demoAddrString a = String.mk (demoTag (kindOfPurpose p) ::
        (if c = 0 then 'e' else 'i') :: List.replicate i 'x') := by
  have hd := demoLib_deriveChildKey p CoinTypeBitcoin DefaultAccount c i
  unfold renderAt
  rw [hd]
  simp only
  rcases hp with rfl | rfl | rfl | rfl
  · rw [demoLib_generate44]
    exact ⟨_, _, rfl, rfl⟩
  · rw [demoLib_generate49]
    exact ⟨_, _, rfl, rfl⟩
  · rw [demoLib_generate84]
    exact ⟨_, _, rfl, rfl⟩
  · rw [demoLib_generate86]
    exact ⟨_, _, rfl, rfl⟩

theorem purposes_mem_fst (p : Nat) (name : String) (h : (p, name) ∈ purposes) :
    p = BIP44Purpose ∨ p = BIP49Purpose ∨ p = BIP84Purpose ∨ p = BIP86Purpose := by
  simp only [purposes, List.mem_cons, List.mem_singleton, List.not_mem_nil, or_false,
    Prod.mk.injEq] at h
  rcases h with h | h | h | h
  · exact Or.inl h.1
  · exact Or.inr (Or.inl h.1)
  · exact Or.inr (Or.inr (Or.inl h.1))
  · exact Or.inr (Or.inr (Or.inr h.1))

/-- In `demoLib` only coordinates with the same purpose and index render to the
same string. -/
theorem demoLib_match_unique (p c i : Nat)
    (hp : p = BIP44Purpose ∨ p = BIP49Purpose ∨ p = BIP84Purpose ∨ p = BIP86Purpose)
    (key : DemoKey) (a : Address)
    (hr : renderAt demoLib demoMaster p c i = some (key, a))
    (x : Nat × Nat × Nat) (hx : x ∈ searchSpace purposes)
    (hm : matchesAt demoLib demoMaster (demoLib.addrString a) x = true) :
    x.1 = p ∧ x.2.2 = i := by
  obtain ⟨⟨name, hname⟩, _, _⟩ := (mem_searchSpace purposes x).1 hx
  have hpx := purposes_mem_fst x.1 name hname
  obtain ⟨k1, a1, hr1, hs1⟩ := demoLib_render p c i hp
  obtain ⟨k2, a2, hr2, hs2⟩ := demoLib_render x.1 x.2.1 x.2.2 hpx
  rw [hr1] at hr
  have ha : a1 = a := (Prod.mk.inj (Option.some.inj hr)).2
  subst ha
  unfold matchesAt at hm
  rw [hr2] at hm
  have hstr : demoAddrString a2 = demoAddrString a1 := of_decide_eq_true hm
  rw [hs1, hs2] at hstr
  have hdata := congrArg String.data hstr
  have htag : demoTag (kindOfPurpose x.1) = demoTag (kindOfPurpose p) :=
    List.head_eq_of_cons_eq hdata
  have hrest := List.tail_eq_of_cons_eq (List.tail_eq_of_cons_eq hdata)
  have hlen := congrArg List.length hrest
  simp only [List.length_replicate] at hlen
  exact ⟨kindOfPurpose_injective _ _ hpx hp (demoTag_injective _ _ htag), hlen⟩

/-! ## The four encodings of one key -/

/-- C13: for a key with public key `P` and `h = Hash160(SerializeCompressed(P))`,
which is 20 bytes long, `generateLegacyAddress` returns the pubkey-hash address of
`h`, `generateNativeSegWitAddress` the version-0 witness pubkey-hash address of
the same `h`, and `generateNestedSegWitAddress` the script-hash address of
`Hash160(s)`, where the script `s` it builds is the 22 bytes `0x00, 0x14, h`. -/
theorem C13_hash_encoders_commit_to_same_hash (L : Lib) (hH : Hash160Sized L)
    (key : L.Key) (net : Params) (pub : L.PubKey) (hpub : L.ecPubKey key = .ok pub) :
    (L.hash160 (L.serializeCompressed pub)).length = 20 ∧
    generateLegacyAddress L key net =
      .ok (.pubKeyHash (L.hash160 (L.serializeCompressed pub)) net.PubKeyHashAddrID) ∧
    generateNativeSegWitAddress L key net =
      .ok (.witnessPubKeyHash net.Bech32HRPSegwit.toLower 0
        (L.hash160 (L.serializeCompressed pub))) ∧
    ((NewScriptBuilder.AddOp OP_0).AddData (L.hash160 (L.serializeCompressed pub))).Script =
      .ok ([0x00, 0x14] ++ L.hash160 (L.serializeCompressed pub)) ∧
    ([0x00, 0x14] ++ L.hash160 (L.serializeCompressed pub)).length = 22 ∧
    generateNestedSegWitAddress L key net =
      .ok (.scriptHash (L.hash160 ([0x00, 0x14] ++ L.hash160 (L.serializeCompressed pub)))
        net.ScriptHashAddrID) := by
  refine ⟨hH _, generateLegacyAddress_ok L hH key net pub hpub,
    generateNativeSegWitAddress_ok L hH key net pub hpub,
    witnessScript_of_hash _ (hH _), ?_,
    generateNestedSegWitAddress_ok L hH key net pub hpub⟩
  simp only [List.cons_append, List.nil_append, List.length_cons, hH _]

theorem C13_witness :
    (demoLib.hash160 (demoLib.serializeCompressed [])).length = 20 ∧
    generateLegacyAddress demoLib demoMaster netParams =
      .ok (.pubKeyHash (demoLib.hash160 (demoLib.serializeCompressed []))
        netParams.PubKeyHashAddrID) ∧
    generateNativeSegWitAddress demoLib demoMaster netParams =
      .ok (.witnessPubKeyHash netParams.Bech32HRPSegwit.toLower 0
        (demoLib.hash160 (demoLib.serializeCompressed []))) ∧
    ((NewScriptBuilder.AddOp OP_0).AddData
        (demoLib.hash160 (demoLib.serializeCompressed []))).Script =
      .ok ([0x00, 0x14] ++ demoLib.hash160 (demoLib.serializeCompressed [])) ∧
    ([0x00, 0x14] ++ demoLib.hash160 (demoLib.serializeCompressed [])).length = 22 ∧
    generateNestedSegWitAddress demoLib demoMaster netParams =
      .ok (.scriptHash
        (demoLib.hash160 ([0x00, 0x14] ++ demoLib.hash160 (demoLib.serializeCompressed [])))
        netParams.ScriptHashAddrID) :=
  C13_hash_encoders_commit_to_same_hash demoLib demoLib_hash160Sized demoMaster netParams []
    rfl

/-! ## Failures at single coordinates of the search -/

theorem findSome?_filter_of_none {α β : Type} [DecidableEq α] (f : α → Option β) (c : α)
    (hc : f c = none) (l : List α) :
    (l.filter (fun x => decide (x ≠ c))).findSome? f = l.findSome? f := by
  induction l with
  | nil => rfl
  | cons a l ih =>
    by_cases hac : a = c
    · subst hac
      simp only [ne_eq, not_true_eq_false, decide_False, Bool.false_eq_true, not_false_eq_true,
        List.filter_cons_of_neg, List.findSome?_cons, hc]
      exact ih
    · simp only [ne_eq, hac, not_false_eq_true, decide_True, List.filter_cons_of_pos,
        List.findSome?_cons]
      rw [ih]

theorem recordAt_of_render_none (L : Lib) (m : L.Key) (target : String) (c : Nat × Nat × Nat)
    (h : renderAt L m c.1 c.2.1 c.2.2 = none) : recordAt L m target c = none := by
  unfold recordAt
  rw [h]

theorem searchStep_of_render_none (L : Lib) (m : L.Key) (target : String)
    (purpose : Nat) (purposeName : String) (changeType : Nat) (pre : String) (index : Nat)
    (h : renderAt L m purpose changeType index = none) :
    (searchStep L m target purpose purposeName changeType pre index).1 = none := by
  unfold renderAt at h
  unfold searchStep
  generalize deriveChildKey L m purpose CoinTypeBitcoin DefaultAccount changeType index = d at h
  obtain ⟨r, t⟩ := d
  cases r with
  | error e => rfl
  | ok key =>
    simp only at h
    cases hg : generateForPurpose L purpose key with
    | none => simp only [hg]
    | some g =>
      cases g with
      | error e => simp only [hg]
      | ok a => rw [hg] at h; cases h

/-- C17: at a coordinate where derivation or rendering fails the loop body of
`findAddressInSeed` returns nothing and the index loop goes on with the next
index; the result of the search is the one obtained from the search space with
that coordinate left out, and when no coordinate matches, the loop body has
still been entered at every coordinate. -/
theorem C17_coordinate_failure_is_isolated (L : Lib) (order : List (Nat × String))
    (m : L.Key) (target : String) (ta : Address)
    (hdec : L.decodeAddress target netParams = .ok ta)
    (c : Nat × Nat × Nat) (hfail : renderAt L m c.1 c.2.1 c.2.2 = none) :
    (∀ purposeName pre tgt,
      (searchStep L m tgt c.1 purposeName c.2.1 pre c.2.2).1 = none) ∧
    (∀ purposeName pre tgt fuel, c.2.2 < addressSearchLimit →
      (indexLoop L m tgt c.1 purposeName c.2.1 pre (fuel + 1) c.2.2).1 =
        (indexLoop L m tgt c.1 purposeName c.2.1 pre fuel (c.2.2 + 1)).1) ∧
    (findAddressInSeed L order (some m) target).1 =
      .ok ((((searchSpace order).filter (fun x => decide (x ≠ c))).findSome?
        (recordAt L m (L.addrString ta))).getD (notFoundResult L)) ∧
    (((searchSpace order).filter (fun x => decide (x ≠ c))).findSome?
        (recordAt L m (L.addrString ta)) = none →
      iterationsOf (findAddressInSeed L order (some m) target).2 = searchSpace order) := by
  have hnone := recordAt_of_render_none L m (L.addrString ta) c hfail
  obtain ⟨hres, hit⟩ := findAddressInSeed_of_decoded L order m target ta hdec
  refine ⟨?_, ?_, ?_, ?_⟩
  · intro purposeName pre tgt
    exact searchStep_of_render_none L m tgt c.1 purposeName c.2.1 pre c.2.2 hfail
  · intro purposeName pre tgt fuel hlt
    have hs := searchStep_of_render_none L m tgt c.1 purposeName c.2.1 pre c.2.2 hfail
    simp only [indexLoop, if_pos hlt]
    generalize searchStep L m tgt c.1 purposeName c.2.1 pre c.2.2 = st at hs
    obtain ⟨r, t⟩ := st
    simp only at hs
    subst hs
    rfl
  · rw [hres, findSome?_filter_of_none _ c hnone]
  · intro h
    rw [findSome?_filter_of_none _ c hnone] at h
    rw [hit]
    apply (purposeLoop_spec L m (L.addrString ta) order).2.2
    rw [purposeLoop_result, h]

theorem C17_witness :
    (findAddressInSeed failLib purposes (some demoMaster) "1exxx").1 =
      .ok ((((searchSpace purposes).filter (fun x => decide (x ≠ (44, 0, 7)))).findSome?
        (recordAt failLib demoMaster
          (failLib.addrString (.pubKeyHash (demoPad 20 [3, 0]) 0)))).getD
        (notFoundResult failLib)) :=
  (C17_coordinate_failure_is_isolated failLib purposes demoMaster "1exxx"
    (.pubKeyHash (demoPad 20 [3, 0]) 0) rfl (44, 0, 7) rfl).2.2.1

theorem errorLogsOf_append {L : Lib} (s t : List (Event L)) :
    errorLogsOf (s ++ t) = errorLogsOf s ++ errorLogsOf t := by
  induction s with
  | nil => rfl
  | cons e s ih =>
    cases e with
    | log line => cases line <;> simp [errorLogsOf, ih]
    | _ => simp [errorLogsOf, ih]

theorem errorLogsOf_deriveChildKey (L : Lib) (m : L.Key)
    (purpose coinType account chain index : Nat) :
    errorLogsOf (deriveChildKey L m purpose coinType account chain index).2 = [] := by
  unfold deriveChildKey
  cases h1 : L.derive m (u32 (purpose + HardenedKeyStart)) with
  | error e => simp only [h1, errorLogsOf]
  | ok kp =>
    cases h2 : L.derive kp (u32 (coinType + HardenedKeyStart)) with
    | error e => simp only [h1, h2, errorLogsOf]
    | ok kc =>
      cases h3 : L.derive kc (u32 (account + HardenedKeyStart)) with
      | error e => simp only [h1, h2, h3, errorLogsOf]
      | ok ka =>
        cases h4 : L.derive ka chain with
        | error e => simp only [h1, h2, h3, h4, errorLogsOf]
        | ok kch =>
          cases h5 : L.derive kch index with
          | error e => simp only [h1, h2, h3, h4, h5, errorLogsOf]
          | ok ki => simp only [h1, h2, h3, h4, h5, errorLogsOf]

/-- The loop body logs a failure only at index 0 of the external chain. -/
theorem searchStep_errorLogs (L : Lib) (m : L.Key) (target : String)
    (purpose : Nat) (purposeName : String) (changeType : Nat) (pre : String) (index : Nat) :
    ∀ x ∈ errorLogsOf (searchStep L m target purpose purposeName changeType pre index).2,
      x.2.1 = ExternalChain ∧ x.2.2 = 0 := by
  have hd := errorLogsOf_deriveChildKey L m purpose CoinTypeBitcoin DefaultAccount
    changeType index
  unfold searchStep
  generalize deriveChildKey L m purpose CoinTypeBitcoin DefaultAccount changeType index = d at hd
  obtain ⟨r, t⟩ := d
  simp only at hd
  cases r with
  | error e =>
    simp only [errorLogsOf, List.append_eq, errorLogsOf_append, hd, List.nil_append]
    by_cases h0 : index = 0 ∧ changeType = ExternalChain
    · rw [if_pos h0]
      simp only [errorLogsOf, List.mem_singleton]
      intro x hx
      subst hx
      exact ⟨h0.2, h0.1⟩
    · rw [if_neg h0]
      simp only [errorLogsOf, List.not_mem_nil, false_implies, implies_true]
  | ok key =>
    cases hg : generateForPurpose L purpose key with
    | none =>
      simp only [hg, errorLogsOf, hd, List.not_mem_nil, false_implies, implies_true]
    | some g =>
      cases g with
      | error e =>
        simp only [hg, errorLogsOf, List.append_eq, errorLogsOf_append, hd, List.nil_append]
        by_cases h0 : index = 0 ∧ changeType = ExternalChain
        · rw [if_pos h0]
          simp only [errorLogsOf, List.mem_singleton]
          intro x hx
          subst hx
          exact ⟨h0.2, h0.1⟩
        · rw [if_neg h0]
          simp only [errorLogsOf, List.not_mem_nil, false_implies, implies_true]
      | ok a =>
        by_cases hs : L.addrString a = target
        · simp only [hg, hs, if_true, errorLogsOf, List.append_eq, errorLogsOf_append, hd,
            List.append_nil, List.not_mem_nil, false_implies, implies_true]
        · simp only [hg, hs, if_false, errorLogsOf, hd, List.not_mem_nil, false_implies,
            implies_true]

theorem indexLoop_errorLogs (L : Lib) (m : L.Key) (target : String)
    (purpose : Nat) (purposeName : String) (changeType : Nat) (pre : String) :
    ∀ fuel index,
      ∀ x ∈ errorLogsOf (indexLoop L m target purpose purposeName changeType pre fuel index).2,
        x.2.1 = ExternalChain ∧ x.2.2 = 0 := by
  intro fuel
  induction fuel with
  | zero =>
    intro index x hx
    simp only [indexLoop, errorLogsOf, List.not_mem_nil] at hx
  | succ fuel ih =>
    intro index
    have hs := searchStep_errorLogs L m target purpose purposeName changeType pre index
    simp only [indexLoop]
    by_cases hlt : index < addressSearchLimit
    · rw [if_pos hlt]
      generalize searchStep L m target purpose purposeName changeType pre index = st at hs
      obtain ⟨r, t⟩ := st
      cases r with
      | some res => exact hs
      | none =>
        intro x hx
        simp only [errorLogsOf_append, List.mem_append] at hx
        rcases hx with hx | hx
        · exact hs x hx
        · exact ih (index + 1) x hx
    · rw [if_neg hlt]
      intro x hx
      simp only [errorLogsOf, List.not_mem_nil] at hx

theorem chainLoop_errorLogs (L : Lib) (m : L.Key) (target : String)
    (purpose : Nat) (purposeName : String) :
    ∀ chains : List Nat,
      ∀ x ∈ errorLogsOf (chainLoop L m target purpose purposeName chains).2,
        x.2.1 = ExternalChain ∧ x.2.2 = 0 := by
  intro chains
  induction chains with
  | nil =>
    intro x hx
    simp only [chainLoop, errorLogsOf, List.not_mem_nil] at hx
  | cons c chains ih =>
    have hs := indexLoop_errorLogs L m target purpose purposeName c
      (Sprintf "m/%d'/0'/%d'/%d"
        [.uint32 purpose, .uint32 CoinTypeBitcoin, .uint32 DefaultAccount, .uint32 c])
      addressSearchLimit 0
    simp only [chainLoop]
    generalize indexLoop L m target purpose purposeName c
      (Sprintf "m/%d'/0'/%d'/%d"
        [.uint32 purpose, .uint32 CoinTypeBitcoin, .uint32 DefaultAccount, .uint32 c])
      addressSearchLimit 0 = st at hs
    obtain ⟨r, t⟩ := st
    cases r with
    | some res =>
      intro x hx
      simp only [errorLogsOf] at hx
      exact hs x hx
    | none =>
      intro x hx
      simp only [errorLogsOf, List.append_eq, errorLogsOf_append, List.mem_append] at hx
      rcases hx with hx | hx
      · exact hs x hx
      · exact ih x hx

theorem purposeLoop_errorLogs (L : Lib) (m : L.Key) (target : String) :
    ∀ order : List (Nat × String),
      ∀ x ∈ errorLogsOf (purposeLoop L m target order).2,
        x.2.1 = ExternalChain ∧ x.2.2 = 0 := by
  intro order
  induction order with
  | nil =>
    intro x hx
    simp only [purposeLoop, errorLogsOf, List.not_mem_nil] at hx
  | cons e order ih =>
    obtain ⟨purpose, purposeName⟩ := e
    have hs := chainLoop_errorLogs L m target purpose purposeName
      [ExternalChain, InternalChain]
    simp only [purposeLoop]
    generalize chainLoop L m target purpose purposeName [ExternalChain, InternalChain] = st
      at hs
    obtain ⟨r, t⟩ := st
    cases r with
    | some res =>
      intro x hx
      simp only [errorLogsOf] at hx
      exact hs x hx
    | none =>
      intro x hx
      simp only [errorLogsOf, List.append_eq, errorLogsOf_append, List.mem_append] at hx
      rcases hx with hx | hx
      · exact hs x hx
      · exact ih x hx

theorem findAddressInSeed_errorLogs (L : Lib) (order : List (Nat × String))
    (cur : Option L.Key) (target : String) :
    ∀ x ∈ errorLogsOf (findAddressInSeed L order cur target).2,
      x.2.1 = ExternalChain ∧ x.2.2 = 0 := by
  unfold findAddressInSeed
  cases cur with
  | none =>
    intro x hx
    simp only [errorLogsOf, List.not_mem_nil] at hx
  | some masterKey =>
    cases hdec : L.decodeAddress target netParams with
    | error e =>
      intro x hx
      simp only [errorLogsOf, List.not_mem_nil] at hx
    | ok ta =>
      have hs := purposeLoop_errorLogs L masterKey (L.addrString ta) order
      simp only
      generalize purposeLoop L masterKey (L.addrString ta) order = st at hs
      obtain ⟨r, t⟩ := st
      cases r with
      | some res =>
        intro x hx
        simp only [errorLogsOf] at hx
        exact hs x hx
      | none =>
        intro x hx
        simp only [errorLogsOf, List.append_eq, errorLogsOf_append, List.mem_append,
          List.not_mem_nil, or_false] at hx
        exact hs x hx

/-- C18, as amended: a failure of derivation or rendering at a coordinate is
never returned to the caller, since `findAddressInSeed` returns no error once the
decoder has accepted the target, whatever fails in the loop; and such a failure
is written to the log only at index 0 of the external chain. -/
theorem C18_failures_only_logged_at_origin (L : Lib) (order : List (Nat × String))
    (m : L.Key) (target : String) :
    (∀ ta, L.decodeAddress target netParams = .ok ta →
      ∃ res, (findAddressInSeed L order (some m) target).1 = .ok res) ∧
    (∀ x ∈ errorLogsOf (findAddressInSeed L order (some m) target).2,
      x.2.1 = ExternalChain ∧ x.2.2 = 0) :=
  ⟨fun ta hdec => ⟨_, (findAddressInSeed_of_decoded L order m target ta hdec).1⟩,
    findAddressInSeed_errorLogs L order (some m) target⟩

/-- C18 fails as stated: in the library whose `Derive` fails for child number 7,
derivation fails at `m/44'/0'/0'/0/7`, yet the search for the address of index 8
returns that match with no error, and no failure is in the log. -/
theorem C18_counterexample :
    (deriveChildKey failLib demoMaster 44 0 0 0 7).1.toOption.isSome = false ∧
    (findAddressInSeed failLib purposes (some demoMaster) "1exxxxxxxx").1.toOption.map
        (fun r => (r.Found, r.Purpose, r.Index)) = some (true, 44, 8) ∧
    iterationsOf (findAddressInSeed failLib purposes (some demoMaster) "1exxxxxxxx").2 =
      [(44, 0, 0), (44, 0, 1), (44, 0, 2), (44, 0, 3), (44, 0, 4), (44, 0, 5), (44, 0, 6),
        (44, 0, 7), (44, 0, 8)] ∧
    errorLogsOf (findAddressInSeed failLib purposes (some demoMaster) "1exxxxxxxx").2 = [] := by
  decide

/-! ## Seed generation and decoding: theorems -/

theorem bytesOf_length_eq_zero (t : String) : (bytesOf t).length = 0 ↔ t = "" := by
  cases t with
  | mk d =>
    cases d with
    | nil => simp [bytesOf]
    | cons c cs =>
      have hpos := Char.utf8Size_pos c
      have hne : (String.mk (c :: cs)) ≠ "" := by
        intro h
        have := congrArg String.data h
        simp at this
      simp only [bytesOf, List.flatMap_cons, List.length_append, String.length_utf8EncodeChar]
      constructor
      · intro h; omega
      · intro h; exact absurd h hne

theorem passphrase_rule (t : String) :
    (if (bytesOf t).length = 0 then bytesOf "aezeed" else bytesOf t) = effectivePassphrase t := by
  unfold effectivePassphrase
  by_cases h : t = ""
  · rw [if_pos ((bytesOf_length_eq_zero t).2 h), if_pos h]
  · rw [if_neg (fun h0 => h ((bytesOf_length_eq_zero t).1 h0)), if_neg h]

theorem effectivePassphrase_default : effectivePassphrase "" = effectivePassphrase "aezeed" := by
  unfold effectivePassphrase
  rw [if_pos rfl, if_neg (by decide)]

/-- The trace of `generateNewSeedAndAddresses` after the passphrase has been
chosen, and the state it leaves. -/
theorem generateNewSeedAndAddresses_eq (L : Lib) (A : Aezeed L)
    (randRead : Except L.Err (List UInt8)) (now : Nat) (s : AppState L) :
    ∃ t0 : List (AppEvent L), codecCallsOf t0 = [] ∧ codecPassphrasesOf t0 = [] ∧
      cryptoCallsOf t0 = [] ∧
      generateNewSeedAndAddresses L A randRead now s =
  match randRead with
  | .error err =>
    (s, t0 ++ [.randRead, .showStatus (.entropyError err) true, .updateXPUBDisplay])
  | .ok entropy =>
    match A.New 0 entropy now with
    | .error err =>
      (s, t0 ++ [.randRead, .cryptoNew 0 entropy now, .showStatus (.seedError err) true,
        .updateXPUBDisplay])
    | .ok seed =>
      match A.ToMnemonic seed (effectivePassphrase s.passphraseEntryText) with
      | .error err =>
        (s, t0 ++ [.randRead, .cryptoNew 0 entropy now,
          .toMnemonic (effectivePassphrase s.passphraseEntryText),
          .showStatus (.mnemonicError err) true, .updateXPUBDisplay])
      | .ok mnemonicArray =>
        match A.NewMaster (A.Entropy seed) netParams with
        | .error err =>
          ({ s with mnemonicEntryText := Join mnemonicArray " " },
            t0 ++ [.randRead, .cryptoNew 0 entropy now,
            .toMnemonic (effectivePassphrase s.passphraseEntryText),
            .setMnemonicText (Join mnemonicArray " "), .newMaster (A.Entropy seed),
            .showStatus (.masterKeyError err) true, .updateXPUBDisplay])
        | .ok masterKey =>
          ({ s with mnemonicEntryText := Join mnemonicArray " ",
                    currentMasterKey := some masterKey, currentBatchStart := 0 },
            t0 ++ [.randRead, .cryptoNew 0 entropy now,
              .toMnemonic (effectivePassphrase s.passphraseEntryText),
              .setMnemonicText (Join mnemonicArray " "), .newMaster (A.Entropy seed),
              .updateXPUBDisplay, .updateAddressGrid, .enableLoadMore] ++
            (if s.selectedBlockchainSource ≠ SourceOffline then [.showVerificationButtons]
              else []) ++
            [.showStatus .seedGenerated false]) := by
  refine ⟨if (bytesOf s.passphraseEntryText).length = 0 then [.logDefaultPassphrase] else [],
    ?_, ?_, ?_, ?_⟩
  · split <;> rfl
  · split <;> rfl
  · split <;> rfl
  · cases randRead with
    | error e => simp only [generateNewSeedAndAddresses, passphrase_rule]
    | ok entropy =>
      cases hn : A.New 0 entropy now with
      | error e => simp only [generateNewSeedAndAddresses, passphrase_rule, hn]
      | ok seed =>
        cases hm : A.ToMnemonic seed (effectivePassphrase s.passphraseEntryText) with
        | error e => simp only [generateNewSeedAndAddresses, passphrase_rule, hn, hm]
        | ok ws =>
          cases hk : A.NewMaster (A.Entropy seed) netParams with
          | error e =>
            simp only [generateNewSeedAndAddresses, passphrase_rule, hn, hm, hk]
          | ok k =>
            simp only [generateNewSeedAndAddresses, passphrase_rule, hn, hm, hk]

theorem decodeMnemonicAndAddresses_eq (L : Lib) (A : Aezeed L) (s : AppState L) :
    ∃ t0 : List (AppEvent L), codecCallsOf t0 = [] ∧ codecPassphrasesOf t0 = [] ∧
      cryptoCallsOf t0 = [] ∧ errorStatusCount t0 = 0 ∧
      decodeMnemonicAndAddresses L A s =
  if (Fields s.mnemonicEntryText).length ≠ NumMnemonicWords then
    (s, t0 ++ [.showStatus (.wordCountError NumMnemonicWords
        (Fields s.mnemonicEntryText).length) true, .updateXPUBDisplay])
  else
    match A.ToCipherSeed (Fields s.mnemonicEntryText)
        (effectivePassphrase s.passphraseEntryText) with
    | .error err =>
      (s, t0 ++ [.toCipherSeed (Fields s.mnemonicEntryText)
          (effectivePassphrase s.passphraseEntryText),
        .showStatus (.decodeError err) true, .updateXPUBDisplay])
    | .ok seed =>
      match A.NewMaster (A.Entropy seed) netParams with
      | .error err =>
        (s, t0 ++ [.toCipherSeed (Fields s.mnemonicEntryText)
            (effectivePassphrase s.passphraseEntryText), .newMaster (A.Entropy seed),
          .showStatus (.decodedMasterKeyError err) true, .updateXPUBDisplay])
      | .ok masterKey =>
        ({ s with currentMasterKey := some masterKey, currentBatchStart := 0 },
          t0 ++ [.toCipherSeed (Fields s.mnemonicEntryText)
              (effectivePassphrase s.passphraseEntryText), .newMaster (A.Entropy seed),
            .updateXPUBDisplay, .updateAddressGrid, .enableLoadMore] ++
          (if s.selectedBlockchainSource ≠ SourceOffline then [.showVerificationButtons]
            else []) ++
          [.showStatus .mnemonicDecoded false]) := by
  refine ⟨if (bytesOf s.passphraseEntryText).length = 0 then [.logDefaultPassphrase] else [],
    ?_, ?_, ?_, ?_, ?_⟩
  · split <;> rfl
  · split <;> rfl
  · split <;> rfl
  · split <;> rfl
  · by_cases hlen : (Fields s.mnemonicEntryText).length = NumMnemonicWords
    · have htake : (Fields s.mnemonicEntryText).take NumMnemonicWords =
          Fields s.mnemonicEntryText := List.take_of_length_le (le_of_eq hlen)
      cases hc : A.ToCipherSeed (Fields s.mnemonicEntryText)
          (effectivePassphrase s.passphraseEntryText) with
      | error e =>
        simp only [decodeMnemonicAndAddresses, passphrase_rule, if_neg (not_not_intro hlen),
          htake, hc]
      | ok seed =>
        cases hk : A.NewMaster (A.Entropy seed) netParams with
        | error e =>
          simp only [decodeMnemonicAndAddresses, passphrase_rule, if_neg (not_not_intro hlen),
            htake, hc, hk]
        | ok k =>
          simp only [decodeMnemonicAndAddresses, passphrase_rule, if_neg (not_not_intro hlen),
            htake, hc, hk]
    · simp only [decodeMnemonicAndAddresses, passphrase_rule, if_pos hlen]

theorem codecCallsOf_append {L : Lib} (s t : List (AppEvent L)) :
    codecCallsOf (s ++ t) = codecCallsOf s ++ codecCallsOf t := by
  simp [codecCallsOf]

theorem codecPassphrasesOf_append {L : Lib} (s t : List (AppEvent L)) :
    codecPassphrasesOf (s ++ t) = codecPassphrasesOf s ++ codecPassphrasesOf t := by
  induction s with
  | nil => rfl
  | cons e s ih => cases e <;> simp [codecPassphrasesOf, ih]

theorem cryptoCallsOf_append {L : Lib} (s t : List (AppEvent L)) :
    cryptoCallsOf (s ++ t) = cryptoCallsOf s ++ cryptoCallsOf t := by
  induction s with
  | nil => rfl
  | cons e s ih => cases e <;> simp [cryptoCallsOf, ih]

theorem errorStatusCount_append {L : Lib} (s t : List (AppEvent L)) :
    errorStatusCount (s ++ t) = errorStatusCount s + errorStatusCount t := by
  induction s with
  | nil => simp [errorStatusCount]
  | cons e s ih =>
    cases e with
    | showStatus msg b =>
      cases b
      · simp [errorStatusCount, ih]
      · simp [errorStatusCount, ih]
        omega
    | _ => simp [errorStatusCount, ih]

/-- The passphrases `generateNewSeedAndAddresses` hands to the seed package, its
calls into the package and the master key it leaves. -/
theorem generateNewSeedAndAddresses_codec (L : Lib) (A : Aezeed L)
    (randRead : Except L.Err (List UInt8)) (now : Nat) (s : AppState L) :
    codecPassphrasesOf (generateNewSeedAndAddresses L A randRead now s).2 =
      (match randRead with
      | .error _ => []
      | .ok entropy =>
        match A.New 0 entropy now with
        | .error _ => []
        | .ok _ => [effectivePassphrase s.passphraseEntryText]) ∧
    codecCallsOf (generateNewSeedAndAddresses L A randRead now s).2 =
      (match randRead with
      | .error _ => []
      | .ok entropy =>
        match A.New 0 entropy now with
        | .error _ => [.cryptoNew 0 entropy now]
        | .ok seed =>
          match A.ToMnemonic seed (effectivePassphrase s.passphraseEntryText) with
          | .error _ =>
            [.cryptoNew 0 entropy now, .toMnemonic (effectivePassphrase s.passphraseEntryText)]
          | .ok _ =>
            [.cryptoNew 0 entropy now, .toMnemonic (effectivePassphrase s.passphraseEntryText),
              .newMaster (A.Entropy seed)]) ∧
    (generateNewSeedAndAddresses L A randRead now s).1.currentMasterKey =
      (match randRead with
      | .error _ => s.currentMasterKey
      | .ok entropy =>
        match A.New 0 entropy now with
        | .error _ => s.currentMasterKey
        | .ok seed =>
          match A.ToMnemonic seed (effectivePassphrase s.passphraseEntryText) with
          | .error _ => s.currentMasterKey
          | .ok _ =>
            match A.NewMaster (A.Entropy seed) netParams with
            | .error _ => s.currentMasterKey
            | .ok masterKey => some masterKey) := by
  obtain ⟨t0, h1, h2, _, h⟩ := generateNewSeedAndAddresses_eq L A randRead now s
  rw [h]
  cases randRead with
  | error e =>
    refine ⟨?_, ?_, rfl⟩ <;>
      simp only [codecPassphrasesOf_append, codecCallsOf_append, h1, h2] <;> rfl
  | ok entropy =>
    simp only
    cases A.New 0 entropy now with
    | error e =>
      refine ⟨?_, ?_, rfl⟩ <;>
        simp only [codecPassphrasesOf_append, codecCallsOf_append, h1, h2] <;> rfl
    | ok seed =>
      simp only
      cases A.ToMnemonic seed (effectivePassphrase s.passphraseEntryText) with
      | error e =>
        refine ⟨?_, ?_, rfl⟩ <;>
          simp only [codecPassphrasesOf_append, codecCallsOf_append, h1, h2] <;> rfl
      | ok ws =>
        simp only
        cases A.NewMaster (A.Entropy seed) netParams with
        | error e =>
          refine ⟨?_, ?_, rfl⟩ <;>
            simp only [codecPassphrasesOf_append, codecCallsOf_append, h1, h2] <;> rfl
        | ok k =>
          refine ⟨?_, ?_, rfl⟩ <;>
            simp only [codecPassphrasesOf_append, codecCallsOf_append, h1, h2] <;>
            first
              | rfl
              | (split <;> rfl)

/-- The same for `decodeMnemonicAndAddresses`. -/
theorem decodeMnemonicAndAddresses_codec (L : Lib) (A : Aezeed L) (s : AppState L) :
    codecPassphrasesOf (decodeMnemonicAndAddresses L A s).2 =
      (if (Fields s.mnemonicEntryText).length ≠ NumMnemonicWords then []
      else [effectivePassphrase s.passphraseEntryText]) ∧
    codecCallsOf (decodeMnemonicAndAddresses L A s).2 =
      (if (Fields s.mnemonicEntryText).length ≠ NumMnemonicWords then []
      else
        match A.ToCipherSeed (Fields s.mnemonicEntryText)
            (effectivePassphrase s.passphraseEntryText) with
        | .error _ =>
          [.toCipherSeed (Fields s.mnemonicEntryText)
            (effectivePassphrase s.passphraseEntryText)]
        | .ok seed =>
          [.toCipherSeed (Fields s.mnemonicEntryText)
            (effectivePassphrase s.passphraseEntryText), .newMaster (A.Entropy seed)]) ∧
    (decodeMnemonicAndAddresses L A s).1.currentMasterKey =
      (if (Fields s.mnemonicEntryText).length ≠ NumMnemonicWords then s.currentMasterKey
      else
        match A.ToCipherSeed (Fields s.mnemonicEntryText)
            (effectivePassphrase s.passphraseEntryText) with
        | .error _ => s.currentMasterKey
        | .ok seed =>
          match A.NewMaster (A.Entropy seed) netParams with
          | .error _ => s.currentMasterKey
          | .ok masterKey => some masterKey) := by
  obtain ⟨t0, h1, h2, _, _, h⟩ := decodeMnemonicAndAddresses_eq L A s
  rw [h]
  by_cases hlen : (Fields s.mnemonicEntryText).length = NumMnemonicWords
  · simp only [if_neg (not_not_intro hlen)]
    cases A.ToCipherSeed (Fields s.mnemonicEntryText)
        (effectivePassphrase s.passphraseEntryText) with
    | error e =>
      refine ⟨?_, ?_, rfl⟩ <;>
        simp only [codecPassphrasesOf_append, codecCallsOf_append, h1, h2] <;> rfl
    | ok seed =>
      simp only
      cases A.NewMaster (A.Entropy seed) netParams with
      | error e =>
        refine ⟨?_, ?_, rfl⟩ <;>
          simp only [codecPassphrasesOf_append, codecCallsOf_append, h1, h2] <;> rfl
      | ok k =>
        refine ⟨?_, ?_, rfl⟩ <;>
          simp only [codecPassphrasesOf_append, codecCallsOf_append, h1, h2] <;>
          first
            | rfl
            | (split <;> rfl)
  · simp only [if_pos hlen]
    refine ⟨?_, ?_, trivial⟩ <;>
      simp only [codecPassphrasesOf_append, codecCallsOf_append, h1, h2] <;> rfl


/-- C14: `generateNewSeedAndAddresses` and `decodeMnemonicAndAddresses` hand the
seed package the same passphrase for the same entry text: the bytes of `aezeed`
when the text is empty, the bytes of the text otherwise.  Every call of
`ToMnemonic` and of `ToCipherSeed` gets that passphrase (and it is made once the
earlier steps succeed), and with the empty entry and with the entry `aezeed` the
two functions make the same calls with the same arguments. -/
theorem C14_passphrase_rule (L : Lib) (A : Aezeed L) (randRead : Except L.Err (List UInt8))
    (now : Nat) (s : AppState L) :
    (effectivePassphrase "" = bytesOf "aezeed" ∧
      (s.passphraseEntryText ≠ "" →
        effectivePassphrase s.passphraseEntryText = bytesOf s.passphraseEntryText)) ∧
    (∀ q ∈ codecPassphrasesOf (generateNewSeedAndAddresses L A randRead now s).2,
      q = effectivePassphrase s.passphraseEntryText) ∧
    (∀ q ∈ codecPassphrasesOf (decodeMnemonicAndAddresses L A s).2,
      q = effectivePassphrase s.passphraseEntryText) ∧
    (∀ entropy seed, randRead = .ok entropy → A.New 0 entropy now = .ok seed →
      codecPassphrasesOf (generateNewSeedAndAddresses L A randRead now s).2 =
        [effectivePassphrase s.passphraseEntryText]) ∧
    ((Fields s.mnemonicEntryText).length = NumMnemonicWords →
      codecPassphrasesOf (decodeMnemonicAndAddresses L A s).2 =
        [effectivePassphrase s.passphraseEntryText]) ∧
    codecCallsOf
        (generateNewSeedAndAddresses L A randRead now { s with passphraseEntryText := "" }).2 =
      codecCallsOf (generateNewSeedAndAddresses L A randRead now
        { s with passphraseEntryText := "aezeed" }).2 ∧
    codecCallsOf (decodeMnemonicAndAddresses L A { s with passphraseEntryText := "" }).2 =
      codecCallsOf (decodeMnemonicAndAddresses L A { s with passphraseEntryText := "aezeed" }).2 := by
  have hg := (generateNewSeedAndAddresses_codec L A randRead now s).1
  have hd := (decodeMnemonicAndAddresses_codec L A s).1
  refine ⟨⟨rfl, fun h => if_neg h⟩, ?_, ?_, ?_, ?_, ?_, ?_⟩
  · intro q hq
    rw [hg] at hq
    cases randRead with
    | error e => cases hq
    | ok entropy =>
      simp only at hq
      cases hn : A.New 0 entropy now with
      | error e => rw [hn] at hq; cases hq
      | ok seed =>
        rw [hn] at hq
        exact List.mem_singleton.1 hq
  · intro q hq
    rw [hd] at hq
    by_cases hlen : (Fields s.mnemonicEntryText).length = NumMnemonicWords
    · rw [if_neg (not_not_intro hlen)] at hq
      exact List.mem_singleton.1 hq
    · rw [if_pos hlen] at hq
      cases hq
  · intro entropy seed hr hn
    rw [hg, hr]
    simp only [hn]
  · intro hlen
    rw [hd, if_neg (not_not_intro hlen)]
  · rw [(generateNewSeedAndAddresses_codec L A randRead now _).2.1,
      (generateNewSeedAndAddresses_codec L A randRead now _).2.1]
    simp only [effectivePassphrase_default]
  · rw [(decodeMnemonicAndAddresses_codec L A _).2.1, (decodeMnemonicAndAddresses_codec L A _).2.1]
    simp only [effectivePassphrase_default]

/-- C15: when the mnemonic entry does not hold exactly `NumMnemonicWords` (24)
whitespace-separated words, `decodeMnemonicAndAddresses` shows the word-count
error, leaves the state as it was and calls neither `ToCipherSeed` nor
`NewMaster`; when it holds exactly 24 words, the first call into the seed
package is `ToCipherSeed` with all the words in their order. -/
theorem C15_word_count_checked_first (L : Lib) (A : Aezeed L) (s : AppState L) :
    NumMnemonicWords = 24 ∧
    ((Fields s.mnemonicEntryText).length ≠ NumMnemonicWords →
      (decodeMnemonicAndAddresses L A s).1 = s ∧
      cryptoCallsOf (decodeMnemonicAndAddresses L A s).2 = [] ∧
      errorStatusCount (decodeMnemonicAndAddresses L A s).2 = 1 ∧
      AppEvent.showStatus
          (.wordCountError NumMnemonicWords (Fields s.mnemonicEntryText).length) true ∈
        (decodeMnemonicAndAddresses L A s).2) ∧
    ((Fields s.mnemonicEntryText).length = NumMnemonicWords →
      ∃ rest, cryptoCallsOf (decodeMnemonicAndAddresses L A s).2 =
        some (Fields s.mnemonicEntryText) :: rest) := by
  obtain ⟨t0, _, _, h3, h4, h⟩ := decodeMnemonicAndAddresses_eq L A s
  refine ⟨rfl, ?_, ?_⟩
  · intro hlen
    rw [h, if_pos hlen]
    refine ⟨rfl, ?_, ?_, ?_⟩
    · simp only [cryptoCallsOf_append, h3]
      rfl
    · simp only [errorStatusCount_append, h4]
      rfl
    · simp
  · intro hlen
    rw [h, if_neg (not_not_intro hlen)]
    cases A.ToCipherSeed (Fields s.mnemonicEntryText)
        (effectivePassphrase s.passphraseEntryText) with
    | error e =>
      simp only [cryptoCallsOf_append, h3]
      exact ⟨_, rfl⟩
    | ok seed =>
      simp only
      cases A.NewMaster (A.Entropy seed) netParams with
      | error e =>
        simp only [cryptoCallsOf_append, h3]
        exact ⟨_, rfl⟩
      | ok k =>
        simp only [cryptoCallsOf_append, h3]
        exact ⟨_, rfl⟩

theorem fieldsAux_word (w rest cur : List Char) (hw : ∀ c ∈ w, isSpace c = false) :
    fieldsAux (w ++ rest) cur = fieldsAux rest (w.reverse ++ cur) := by
  induction w generalizing cur with
  | nil => rfl
  | cons c cs ih =>
    have hc : isSpace c = false := hw c (List.mem_cons_self _ _)
    rw [List.cons_append, fieldsAux, if_neg (by simp [hc]),
      ih (c :: cur) (fun d hd => hw d (List.mem_cons_of_mem _ hd))]
    simp

theorem Join_cons_cons_data (a b : String) (rest : List String) :
    (Join (a :: b :: rest) " ").data = a.data ++ ' ' :: (Join (b :: rest) " ").data := by
  simp [Join, String.data_append]

theorem fieldsAux_join (ws : List String)
    (h : ∀ w ∈ ws, w ≠ "" ∧ ∀ c ∈ w.data, isSpace c = false) :
    fieldsAux (Join ws " ").data [] = ws.map String.data := by
  induction ws with
  | nil => rfl
  | cons a rest ih =>
    have ha := h a (List.mem_cons_self _ _)
    have hne : a.data ≠ [] := by
      intro h0
      apply ha.1
      cases a
      simp_all
    have hr : ∀ w ∈ rest, w ≠ "" ∧ ∀ c ∈ w.data, isSpace c = false :=
      fun w hw => h w (List.mem_cons_of_mem _ hw)
    cases rest with
    | nil =>
      have := fieldsAux_word a.data [] [] ha.2
      simp only [List.append_nil] at this
      simp only [Join, this, fieldsAux, List.reverse_eq_nil_iff, hne, if_false,
        List.reverse_reverse, List.map]
    | cons b rest2 =>
      rw [Join_cons_cons_data, fieldsAux_word a.data _ [] ha.2]
      have hsp : isSpace ' ' = true := by decide
      rw [fieldsAux, if_pos hsp, if_neg (by simpa using hne), ih hr]
      simp

theorem Fields_Join (ws : List String)
    (h : ∀ w ∈ ws, w ≠ "" ∧ ∀ c ∈ w.data, isSpace c = false) :
    Fields (Join ws " ") = ws := by
  unfold Fields
  rw [fieldsAux_join ws h, List.map_map]
  have : (String.mk ∘ String.data) = id := by
    funext s
    rfl
  rw [this, List.map_id]

/-- C16: generation followed by decoding is a round trip.  Let the generation
succeed up to the mnemonic, a list of 24 words none of which is empty or holds
white space, and let the seed package decode these words under the same
passphrase to a seed of the same entropy.  Then the text generation writes to the
mnemonic entry is the words joined by single spaces, decoding splits it into the
same words, hands `NewMaster` the same entropy as the generation did, and leaves
the same master key. -/
theorem C16_generate_then_decode_round_trip (L : Lib) (A : Aezeed L) (entropy : List UInt8)
    (now : Nat) (s : AppState L) (seed seed2 : A.Seed) (words : List String)
    (hnew : A.New 0 entropy now = .ok seed)
    (hmn : A.ToMnemonic seed (effectivePassphrase s.passphraseEntryText) = .ok words)
    (hlen : words.length = NumMnemonicWords)
    (hwords : ∀ w ∈ words, w ≠ "" ∧ ∀ c ∈ w.data, isSpace c = false)
    (hrt : A.ToCipherSeed words (effectivePassphrase s.passphraseEntryText) = .ok seed2)
    (hent : A.Entropy seed2 = A.Entropy seed) :
    (generateNewSeedAndAddresses L A (.ok entropy) now s).1.mnemonicEntryText = Join words " " ∧
    (generateNewSeedAndAddresses L A (.ok entropy) now s).1.passphraseEntryText =
      s.passphraseEntryText ∧
    Fields (Join words " ") = words ∧
    codecCallsOf (generateNewSeedAndAddresses L A (.ok entropy) now s).2 =
      [.cryptoNew 0 entropy now, .toMnemonic (effectivePassphrase s.passphraseEntryText),
        .newMaster (A.Entropy seed)] ∧
    codecCallsOf (decodeMnemonicAndAddresses L A
        (generateNewSeedAndAddresses L A (.ok entropy) now s).1).2 =
      [.toCipherSeed words (effectivePassphrase s.passphraseEntryText),
        .newMaster (A.Entropy seed)] ∧
    (decodeMnemonicAndAddresses L A
        (generateNewSeedAndAddresses L A (.ok entropy) now s).1).1.currentMasterKey =
      (generateNewSeedAndAddresses L A (.ok entropy) now s).1.currentMasterKey ∧
    (∀ masterKey, A.NewMaster (A.Entropy seed) netParams = .ok masterKey →
      (generateNewSeedAndAddresses L A (.ok entropy) now s).1.currentMasterKey =
        some masterKey) := by
  have hfj := Fields_Join words hwords
  obtain ⟨t0, _, _, _, hg⟩ := generateNewSeedAndAddresses_eq L A (.ok entropy) now s
  have hgc := generateNewSeedAndAddresses_codec L A (.ok entropy) now s
  simp only [hnew, hmn] at hg hgc
  have hstate : (generateNewSeedAndAddresses L A (.ok entropy) now s).1.mnemonicEntryText =
        Join words " " ∧
      (generateNewSeedAndAddresses L A (.ok entropy) now s).1.passphraseEntryText =
        s.passphraseEntryText := by
    rw [hg]
    cases A.NewMaster (A.Entropy seed) netParams <;> exact ⟨rfl, rfl⟩
  have hdc := decodeMnemonicAndAddresses_codec L A
    (generateNewSeedAndAddresses L A (.ok entropy) now s).1
  rw [hstate.1, hstate.2, hfj] at hdc
  simp only [hrt, hent, if_neg (not_not_intro hlen)] at hdc
  refine ⟨hstate.1, hstate.2, hfj, hgc.2.1, hdc.2.1, ?_, ?_⟩
  · rw [hdc.2.2]
    rw [hgc.2.2]
    cases A.NewMaster (A.Entropy seed) netParams with
    | error e => simp only [hgc.2.2]
    | ok k => rfl
  · intro k hk
    rw [hgc.2.2, hk]

theorem C16_witness :
    codecCallsOf (decodeMnemonicAndAddresses demoLib demoAezeed
        (generateNewSeedAndAddresses demoLib demoAezeed (.ok [1, 2, 3]) 0
          (demoState demoLib none SourceOffline "" "")).1).2 =
      [.toCipherSeed (List.replicate 24 "seed") (effectivePassphrase ""),
        .newMaster [1, 2, 3]] :=
  (C16_generate_then_decode_round_trip demoLib demoAezeed [1, 2, 3] 0
    (demoState demoLib none SourceOffline "" "") [1, 2, 3] [1, 2, 3] (List.replicate 24 "seed")
    rfl rfl rfl
    (by
      intro w hw
      rw [List.eq_of_mem_replicate hw]
      decide)
    rfl rfl).2.2.2.2.1

/-! ## Batch verification and the address grid: theorems -/

theorem checkSwitch_eq (L : Lib) (purpose : Nat) (key : L.Key) :
    checkSwitch L purpose key = generateForPurpose L purpose key := rfl

/-- What one iteration of the first pass of `checkDerivationInfo` does to the
buffers and to the flag `derivationErrors`. -/
theorem firstPassStep_spec (L : Lib) (m : L.Key) (p c b i : Nat) (buf : Buffers L) (de : Bool) :
    (firstPassStep L m p c b i buf de).1.2 = (de || (renderAt L m p c (u32 (b + i))).isNone) ∧
    (firstPassStep L m p c b i buf de).1.1.results = buf.results ∧
    (∀ j, (firstPassStep L m p c b i buf de).1.1.addresses j =
      if j = i then
        (match renderAt L m p c (u32 (b + i)) with
        | some ka => some ka.2
        | none => buf.addresses i)
      else buf.addresses j) ∧
    (∀ j, j ≠ i → (firstPassStep L m p c b i buf de).1.1.keys j = buf.keys j) ∧
    (∀ ka, renderAt L m p c (u32 (b + i)) = some ka →
      (firstPassStep L m p c b i buf de).1.1.keys i = some ka.1) ∧
    (∀ j, ((firstPassStep L m p c b i buf de).1.1.errors j).isSome =
      ((buf.errors j).isSome || (decide (j = i) && (renderAt L m p c (u32 (b + i))).isNone))) ∧
    (firstPassStep L m p c b i buf de).2 = .batchPosition i ::
      (deriveChildKey L m p CoinTypeBitcoin DefaultAccount c (u32 (b + i))).2.map .core := by
  simp only [firstPassStep, renderAt, checkSwitch_eq]
  generalize deriveChildKey L m p CoinTypeBitcoin DefaultAccount c (u32 (b + i)) = d
  obtain ⟨r, t⟩ := d
  cases r with
  | error e =>
    simp only
    refine ⟨by simp, trivial, ?_, ?_, ?_, ?_, trivial⟩
    · intro j
      by_cases hj : j = i
      · simp [hj]
      · simp [hj]
    · intro j hj
      trivial
    · intro ka h
      simp at h
    · intro j
      by_cases hj : j = i
      · simp [hj, setAt]
      · simp [hj, setAt]
  | ok key =>
    simp only
    cases hg : generateForPurpose L p key with
    | none =>
      simp only
      refine ⟨by simp, trivial, ?_, ?_, ?_, ?_, trivial⟩
      · intro j
        by_cases hj : j = i
        · simp [hj]
        · simp [hj]
      · intro j hj
        simp [setAt, hj]
      · intro ka h
        simp at h
      · intro j
        by_cases hj : j = i
        · simp [hj, setAt]
        · simp [hj, setAt]
    | some g =>
      cases g with
      | error e =>
        simp only
        refine ⟨by simp, trivial, ?_, ?_, ?_, ?_, trivial⟩
        · intro j
          by_cases hj : j = i
          · simp [hj]
          · simp [hj]
        · intro j hj
          simp [setAt, hj]
        · intro ka h
          simp at h
        · intro j
          by_cases hj : j = i
          · simp [hj, setAt]
          · simp [hj, setAt]
      | ok a =>
        simp only
        refine ⟨by simp, trivial, ?_, ?_, ?_, ?_, trivial⟩
        · intro j
          by_cases hj : j = i
          · simp [hj, setAt]
          · simp [hj, setAt]
        · intro j hj
          simp [setAt, hj]
        · intro ka h
          simp at h
          subst h
          simp [setAt]
        · intro j
          simp


theorem positionsOf_append {L : Lib} (s t : List (AppEvent L)) :
    positionsOf (s ++ t) = positionsOf s ++ positionsOf t := by
  simp [positionsOf]

theorem lookupsOf_append {L : Lib} (s t : List (AppEvent L)) :
    lookupsOf (s ++ t) = lookupsOf s ++ lookupsOf t := by
  simp [lookupsOf]

theorem reportsOf_append {L : Lib} (s t : List (AppEvent L)) :
    reportsOf (s ++ t) = reportsOf s ++ reportsOf t := by
  simp [reportsOf]

theorem projections_core {L : Lib} (t : List (Event L)) :
    positionsOf (t.map AppEvent.core) = [] ∧ lookupsOf (t.map AppEvent.core) = [] ∧
    reportsOf (t.map AppEvent.core) = [] := by
  induction t with
  | nil => exact ⟨rfl, rfl, rfl⟩
  | cons e t ih =>
    refine ⟨?_, ?_, ?_⟩
    · simp [positionsOf]
    · simp [lookupsOf]
    · simp [reportsOf]

/-- The first pass of `checkDerivationInfo` over a list of positions: the flag,
the buffers and the trace it leaves. -/
theorem firstPass_spec (L : Lib) (m : L.Key) (p c b : Nat) (l : List Nat) :
    ∀ (buf : Buffers L) (de : Bool),
    (firstPass L m p c b l buf de).1.2 =
      (de || l.any (fun i => (renderAt L m p c (u32 (b + i))).isNone)) ∧
    (firstPass L m p c b l buf de).1.1.results = buf.results ∧
    (∀ j, (firstPass L m p c b l buf de).1.1.addresses j =
      if j ∈ l then
        (match renderAt L m p c (u32 (b + j)) with
        | some ka => some ka.2
        | none => buf.addresses j)
      else buf.addresses j) ∧
    (∀ j ka, renderAt L m p c (u32 (b + j)) = some ka →
      (firstPass L m p c b l buf de).1.1.keys j = if j ∈ l then some ka.1 else buf.keys j) ∧
    (∀ j, ((firstPass L m p c b l buf de).1.1.errors j).isSome =
      ((buf.errors j).isSome ||
        (decide (j ∈ l) && (renderAt L m p c (u32 (b + j))).isNone))) ∧
    positionsOf (firstPass L m p c b l buf de).2 = l ∧
    lookupsOf (firstPass L m p c b l buf de).2 = [] ∧
    reportsOf (firstPass L m p c b l buf de).2 = [] := by
  induction l with
  | nil =>
    intro buf de
    simp [firstPass, positionsOf, lookupsOf, reportsOf]
  | cons i rest ih =>
    intro buf de
    obtain ⟨s1, s2, s3, s4, s5, s6, s7⟩ := firstPassStep_spec L m p c b i buf de
    obtain ⟨r1, r2, r3, r4, r5, r6, r7, r8⟩ :=
      ih (firstPassStep L m p c b i buf de).1.1 (firstPassStep L m p c b i buf de).1.2
    obtain ⟨c1, c2, c3⟩ := projections_core
      (deriveChildKey L m p CoinTypeBitcoin DefaultAccount c (u32 (b + i))).2
    simp only [firstPass]
    refine ⟨?_, ?_, ?_, ?_, ?_, ?_, ?_, ?_⟩
    · rw [r1, s1, List.any_cons, Bool.or_assoc]
    · rw [r2, s2]
    · intro j
      rw [r3 j, s3 j]
      by_cases hj : j = i
      · subst hj
        simp only [List.mem_cons, true_or, if_true]
        split <;> split <;> simp_all
      · simp only [List.mem_cons, hj, false_or, if_false]
    · intro j ka hka
      rw [r4 j ka hka]
      by_cases hj : j = i
      · subst hj
        simp only [List.mem_cons, true_or, if_true]
        rw [s5 ka hka]
        simp
      · simp only [List.mem_cons, hj, false_or]
        rw [s4 j hj]
    · intro j
      rw [r5 j, s6 j]
      by_cases hj : j = i
      · subst hj
        by_cases hr : j ∈ rest <;> simp [hr]
      · simp [hj]
    · rw [positionsOf_append, r6, s7]
      have h : ∀ t : List (AppEvent L),
          positionsOf (AppEvent.batchPosition i :: t) = i :: positionsOf t := fun _ => rfl
      rw [h, c1]
      rfl
    · rw [lookupsOf_append, r7, s7]
      have h : ∀ t : List (AppEvent L),
          lookupsOf (AppEvent.batchPosition i :: t) = lookupsOf t := fun _ => rfl
      rw [h, c2]
      rfl
    · rw [reportsOf_append, r8, s7]
      have h : ∀ t : List (AppEvent L),
          reportsOf (AppEvent.batchPosition i :: t) = reportsOf t := fun _ => rfl
      rw [h, c3]
      rfl


theorem storeOutcome_fields {L : Lib} (b : Buffers L) (i index : Nat) (addrStr : String)
    (outcome : Except (GoError L.Err) String) :
    (storeOutcome b i index addrStr outcome).addresses = b.addresses ∧
    (storeOutcome b i index addrStr outcome).keys = b.keys ∧
    (∀ j, (storeOutcome b i index addrStr outcome).errors j =
      if j = i then
        (match outcome with
        | .error err => some (.wrap ("idx " ++ toString index ++ " (" ++ addrStr ++
            "): erro na verificação") err)
        | .ok _ => b.errors j)
      else b.errors j) ∧
    (∀ j, (storeOutcome b i index addrStr outcome).results j =
      if j = i then
        (match outcome with
        | .error _ => b.results j
        | .ok info => info)
      else b.results j) := by
  cases outcome with
  | error e =>
    refine ⟨rfl, rfl, ?_, ?_⟩
    · intro j
      simp only [storeOutcome, setAt]
    · intro j
      simp only [storeOutcome, ite_self]
  | ok info =>
    refine ⟨rfl, rfl, ?_, ?_⟩
    · intro j
      simp only [storeOutcome, ite_self]
    · intro j
      simp only [storeOutcome, setAt]

/-- A lookup body that finds an address at each of its positions runs through
all of them; afterwards each of these positions holds the outcome of its own
lookup, whatever the order of the positions. -/
theorem runPositions_spec {L : Lib}
    (step : Nat → Buffers L → Option (Buffers L) × List (AppEvent L))
    (adr : Nat → Option Address) (ks : Nat → Option L.Key)
    (idx : Nat → Nat) (str : Nat → String) (out : Nat → Except (GoError L.Err) String)
    (ev : Nat → List (AppEvent L)) (l : List Nat)
    (hstep : ∀ i ∈ l, ∀ buf : Buffers L, buf.addresses = adr → buf.keys = ks →
      step i buf = (some (storeOutcome buf i (idx i) (str i) (out i)), ev i)) :
    ∀ buf : Buffers L, buf.addresses = adr → buf.keys = ks →
    ∃ r, runPositions step l buf = (some r, l.flatMap ev) ∧
      r.addresses = adr ∧ r.keys = ks ∧
      (∀ j, r.errors j =
        if j ∈ l then
          (match out j with
          | .error err => some (.wrap ("idx " ++ toString (idx j) ++ " (" ++ str j ++
              "): erro na verificação") err)
          | .ok _ => buf.errors j)
        else buf.errors j) ∧
      (∀ j, r.results j =
        if j ∈ l then
          (match out j with
          | .error _ => buf.results j
          | .ok info => info)
        else buf.results j) := by
  induction l with
  | nil =>
    intro buf ha hk
    exact ⟨buf, rfl, ha, hk, fun j => by simp, fun j => by simp⟩
  | cons i rest ih =>
    intro buf ha hk
    have hs := hstep i (List.mem_cons_self _ _) buf ha hk
    obtain ⟨f1, f2, f3, f4⟩ := storeOutcome_fields buf i (idx i) (str i) (out i)
    obtain ⟨r, h1, h2, h3, h4, h5⟩ :=
      ih (fun k hk2 => hstep k (List.mem_cons_of_mem _ hk2))
        (storeOutcome buf i (idx i) (str i) (out i)) (f1.trans ha) (f2.trans hk)
    refine ⟨r, ?_, h2, h3, ?_, ?_⟩
    · simp only [runPositions, hs, h1, List.flatMap_cons]
    · intro j
      rw [h4 j, f3 j]
      by_cases hj : j = i
      · subst hj
        simp only [List.mem_cons, true_or, if_true]
        cases out j <;> simp
      · simp only [List.mem_cons, hj, false_or, if_false]
    · intro j
      rw [h5 j, f4 j]
      by_cases hj : j = i
      · subst hj
        simp only [List.mem_cons, true_or, if_true]
        cases out j <;> simp
      · simp only [List.mem_cons, hj, false_or, if_false]


theorem projections_flatMap {L : Lib} (ev : Nat → List (AppEvent L)) (l : List Nat)
    (h : ∀ i, lookupsOf (ev i) = [i] ∧ reportsOf (ev i) = [] ∧ positionsOf (ev i) = []) :
    lookupsOf (l.flatMap ev) = l ∧ reportsOf (l.flatMap ev) = [] ∧
    positionsOf (l.flatMap ev) = [] := by
  induction l with
  | nil => exact ⟨rfl, rfl, rfl⟩
  | cons i rest ih =>
    rw [List.flatMap_cons, lookupsOf_append, reportsOf_append, positionsOf_append,
      (h i).1, (h i).2.1, (h i).2.2, ih.1, ih.2.1, ih.2.2]
    exact ⟨rfl, rfl, rfl⟩

/-- The second pass of `checkDerivationInfo` on buffers that hold a key and an
address at each of the 20 positions and no error: every position is looked up
once, and its slot then holds the outcome of its own lookup. -/
theorem secondPass_spec (L : Lib) (S : BalanceSource L) (p b : Nat) (source : String)
    (sched : List Nat) (key : Nat → L.Key) (addr : Nat → Address) (buf : Buffers L)
    (hmem : ∀ j, j ∈ sched ↔ j < AddressBatchSize)
    (ha : ∀ j, j < AddressBatchSize → buf.addresses j = some (addr j))
    (hk : ∀ j, j < AddressBatchSize → buf.keys j = some (key j))
    (he : ∀ j, buf.errors j = none) (hres : ∀ j, buf.results j = "") :
    ∃ r evs,
      (if source = SourceLocalNode then
        runPositions (localNodeStep L S p b) (List.range AddressBatchSize) buf
      else runPositions (blockstreamStep L S b) sched buf) = (some r, evs) ∧
      lookupsOf evs =
        (if source = SourceLocalNode then List.range AddressBatchSize else sched) ∧
      reportsOf evs = [] ∧ positionsOf evs = [] ∧
      (∀ j, j < AddressBatchSize → r.addresses j = some (addr j)) ∧
      (∀ j, j < AddressBatchSize → r.errors j =
        match outcomeAt L S source p j (key j) (addr j) with
        | .error err => some (.wrap ("idx " ++ toString (u32 (b + j)) ++ " (" ++
            L.addrString (addr j) ++ "): erro na verificação") err)
        | .ok _ => none) ∧
      (∀ j, j < AddressBatchSize → r.results j =
        match outcomeAt L S source p j (key j) (addr j) with
        | .error _ => ""
        | .ok info => info) := by
  by_cases hs : source = SourceLocalNode
  · simp only [if_pos hs, outcomeAt]
    obtain ⟨r, h1, h2, _, h4, h5⟩ := runPositions_spec (localNodeStep L S p b)
      buf.addresses buf.keys (fun i => u32 (b + i)) (fun i => L.addrString (addr i))
      (fun i => S.checkAddressLocalNodeWithScan i (addr i) (some (key i)) p)
      (fun i => [.showStatus (.checkingLocalNode (u32 (b + i)) (L.addrString (addr i))) false,
        .lookupLocalNode i (addr i) (some (key i)) p])
      (List.range AddressBatchSize)
      (by
        intro i hi buf2 ha2 hk2
        have hi2 := List.mem_range.1 hi
        simp only [localNodeStep, ha2, hk2, ha i hi2, hk i hi2])
      buf rfl rfl
    obtain ⟨p1, p2, p3⟩ := projections_flatMap
      (fun i => [AppEvent.showStatus (.checkingLocalNode (u32 (b + i)) (L.addrString (addr i)))
          false, AppEvent.lookupLocalNode i (addr i) (some (key i)) p])
      (List.range AddressBatchSize) (fun i => ⟨rfl, rfl, rfl⟩)
    refine ⟨r, _, h1, p1, p2, p3, ?_, ?_, ?_⟩
    · intro j hj
      rw [h2]
      exact ha j hj
    · intro j hj
      have := h4 j
      simp only [List.mem_range, hj, if_true, he j] at this
      exact this
    · intro j hj
      have := h5 j
      simp only [List.mem_range, hj, if_true, hres j] at this
      exact this
  · simp only [if_neg hs, outcomeAt]
    obtain ⟨r, h1, h2, _, h4, h5⟩ := runPositions_spec (blockstreamStep L S b)
      buf.addresses buf.keys (fun i => u32 (b + i)) (fun i => L.addrString (addr i))
      (fun i => S.checkAddressBlockstream i (L.addrString (addr i)))
      (fun i => [.lookupBlockstream i (L.addrString (addr i))])
      sched
      (by
        intro i hi buf2 ha2 hk2
        have hi2 := (hmem i).1 hi
        simp only [blockstreamStep, ha2, ha i hi2])
      buf rfl rfl
    obtain ⟨p1, p2, p3⟩ := projections_flatMap
      (fun i => [AppEvent.lookupBlockstream (L := L) i (L.addrString (addr i))])
      sched (fun i => ⟨rfl, rfl, rfl⟩)
    refine ⟨r, _, h1, p1, p2, p3, ?_, ?_, ?_⟩
    · intro j hj
      rw [h2]
      exact ha j hj
    · intro j hj
      have := h4 j
      simp only [(hmem j).2 hj, if_true, he j] at this
      exact this
    · intro j hj
      have := h5 j
      simp only [(hmem j).2 hj, if_true, hres j] at this
      exact this

/-- The loop that writes the report, on buffers that hold at each position the
outcome of its lookup: one line per position, in the order of the positions. -/
theorem reportLoop_spec {L : Lib} (b : Nat) (r : Buffers L) (addr : Nat → Address)
    (out : Nat → Except (GoError L.Err) String) (l : List Nat)
    (ha : ∀ j ∈ l, r.addresses j = some (addr j))
    (he : ∀ j ∈ l, r.errors j =
      match out j with
      | .error err => some (.wrap ("idx " ++ toString (u32 (b + j)) ++ " (" ++
          L.addrString (addr j) ++ "): erro na verificação") err)
      | .ok _ => none)
    (hres : ∀ j ∈ l, r.results j =
      match out j with
      | .error _ => ""
      | .ok info => info) :
    reportLoop b r l =
      (l.map (fun i => expectedLine L (u32 (b + i)) (addr i) (out i)),
        (l.filter (fun i => !(out i).toBool)).length) := by
  induction l with
  | nil => rfl
  | cons i rest ih =>
    have ih2 := ih (fun j hj => ha j (List.mem_cons_of_mem _ hj))
      (fun j hj => he j (List.mem_cons_of_mem _ hj))
      (fun j hj => hres j (List.mem_cons_of_mem _ hj))
    have h1 := ha i (List.mem_cons_self _ _)
    have h2 := he i (List.mem_cons_self _ _)
    have h3 := hres i (List.mem_cons_self _ _)
    simp only [reportLoop, ih2, h1, List.map_cons, List.filter_cons]
    cases ho : out i with
    | error e =>
      rw [ho] at h2
      simp only [h2, expectedLine, Except.toBool, Bool.not_false, if_true, List.length_cons]
    | ok info =>
      rw [ho] at h2 h3
      simp only [h2, h3, expectedLine, Except.toBool, Bool.not_true]
      by_cases hi : info = ""
      · simp [hi]
      · simp [hi]


/-- The run of `checkDerivationInfo` when every position of the batch derives
and renders: its trace up to the report, the report and the final status. -/
theorem checkDerivationInfo_of_rendered (L : Lib) (S : BalanceSource L) (sched : List Nat)
    (s : AppState L) (purpose : Nat) (purposeName : String) (m : L.Key)
    (key : Nat → L.Key) (addr : Nat → Address)
    (hsrc : s.selectedBlockchainSource ≠ SourceOffline)
    (hm : s.currentMasterKey = some m)
    (hmem : ∀ j, j ∈ sched ↔ j < AddressBatchSize)
    (hr : ∀ i, i < AddressBatchSize →
      renderAt L m purpose s.currentChangeType (u32 (s.currentBatchStart + i)) =
        some (key i, addr i)) :
    ∃ pre, checkDerivationInfo L S sched s purpose purposeName =
      pre ++
        [.showReport purposeName
          ((List.range AddressBatchSize).map (fun i =>
            expectedLine L (u32 (s.currentBatchStart + i)) (addr i)
              (outcomeAt L S s.selectedBlockchainSource purpose i (key i) (addr i))))
          (if ((List.range AddressBatchSize).filter (fun i =>
              !(outcomeAt L S s.selectedBlockchainSource purpose i (key i)
                (addr i)).toBool)).length > 0 then
            some ((List.range AddressBatchSize).filter (fun i =>
              !(outcomeAt L S s.selectedBlockchainSource purpose i (key i)
                (addr i)).toBool)).length
          else none),
        .showStatus (.verificationDone purposeName
          ((List.range AddressBatchSize).filter (fun i =>
            !(outcomeAt L S s.selectedBlockchainSource purpose i (key i)
              (addr i)).toBool)).length)
          (decide (((List.range AddressBatchSize).filter (fun i =>
            !(outcomeAt L S s.selectedBlockchainSource purpose i (key i)
              (addr i)).toBool)).length > 0))] ∧
      reportsOf pre = [] ∧
      positionsOf pre = List.range AddressBatchSize ∧
      lookupsOf pre =
        (if s.selectedBlockchainSource = SourceLocalNode then List.range AddressBatchSize
        else sched) := by
  obtain ⟨f1, f2, f3, f4, f5, f6, f7, f8⟩ := firstPass_spec L m purpose s.currentChangeType
    s.currentBatchStart (List.range AddressBatchSize) (Buffers.make L) false
  have hflag : (firstPass L m purpose s.currentChangeType s.currentBatchStart
      (List.range AddressBatchSize) (Buffers.make L) false).1.2 = false := by
    rw [f1, Bool.false_or, List.any_eq_false]
    intro i hi
    rw [hr i (List.mem_range.1 hi)]
    simp
  obtain ⟨r, evs, h1, h2, h3, h4, h5, h6, h7⟩ := secondPass_spec L S purpose s.currentBatchStart
    s.selectedBlockchainSource sched key addr
    (firstPass L m purpose s.currentChangeType s.currentBatchStart
      (List.range AddressBatchSize) (Buffers.make L) false).1.1 hmem
    (by
      intro j hj
      rw [f3 j, if_pos (List.mem_range.2 hj), hr j hj])
    (by
      intro j hj
      rw [f4 j _ (hr j hj), if_pos (List.mem_range.2 hj)])
    (by
      intro j
      have h := f5 j
      by_cases hj : j < AddressBatchSize
      · rw [hr j hj] at h
        simpa [Buffers.make] using h
      · have hn : j ∉ List.range AddressBatchSize := fun hx => hj (List.mem_range.1 hx)
        simpa [Buffers.make, hn] using h)
    (by
      intro j
      rw [f2]
      rfl)
  have hrep := reportLoop_spec s.currentBatchStart r addr
    (fun i => outcomeAt L S s.selectedBlockchainSource purpose i (key i) (addr i))
    (List.range AddressBatchSize)
    (fun j hj => h5 j (List.mem_range.1 hj))
    (fun j hj => h6 j (List.mem_range.1 hj))
    (fun j hj => h7 j (List.mem_range.1 hj))
  refine ⟨[.showStatus (.verificationStarted AddressBatchSize purposeName
      s.selectedBlockchainSource) false] ++
    (firstPass L m purpose s.currentChangeType s.currentBatchStart
      (List.range AddressBatchSize) (Buffers.make L) false).2 ++ evs, ?_, ?_, ?_, ?_⟩
  · simp only [checkDerivationInfo, if_neg hsrc, hm, hflag, h1, hrep]
    simp
  · rw [reportsOf_append, reportsOf_append, f8, h3]
    rfl
  · rw [positionsOf_append, positionsOf_append, f6, h4]
    simp [positionsOf]
  · rw [lookupsOf_append, lookupsOf_append, f7, h2]
    simp [lookupsOf]


/-- The run of `checkDerivationInfo` when some position of the batch does not
derive or render. -/
theorem checkDerivationInfo_of_failure (L : Lib) (S : BalanceSource L) (sched : List Nat)
    (s : AppState L) (purpose : Nat) (purposeName : String) (m : L.Key)
    (hsrc : s.selectedBlockchainSource ≠ SourceOffline)
    (hm : s.currentMasterKey = some m)
    (i : Nat) (hi : i < AddressBatchSize)
    (hfail : renderAt L m purpose s.currentChangeType (u32 (s.currentBatchStart + i)) = none) :
    checkDerivationInfo L S sched s purpose purposeName =
      [.showStatus (.verificationStarted AddressBatchSize purposeName
        s.selectedBlockchainSource) false] ++
      (firstPass L m purpose s.currentChangeType s.currentBatchStart
        (List.range AddressBatchSize) (Buffers.make L) false).2 ++
      [.showStatus .derivationErrors true] ∧
    positionsOf (checkDerivationInfo L S sched s purpose purposeName) =
      List.range AddressBatchSize ∧
    lookupsOf (checkDerivationInfo L S sched s purpose purposeName) = [] ∧
    reportsOf (checkDerivationInfo L S sched s purpose purposeName) = [] := by
  obtain ⟨f1, _, _, _, _, f6, f7, f8⟩ := firstPass_spec L m purpose s.currentChangeType
    s.currentBatchStart (List.range AddressBatchSize) (Buffers.make L) false
  have hflag : (firstPass L m purpose s.currentChangeType s.currentBatchStart
      (List.range AddressBatchSize) (Buffers.make L) false).1.2 = true := by
    rw [f1, Bool.false_or, List.any_eq_true]
    exact ⟨i, List.mem_range.2 hi, by rw [hfail]; rfl⟩
  have h : checkDerivationInfo L S sched s purpose purposeName =
      [.showStatus (.verificationStarted AddressBatchSize purposeName
        s.selectedBlockchainSource) false] ++
      (firstPass L m purpose s.currentChangeType s.currentBatchStart
        (List.range AddressBatchSize) (Buffers.make L) false).2 ++
      [.showStatus .derivationErrors true] := by
    simp only [checkDerivationInfo, if_neg hsrc, hm, hflag, if_true]
  refine ⟨h, ?_, ?_, ?_⟩
  · rw [h, positionsOf_append, positionsOf_append, f6]
    simp [positionsOf]
  · rw [h, lookupsOf_append, lookupsOf_append, f7]
    simp [lookupsOf]
  · rw [h, reportsOf_append, reportsOf_append, f8]
    simp [reportsOf]

/-- C19, as the code has it: a failure at a position does not stop the first
pass, which still visits all 20 positions and stores an error at the failing
ones only; but once a position has failed, `checkDerivationInfo` shows the
status that the online check was not started and returns: no position is looked
up at the balance source and no report is shown. -/
theorem C19_failure_stops_before_lookups (L : Lib) (S : BalanceSource L) (sched : List Nat)
    (s : AppState L) (purpose : Nat) (purposeName : String) (m : L.Key)
    (hsrc : s.selectedBlockchainSource ≠ SourceOffline)
    (hm : s.currentMasterKey = some m)
    (i : Nat) (hi : i < AddressBatchSize)
    (hfail : renderAt L m purpose s.currentChangeType (u32 (s.currentBatchStart + i)) = none) :
    positionsOf (checkDerivationInfo L S sched s purpose purposeName) =
      List.range AddressBatchSize ∧
    (∀ j, ((firstPass L m purpose s.currentChangeType s.currentBatchStart
        (List.range AddressBatchSize) (Buffers.make L) false).1.1.errors j).isSome =
      (decide (j < AddressBatchSize) &&
        (renderAt L m purpose s.currentChangeType (u32 (s.currentBatchStart + j))).isNone)) ∧
    lookupsOf (checkDerivationInfo L S sched s purpose purposeName) = [] ∧
    reportsOf (checkDerivationInfo L S sched s purpose purposeName) = [] ∧
    (checkDerivationInfo L S sched s purpose purposeName).getLast? =
      some (.showStatus .derivationErrors true) := by
  obtain ⟨h, h1, h2, h3⟩ := checkDerivationInfo_of_failure L S sched s purpose purposeName m
    hsrc hm i hi hfail
  refine ⟨h1, ?_, h2, h3, ?_⟩
  · intro j
    rw [(firstPass_spec L m purpose s.currentChangeType s.currentBatchStart
      (List.range AddressBatchSize) (Buffers.make L) false).2.2.2.2.1 j]
    simp [Buffers.make, List.mem_range]
  · rw [h]
    exact List.getLast?_concat _

theorem C19_witness :
    lookupsOf (checkDerivationInfo failLib (demoSource failLib) (List.range 20)
      (demoState failLib (some demoMaster) SourceBlockstream "" "") 44 "Legacy") = [] :=
  (C19_failure_stops_before_lookups failLib (demoSource failLib) (List.range 20)
    (demoState failLib (some demoMaster) SourceBlockstream "" "") 44 "Legacy" demoMaster
    (by decide) rfl 7 (by decide) rfl).2.2.1

/-- C19 fails as stated: in the library whose `Derive` fails for child number 7,
position 7 of the first batch fails and the other positions render, yet none of
them is looked up and no report is shown: the run ends with the error status. -/
theorem C19_counterexample :
    (renderAt failLib demoMaster 44 0 7).isSome = false ∧
    (renderAt failLib demoMaster 44 0 0).isSome = true ∧
    (renderAt failLib demoMaster 44 0 8).isSome = true ∧
    lookupsOf (checkDerivationInfo failLib (demoSource failLib) (List.range 20)
      (demoState failLib (some demoMaster) SourceBlockstream "" "") 44 "Legacy") = [] ∧
    (reportsOf (checkDerivationInfo failLib (demoSource failLib) (List.range 20)
      (demoState failLib (some demoMaster) SourceBlockstream "" "") 44 "Legacy")).length = 0 ∧
    positionsOf (checkDerivationInfo failLib (demoSource failLib) (List.range 20)
      (demoState failLib (some demoMaster) SourceBlockstream "" "") 44 "Legacy") =
      List.range 20 := by
  decide


/-- C20: when all 20 positions derive and render, the report of
`checkDerivationInfo` is shown once, after every position has been looked up
(the local node in position order, Blockstream in the order `sched` in which the
goroutines complete, any permutation of the positions).  Whatever that order and
whatever the outcomes, the report has one line per position, in ascending
position order; line `i` names the index `currentBatchStart + i` (in `uint32`
arithmetic) and carries the error or the result of the lookup of position `i`;
the error count of the footer and of the final status is the number of positions
whose lookup failed. -/
theorem C20_report_in_position_order (L : Lib) (S : BalanceSource L) (sched : List Nat)
    (s : AppState L) (purpose : Nat) (purposeName : String) (m : L.Key)
    (key : Nat → L.Key) (addr : Nat → Address)
    (hsrc : s.selectedBlockchainSource ≠ SourceOffline)
    (hm : s.currentMasterKey = some m)
    (hsched : sched.Perm (List.range AddressBatchSize))
    (hr : ∀ i, i < AddressBatchSize →
      renderAt L m purpose s.currentChangeType (u32 (s.currentBatchStart + i)) =
        some (key i, addr i)) :
    reportsOf (checkDerivationInfo L S sched s purpose purposeName) =
      [((List.range AddressBatchSize).map (fun i =>
          expectedLine L (u32 (s.currentBatchStart + i)) (addr i)
            (outcomeAt L S s.selectedBlockchainSource purpose i (key i) (addr i))),
        if (failedPositions L S s.selectedBlockchainSource purpose key addr).length > 0 then
          some (failedPositions L S s.selectedBlockchainSource purpose key addr).length
        else none)] ∧
    (∀ i, s.currentBatchStart + i < 2 ^ 32 → u32 (s.currentBatchStart + i) =
      s.currentBatchStart + i) ∧
    lookupsOf (checkDerivationInfo L S sched s purpose purposeName) =
      (if s.selectedBlockchainSource = SourceLocalNode then List.range AddressBatchSize
      else sched) ∧
    (checkDerivationInfo L S sched s purpose purposeName).getLast? =
      some (.showStatus (.verificationDone purposeName
        (failedPositions L S s.selectedBlockchainSource purpose key addr).length)
        (decide ((failedPositions L S s.selectedBlockchainSource purpose key addr).length
          > 0))) := by
  obtain ⟨pre, h, h1, _, h3⟩ := checkDerivationInfo_of_rendered L S sched s purpose purposeName
    m key addr hsrc hm (fun j => (hsched.mem_iff).trans List.mem_range) hr
  refine ⟨?_, ?_, ?_, ?_⟩
  · rw [h, reportsOf_append, h1]
    rfl
  · intro i hi
    exact Nat.mod_eq_of_lt hi
  · rw [h, lookupsOf_append, h3]
    exact List.append_nil _
  · rw [h]
    exact List.getLast?_append_cons _ _ _ |>.trans (by rfl)

theorem C20_witness :
    lookupsOf (checkDerivationInfo demoLib (demoSource demoLib) (List.range 20).reverse
        (demoState demoLib (some demoMaster) SourceBlockstream "" "") BIP44Purpose "Legacy") =
      (if SourceBlockstream = SourceLocalNode then List.range AddressBatchSize
      else (List.range 20).reverse) :=
  (C20_report_in_position_order demoLib (demoSource demoLib) (List.range 20).reverse
    (demoState demoLib (some demoMaster) SourceBlockstream "" "") BIP44Purpose "Legacy"
    demoMaster demoKeyAt demoAddrAt (by decide) rfl (List.reverse_perm _)
    (fun i _ => by
      simp only [renderAt, demoState, demoLib_deriveChildKey, demoLib_generate44,
        demoKeyAt, demoAddrAt, Nat.zero_add])).2.2.1

theorem renderAt_some (L : Lib) (m : L.Key) (p c i : Nat) (key : L.Key) (a : Address)
    (h : renderAt L m p c i = some (key, a)) :
    (deriveChildKey L m p CoinTypeBitcoin DefaultAccount c i).1 = .ok key ∧
    generateForPurpose L p key = some (.ok a) := by
  unfold renderAt at h
  generalize (deriveChildKey L m p CoinTypeBitcoin DefaultAccount c i).1 = d at h
  cases d with
  | error e => simp at h
  | ok k =>
    simp only at h
    cases hg : generateForPurpose L p k with
    | none => rw [hg] at h; simp at h
    | some g =>
      rw [hg] at h
      cases g with
      | error e => simp at h
      | ok a2 =>
        simp only [Option.some.injEq, Prod.mk.injEq] at h
        obtain ⟨h1, h2⟩ := h
        subst h1
        subst h2
        exact ⟨rfl, hg⟩

theorem createAddressCell_eq_cellAt (L : Lib) (m : L.Key) (p c index : Nat)
    (genFunc : L.Key → Params → Except (GoError L.Err) Address)
    (h : ∀ key, generateForPurpose L p key = some (genFunc key netParams)) :
    createAddressCell L (deriveChildKey L m p CoinTypeBitcoin DefaultAccount c index).1 genFunc =
      cellAt L m p c index := by
  unfold createAddressCell cellAt
  generalize (deriveChildKey L m p CoinTypeBitcoin DefaultAccount c index).1 = d
  cases d with
  | error e => rfl
  | ok k =>
    simp only [h k]
    cases genFunc k netParams <;> rfl

/-- C12: the mapping from purpose to encoder is one function, `generateForPurpose`:
44 goes to `generateLegacyAddress`, 49 to `generateNestedSegWitAddress`, 84 to
`generateNativeSegWitAddress`, 86 to `generateTaprootAddress`, any other purpose
renders nothing.  The switch of `checkDerivationInfo` is this function; an address
`findAddressInSeed` returns at a purpose, and one `checkDerivationInfo` stores, is
the one it renders for the key derived under that purpose; each cell of a row of
`updateAddressGrid` is the one it renders for the key derived under the purpose of
its column.  The mapping is injective: addresses rendered under two purposes that
have the same encoding were rendered under the same purpose. -/
theorem C12_one_purpose_encoder_mapping (L : Lib) :
    (∀ key, generateForPurpose L BIP44Purpose key =
      some (generateLegacyAddress L key netParams)) ∧
    (∀ key, generateForPurpose L BIP49Purpose key =
      some (generateNestedSegWitAddress L key netParams)) ∧
    (∀ key, generateForPurpose L BIP84Purpose key =
      some (generateNativeSegWitAddress L key netParams)) ∧
    (∀ key, generateForPurpose L BIP86Purpose key =
      some (generateTaprootAddress L key netParams)) ∧
    (∀ p key, p ≠ BIP44Purpose → p ≠ BIP49Purpose → p ≠ BIP84Purpose → p ≠ BIP86Purpose →
      generateForPurpose L p key = none) ∧
    (∀ p key, checkSwitch L p key = generateForPurpose L p key) ∧
    (∀ m target p purposeName c i r,
      (searchStep L m target p purposeName c (derivationPrefixOf p c) i).1 = some r →
      r.Purpose = p ∧
      ∃ key a, (deriveChildKey L m p CoinTypeBitcoin DefaultAccount c i).1 = .ok key ∧
        generateForPurpose L p key = some (.ok a) ∧ r.Address = some a) ∧
    (∀ m p c b i a,
      (firstPassStep L m p c b i (Buffers.make L) false).1.1.addresses i = some a →
      ∃ key, (deriveChildKey L m p CoinTypeBitcoin DefaultAccount c (u32 (b + i))).1 = .ok key ∧
        generateForPurpose L p key = some (.ok a)) ∧
    (∀ m c b i, gridRow L m c b i =
      { index := u32 (b + i)
        legacy := cellAt L m BIP44Purpose c (u32 (b + i))
        nested := cellAt L m BIP49Purpose c (u32 (b + i))
        native := cellAt L m BIP84Purpose c (u32 (b + i))
        taproot := cellAt L m BIP86Purpose c (u32 (b + i)) }) ∧
    (∀ p q key key2 a a2, generateForPurpose L p key = some (.ok a) →
      generateForPurpose L q key2 = some (.ok a2) → a.kind = a2.kind → p = q) := by
  have h44 : ∀ key, generateForPurpose L BIP44Purpose key =
      some (generateLegacyAddress L key netParams) := fun _ => rfl
  have h49 : ∀ key, generateForPurpose L BIP49Purpose key =
      some (generateNestedSegWitAddress L key netParams) := fun _ => rfl
  have h84 : ∀ key, generateForPurpose L BIP84Purpose key =
      some (generateNativeSegWitAddress L key netParams) := fun _ => rfl
  have h86 : ∀ key, generateForPurpose L BIP86Purpose key =
      some (generateTaprootAddress L key netParams) := fun _ => rfl
  refine ⟨h44, h49, h84, h86, ?_, fun _ _ => rfl, ?_, ?_, ?_, ?_⟩
  · intro p key n1 n2 n3 n4
    unfold generateForPurpose
    rw [if_neg n1, if_neg n2, if_neg n3, if_neg n4]
  · intro m target p purposeName c i r h
    have hrec : recordAt L m target (p, c, i) = some r := by
      rw [← searchStep_result L m target p purposeName c i]
      exact h
    obtain ⟨_, _, hp, _, _, key, a, hra, _, hadr, _⟩ := recordAt_some L m target (p, c, i) r hrec
    obtain ⟨hd, hg⟩ := renderAt_some L m p c i key a hra
    exact ⟨hp, key, a, hd, hg, hadr⟩
  · intro m p c b i a h
    have hs := (firstPassStep_spec L m p c b i (Buffers.make L) false).2.2.1 i
    rw [if_pos rfl] at hs
    rw [hs] at h
    cases hra : renderAt L m p c (u32 (b + i)) with
    | none =>
      rw [hra] at h
      cases h
    | some ka =>
      obtain ⟨key, a2⟩ := ka
      rw [hra] at h
      simp only [Option.some.injEq] at h
      subst h
      exact ⟨key, renderAt_some L m p c (u32 (b + i)) key _ hra⟩
  · intro m c b i
    simp only [gridRow, createAddressCell_eq_cellAt L m BIP44Purpose c (u32 (b + i)) _ h44,
      createAddressCell_eq_cellAt L m BIP49Purpose c (u32 (b + i)) _ h49,
      createAddressCell_eq_cellAt L m BIP84Purpose c (u32 (b + i)) _ h84,
      createAddressCell_eq_cellAt L m BIP86Purpose c (u32 (b + i)) _ h86]
  · intro p q key key2 a a2 hp hq hk
    obtain ⟨hp1, hp2, _⟩ := generateForPurpose_kind L p key a hp
    obtain ⟨hq1, hq2, _⟩ := generateForPurpose_kind L q key2 a2 hq
    exact kindOfPurpose_injective p q hp1 hq1 (by rw [← hp2, ← hq2, hk])

/-! ## Runs of the application: theorems -/

theorem oracleCallsOf_append {L : Lib} (s t : List (AppEvent L)) :
    oracleCallsOf (s ++ t) = oracleCallsOf s ++ oracleCallsOf t := by
  simp [oracleCallsOf]

theorem oracleCallsOf_core {L : Lib} (t : List (Event L)) :
    oracleCallsOf (t.map AppEvent.core) = [] := by
  induction t with
  | nil => rfl
  | cons e t ih =>
    rw [List.map_cons]
    exact ih

theorem coreOf_append {L : Lib} (s t : List (AppEvent L)) :
    coreOf (s ++ t) = coreOf s ++ coreOf t := by
  simp [coreOf]

theorem coreOf_core {L : Lib} (t : List (Event L)) : coreOf (t.map AppEvent.core) = t := by
  induction t with
  | nil => rfl
  | cons e t ih =>
    have h : coreOf (AppEvent.core e :: t.map AppEvent.core) = e :: coreOf (t.map AppEvent.core) :=
      rfl
    rw [List.map_cons, h, ih]

/-- The first pass of `checkDerivationInfo` makes the library calls of one
`deriveChildKey` per position, in order. -/
theorem firstPass_core (L : Lib) (m : L.Key) (p c b : Nat) (l : List Nat) :
    ∀ (buf : Buffers L) (de : Bool),
    coreOf (firstPass L m p c b l buf de).2 =
      l.flatMap (fun i =>
        (deriveChildKey L m p CoinTypeBitcoin DefaultAccount c (u32 (b + i))).2) := by
  induction l with
  | nil =>
    intro buf de
    rfl
  | cons i rest ih =>
    intro buf de
    have hs := (firstPassStep_spec L m p c b i buf de).2.2.2.2.2.2
    have hc : ∀ t : List (AppEvent L),
        coreOf (AppEvent.batchPosition i :: t) = coreOf t := fun _ => rfl
    simp only [firstPass, coreOf_append, ih, hs, hc, coreOf_core, List.flatMap_cons]

/-- The lookup bodies make no library call. -/
theorem runPositions_core {L : Lib}
    (step : Nat → Buffers L → Option (Buffers L) × List (AppEvent L))
    (hstep : ∀ i buf, coreOf (step i buf).2 = []) (l : List Nat) :
    ∀ buf : Buffers L, coreOf (runPositions step l buf).2 = [] := by
  induction l with
  | nil =>
    intro buf
    rfl
  | cons i rest ih =>
    intro buf
    have h := hstep i buf
    simp only [runPositions]
    generalize step i buf = st at h
    obtain ⟨o, t⟩ := st
    cases o with
    | none => exact h
    | some b1 =>
      simp only [coreOf_append, ih b1]
      simpa using h

theorem localNodeStep_core (L : Lib) (S : BalanceSource L) (p b i : Nat) (buf : Buffers L) :
    coreOf (localNodeStep L S p b i buf).2 = [] := by
  unfold localNodeStep
  cases buf.addresses i <;> rfl

theorem blockstreamStep_core (L : Lib) (S : BalanceSource L) (b i : Nat) (buf : Buffers L) :
    coreOf (blockstreamStep L S b i buf).2 = [] := by
  unfold blockstreamStep
  cases buf.addresses i <;> rfl

/-- The library calls of `checkDerivationInfo` are those of its first pass. -/
theorem checkDerivationInfo_core (L : Lib) (S : BalanceSource L) (sched : List Nat)
    (s : AppState L) (purpose : Nat) (purposeName : String) (m : L.Key)
    (hsrc : s.selectedBlockchainSource ≠ SourceOffline)
    (hm : s.currentMasterKey = some m) :
    coreOf (checkDerivationInfo L S sched s purpose purposeName) =
      (List.range AddressBatchSize).flatMap (fun i =>
        (deriveChildKey L m purpose CoinTypeBitcoin DefaultAccount s.currentChangeType
          (u32 (s.currentBatchStart + i))).2) := by
  have hfp := firstPass_core L m purpose s.currentChangeType s.currentBatchStart
    (List.range AddressBatchSize) (Buffers.make L) false
  have hsp : ∀ buf : Buffers L, coreOf
      (if s.selectedBlockchainSource = SourceLocalNode then
        runPositions (localNodeStep L S purpose s.currentBatchStart)
          (List.range AddressBatchSize) buf
      else runPositions (blockstreamStep L S s.currentBatchStart) sched buf).2 = [] := by
    intro buf
    split
    · exact runPositions_core _ (localNodeStep_core L S purpose s.currentBatchStart) _ buf
    · exact runPositions_core _ (blockstreamStep_core L S s.currentBatchStart) _ buf
  simp only [checkDerivationInfo, if_neg hsrc, hm]
  split
  · simp only [coreOf_append, hfp]
    simp [coreOf]
  · have h2 := hsp (firstPass L m purpose s.currentChangeType s.currentBatchStart
      (List.range AddressBatchSize) (Buffers.make L) false).1.1
    split
    · simp only [coreOf_append, hfp, h2]
      simp [coreOf]
    · simp only [coreOf_append, hfp, h2]
      simp [coreOf]

theorem derivesOf_flatMap {L : Lib} (f : Nat → List (Event L)) (l : List Nat) :
    derivesOf (l.flatMap f) = l.flatMap (fun i => derivesOf (f i)) := by
  induction l with
  | nil => rfl
  | cons i rest ih => rw [List.flatMap_cons, List.flatMap_cons, derivesOf_append, ih]


/-- The master key and the batch start `generateNewSeedAndAddresses` leaves. -/
theorem generateNewSeedAndAddresses_state (L : Lib) (A : Aezeed L)
    (randRead : Except L.Err (List UInt8)) (now : Nat) (s : AppState L) :
    ((generateNewSeedAndAddresses L A randRead now s).1.currentMasterKey,
      (generateNewSeedAndAddresses L A randRead now s).1.currentBatchStart,
      (generateNewSeedAndAddresses L A randRead now s).1.currentChangeType) =
      (match randRead with
      | .error _ => (s.currentMasterKey, s.currentBatchStart, s.currentChangeType)
      | .ok entropy =>
        match A.New 0 entropy now with
        | .error _ => (s.currentMasterKey, s.currentBatchStart, s.currentChangeType)
        | .ok seed =>
          match A.ToMnemonic seed (effectivePassphrase s.passphraseEntryText) with
          | .error _ => (s.currentMasterKey, s.currentBatchStart, s.currentChangeType)
          | .ok _ =>
            match A.NewMaster (A.Entropy seed) netParams with
            | .error _ => (s.currentMasterKey, s.currentBatchStart, s.currentChangeType)
            | .ok masterKey => (some masterKey, 0, s.currentChangeType)) := by
  obtain ⟨t0, _, _, _, h⟩ := generateNewSeedAndAddresses_eq L A randRead now s
  rw [h]
  cases randRead with
  | error e => rfl
  | ok entropy =>
    simp only
    cases A.New 0 entropy now with
    | error e => rfl
    | ok seed =>
      simp only
      cases A.ToMnemonic seed (effectivePassphrase s.passphraseEntryText) with
      | error e => rfl
      | ok ws =>
        simp only
        cases A.NewMaster (A.Entropy seed) netParams with
        | error e => rfl
        | ok k => rfl

/-- The master key and the batch start `decodeMnemonicAndAddresses` leaves. -/
theorem decodeMnemonicAndAddresses_state (L : Lib) (A : Aezeed L) (s : AppState L) :
    ((decodeMnemonicAndAddresses L A s).1.currentMasterKey,
      (decodeMnemonicAndAddresses L A s).1.currentBatchStart,
      (decodeMnemonicAndAddresses L A s).1.currentChangeType) =
      (if (Fields s.mnemonicEntryText).length ≠ NumMnemonicWords then
        (s.currentMasterKey, s.currentBatchStart, s.currentChangeType)
      else
        match A.ToCipherSeed (Fields s.mnemonicEntryText)
            (effectivePassphrase s.passphraseEntryText) with
        | .error _ => (s.currentMasterKey, s.currentBatchStart, s.currentChangeType)
        | .ok seed =>
          match A.NewMaster (A.Entropy seed) netParams with
          | .error _ => (s.currentMasterKey, s.currentBatchStart, s.currentChangeType)
          | .ok masterKey => (some masterKey, 0, s.currentChangeType)) := by
  obtain ⟨t0, _, _, _, _, h⟩ := decodeMnemonicAndAddresses_eq L A s
  rw [h]
  by_cases hlen : (Fields s.mnemonicEntryText).length = NumMnemonicWords
  · simp only [if_neg (not_not_intro hlen)]
    cases A.ToCipherSeed (Fields s.mnemonicEntryText)
        (effectivePassphrase s.passphraseEntryText) with
    | error e => rfl
    | ok seed =>
      simp only
      cases A.NewMaster (A.Entropy seed) netParams with
      | error e => rfl
      | ok k => rfl
  · simp only [if_pos hlen]


theorem accountToggle_state (L : Lib) (s : AppState L) :
    (accountToggle L s).1.currentChangeType = u32 (1 + 2 ^ 32 - s.currentChangeType) ∧
    (accountToggle L s).1.currentBatchStart = 0 ∧
    (accountToggle L s).1.currentMasterKey = s.currentMasterKey := by
  unfold accountToggle
  dsimp only
  split <;> exact ⟨rfl, rfl, rfl⟩

theorem perform_changeType (L : Lib) (A : Aezeed L) (a : Action L) (s : AppState L)
    (ha : a ≠ .toggleAccount) :
    (perform L A a s).currentChangeType = s.currentChangeType := by
  cases a with
  | toggleAccount => exact absurd rfl ha
  | generate randRead now =>
    have h := congrArg (fun q => q.2.2) (generateNewSeedAndAddresses_state L A randRead now s)
    simp only at h
    simp only [perform, h]
    cases randRead with
    | error e => rfl
    | ok entropy =>
      simp only
      cases A.New 0 entropy now with
      | error e => rfl
      | ok seed =>
        simp only
        cases A.ToMnemonic seed (effectivePassphrase s.passphraseEntryText) with
        | error e => rfl
        | ok ws =>
          simp only
          cases A.NewMaster (A.Entropy seed) netParams <;> rfl
  | decode =>
    have h := congrArg (fun q => q.2.2) (decodeMnemonicAndAddresses_state L A s)
    simp only at h
    simp only [perform, h]
    split
    · rfl
    · cases A.ToCipherSeed (Fields s.mnemonicEntryText)
          (effectivePassphrase s.passphraseEntryText) with
      | error e => rfl
      | ok seed =>
        simp only
        cases A.NewMaster (A.Entropy seed) netParams <;> rfl
  | loadMore =>
    simp only [perform, loadNextBatch]
    cases s.currentMasterKey <;> rfl
  | selectSource selected => rfl
  | typePassphrase text => rfl
  | typeMnemonic text => rfl
  | verify p n => rfl
  | lookup t => rfl

theorem perform_chain_binary (L : Lib) (A : Aezeed L) (a : Action L) (s : AppState L)
    (h : s.currentChangeType = ExternalChain ∨ s.currentChangeType = InternalChain) :
    (perform L A a s).currentChangeType = ExternalChain ∨
      (perform L A a s).currentChangeType = InternalChain := by
  by_cases ha : a = .toggleAccount
  · subst ha
    have ht := (accountToggle_state L s).1
    rcases h with h | h
    · right
      simp only [perform, ht, h]
      decide
    · left
      simp only [perform, ht, h]
      decide
  · rw [perform_changeType L A a s ha]
    exact h

theorem runActions_chain_binary (L : Lib) (A : Aezeed L) (actions : List (Action L)) :
    ∀ s : AppState L,
    (s.currentChangeType = ExternalChain ∨ s.currentChangeType = InternalChain) →
    ((runActions L A actions s).currentChangeType = ExternalChain ∨
      (runActions L A actions s).currentChangeType = InternalChain) := by
  induction actions with
  | nil =>
    intro s h
    exact h
  | cons a rest ih =>
    intro s h
    exact ih (perform L A a s) (perform_chain_binary L A a s h)

/-- C21: `currentChangeType` is 0 or 1 in every state the application reaches.  It
starts at 0; the account toggle sends 0 to 1 and 1 to 0, so that toggling twice
restores the chain, and sets `currentBatchStart` to 0; no other action changes
it.  In a reachable state with a master key the rows of `updateAddressGrid` are
derived on that chain, and the `Derive` calls of `checkDerivationInfo` are those
of the 20 walks down `m/purpose'/0'/0'/chain/index` with that chain. -/
theorem C21_chain_is_binary (L : Lib) (A : Aezeed L) :
    ExternalChain = 0 ∧ InternalChain = 1 ∧
    (initialState L).currentChangeType = ExternalChain ∧
    (∀ s : AppState L, s.currentChangeType = ExternalChain →
      (accountToggle L s).1.currentChangeType = InternalChain) ∧
    (∀ s : AppState L, s.currentChangeType = InternalChain →
      (accountToggle L s).1.currentChangeType = ExternalChain) ∧
    (∀ s : AppState L,
      s.currentChangeType = ExternalChain ∨ s.currentChangeType = InternalChain →
      (accountToggle L (accountToggle L s).1).1.currentChangeType = s.currentChangeType) ∧
    (∀ s : AppState L, (accountToggle L s).1.currentBatchStart = 0) ∧
    (∀ (a : Action L) (s : AppState L), a ≠ .toggleAccount →
      (perform L A a s).currentChangeType = s.currentChangeType) ∧
    (∀ actions : List (Action L),
      (runActions L A actions (initialState L)).currentChangeType = ExternalChain ∨
      (runActions L A actions (initialState L)).currentChangeType = InternalChain) ∧
    (∀ (actions : List (Action L)) (m : L.Key),
      (runActions L A actions (initialState L)).currentMasterKey = some m →
      ∃ c, (c = ExternalChain ∨ c = InternalChain) ∧
        updateAddressGrid L (runActions L A actions (initialState L)) =
          some ((List.range AddressBatchSize).map (gridRow L m c
            (runActions L A actions (initialState L)).currentBatchStart)) ∧
        ∀ (S : BalanceSource L) (sched : List Nat) (purpose : Nat) (purposeName : String),
          (runActions L A actions (initialState L)).selectedBlockchainSource ≠ SourceOffline →
          derivesOf (coreOf (checkDerivationInfo L S sched
              (runActions L A actions (initialState L)) purpose purposeName)) =
            (List.range AddressBatchSize).flatMap (fun i =>
              pathCalls L m (childPath purpose CoinTypeBitcoin DefaultAccount c
                (u32 ((runActions L A actions (initialState L)).currentBatchStart + i))))) := by
  have t01 : ∀ s : AppState L, s.currentChangeType = ExternalChain →
      (accountToggle L s).1.currentChangeType = InternalChain := by
    intro s h
    rw [(accountToggle_state L s).1, h]
    decide
  have t10 : ∀ s : AppState L, s.currentChangeType = InternalChain →
      (accountToggle L s).1.currentChangeType = ExternalChain := by
    intro s h
    rw [(accountToggle_state L s).1, h]
    decide
  refine ⟨rfl, rfl, rfl, t01, t10, ?_, fun s => (accountToggle_state L s).2.1,
    perform_changeType L A, ?_, ?_⟩
  · intro s h
    rcases h with h | h
    · rw [t10 _ (t01 s h), h]
    · rw [t01 _ (t10 s h), h]
  · intro actions
    exact runActions_chain_binary L A actions (initialState L) (Or.inl rfl)
  · intro actions m hm
    refine ⟨(runActions L A actions (initialState L)).currentChangeType,
      runActions_chain_binary L A actions (initialState L) (Or.inl rfl), ?_, ?_⟩
    · simp only [updateAddressGrid, hm]
    · intro S sched purpose purposeName hsrc
      rw [checkDerivationInfo_core L S sched _ purpose purposeName m hsrc hm, derivesOf_flatMap]
      simp only [deriveChildKey_calls]

/-- C22: the locator is sound.  When `findAddressInSeed` returns a record with
`Found = true`, the master key is set and the target was decoded; `Purpose` is
44, 49, 84 or 86; `Index` is below 20000; for a chain `c` that is 0 or 1,
`DerivedKey` is the key `deriveChildKey` returns for that purpose, coin type 0,
account 0, chain `c` and that index; `Address` is what the encoder of that
purpose renders for this key, and its string is the normalised target. -/
theorem C22_locator_sound (L : Lib) (order : List (Nat × String)) (mk : Option L.Key)
    (target : String) (r : AddressLookupResult L)
    (hp : order.Perm purposes)
    (h : (findAddressInSeed L order mk target).1 = .ok r) (hf : r.Found = true) :
    (r.Purpose = BIP44Purpose ∨ r.Purpose = BIP49Purpose ∨ r.Purpose = BIP84Purpose ∨
      r.Purpose = BIP86Purpose) ∧
    r.Index < 20000 ∧
    ∃ m ta c key a, mk = some m ∧ L.decodeAddress target netParams = .ok ta ∧
      (c = ExternalChain ∨ c = InternalChain) ∧
      (deriveChildKey L m r.Purpose CoinTypeBitcoin DefaultAccount c r.Index).1 = .ok key ∧
      r.DerivedKey = some key ∧
      generateForPurpose L r.Purpose key = some (.ok a) ∧
      r.Address = some a ∧
      L.addrString a = L.addrString ta := by
  cases mk with
  | none => simp [findAddressInSeed] at h
  | some m =>
    cases hdec : L.decodeAddress target netParams with
    | error e => simp [findAddressInSeed, hdec] at h
    | ok ta =>
      rw [(findAddressInSeed_of_decoded L order m target ta hdec).1] at h
      cases hfs : (searchSpace order).findSome? (recordAt L m (L.addrString ta)) with
      | none =>
        rw [hfs] at h
        simp only [Option.getD_none, Except.ok.injEq] at h
        subst h
        simp [notFoundResult] at hf
      | some r2 =>
        rw [hfs] at h
        simp only [Option.getD_some, Except.ok.injEq] at h
        subst h
        obtain ⟨c, hc, hrec⟩ := List.exists_of_findSome?_eq_some hfs
        obtain ⟨⟨name, hname⟩, hchain, hidx⟩ := (mem_searchSpace order c).1 hc
        obtain ⟨_, _, hpur, hi, _, key, a, hra, hstr, hadr, hkey⟩ :=
          recordAt_some L m (L.addrString ta) c r2 hrec
        obtain ⟨hd, hg⟩ := renderAt_some L m c.1 c.2.1 c.2.2 key a hra
        refine ⟨?_, ?_, m, ta, c.2.1, key, a, rfl, rfl, hchain, ?_, hkey, ?_, hadr, hstr⟩
        · rw [hpur]
          exact purposes_mem_fst c.1 name (hp.mem_iff.1 hname)
        · rw [hi]
          exact hidx
        · rw [hpur, hi]
          exact hd
        · rw [hpur]
          exact hg

theorem C22_witness :
    ((demoFirstRecord demoLib
        { path := [0, 0, 2147483648, 2147483648, 2147483692], priv := true }
        (demoPad 20 [0, 0, 2147483648, 2147483648, 2147483692])).Purpose = BIP44Purpose ∨
      (demoFirstRecord demoLib
        { path := [0, 0, 2147483648, 2147483648, 2147483692], priv := true }
        (demoPad 20 [0, 0, 2147483648, 2147483648, 2147483692])).Purpose = BIP49Purpose ∨
      (demoFirstRecord demoLib
        { path := [0, 0, 2147483648, 2147483648, 2147483692], priv := true }
        (demoPad 20 [0, 0, 2147483648, 2147483648, 2147483692])).Purpose = BIP84Purpose ∨
      (demoFirstRecord demoLib
        { path := [0, 0, 2147483648, 2147483648, 2147483692], priv := true }
        (demoPad 20 [0, 0, 2147483648, 2147483648, 2147483692])).Purpose = BIP86Purpose) ∧
    (findAddressInSeed demoLib purposes (some demoMaster) "1e").1 =
      .ok (demoFirstRecord demoLib
        { path := [0, 0, 2147483648, 2147483648, 2147483692], priv := true }
        (demoPad 20 [0, 0, 2147483648, 2147483648, 2147483692])) :=
  ⟨(C22_locator_sound demoLib purposes (some demoMaster) "1e"
    (demoFirstRecord demoLib
      { path := [0, 0, 2147483648, 2147483648, 2147483692], priv := true }
      (demoPad 20 [0, 0, 2147483648, 2147483648, 2147483692]))
    (List.Perm.refl _) rfl rfl).1, rfl⟩

/-- C23: loading a seed is atomic.  When `decodeMnemonicAndAddresses` fails (wrong
word count, error of `ToCipherSeed`, error of `NewMaster`) or
`generateNewSeedAndAddresses` fails (error of `rand.Read`, of `crypto.New`, of
`ToMnemonic`, of `NewMaster`), `currentMasterKey` and `currentBatchStart` are
what they were; when every step succeeds, `currentMasterKey` is the new master
key and `currentBatchStart` is 0. -/
theorem C23_seed_loading_is_atomic (L : Lib) (A : Aezeed L)
    (randRead : Except L.Err (List UInt8)) (now : Nat) (s : AppState L) :
    ((Fields s.mnemonicEntryText).length ≠ NumMnemonicWords →
      (decodeMnemonicAndAddresses L A s).1.currentMasterKey = s.currentMasterKey ∧
      (decodeMnemonicAndAddresses L A s).1.currentBatchStart = s.currentBatchStart) ∧
    (∀ e, A.ToCipherSeed (Fields s.mnemonicEntryText)
        (effectivePassphrase s.passphraseEntryText) = .error e →
      (decodeMnemonicAndAddresses L A s).1.currentMasterKey = s.currentMasterKey ∧
      (decodeMnemonicAndAddresses L A s).1.currentBatchStart = s.currentBatchStart) ∧
    (∀ seed e, A.ToCipherSeed (Fields s.mnemonicEntryText)
        (effectivePassphrase s.passphraseEntryText) = .ok seed →
      A.NewMaster (A.Entropy seed) netParams = .error e →
      (decodeMnemonicAndAddresses L A s).1.currentMasterKey = s.currentMasterKey ∧
      (decodeMnemonicAndAddresses L A s).1.currentBatchStart = s.currentBatchStart) ∧
    (∀ seed masterKey, (Fields s.mnemonicEntryText).length = NumMnemonicWords →
      A.ToCipherSeed (Fields s.mnemonicEntryText)
        (effectivePassphrase s.passphraseEntryText) = .ok seed →
      A.NewMaster (A.Entropy seed) netParams = .ok masterKey →
      (decodeMnemonicAndAddresses L A s).1.currentMasterKey = some masterKey ∧
      (decodeMnemonicAndAddresses L A s).1.currentBatchStart = 0) ∧
    (∀ e, randRead = .error e →
      (generateNewSeedAndAddresses L A randRead now s).1.currentMasterKey = s.currentMasterKey ∧
      (generateNewSeedAndAddresses L A randRead now s).1.currentBatchStart =
        s.currentBatchStart) ∧
    (∀ entropy e, randRead = .ok entropy → A.New 0 entropy now = .error e →
      (generateNewSeedAndAddresses L A randRead now s).1.currentMasterKey = s.currentMasterKey ∧
      (generateNewSeedAndAddresses L A randRead now s).1.currentBatchStart =
        s.currentBatchStart) ∧
    (∀ entropy seed e, randRead = .ok entropy → A.New 0 entropy now = .ok seed →
      A.ToMnemonic seed (effectivePassphrase s.passphraseEntryText) = .error e →
      (generateNewSeedAndAddresses L A randRead now s).1.currentMasterKey = s.currentMasterKey ∧
      (generateNewSeedAndAddresses L A randRead now s).1.currentBatchStart =
        s.currentBatchStart) ∧
    (∀ entropy seed words e, randRead = .ok entropy → A.New 0 entropy now = .ok seed →
      A.ToMnemonic seed (effectivePassphrase s.passphraseEntryText) = .ok words →
      A.NewMaster (A.Entropy seed) netParams = .error e →
      (generateNewSeedAndAddresses L A randRead now s).1.currentMasterKey = s.currentMasterKey ∧
      (generateNewSeedAndAddresses L A randRead now s).1.currentBatchStart =
        s.currentBatchStart) ∧
    (∀ entropy seed words masterKey, randRead = .ok entropy → A.New 0 entropy now = .ok seed →
      A.ToMnemonic seed (effectivePassphrase s.passphraseEntryText) = .ok words →
      A.NewMaster (A.Entropy seed) netParams = .ok masterKey →
      (generateNewSeedAndAddresses L A randRead now s).1.currentMasterKey = some masterKey ∧
      (generateNewSeedAndAddresses L A randRead now s).1.currentBatchStart = 0) := by
  have hd := decodeMnemonicAndAddresses_state L A s
  have hg := generateNewSeedAndAddresses_state L A randRead now s
  have pick : ∀ {a x : Option L.Key} {b c y z : Nat}, (a, b, c) = (x, y, z) → a = x ∧ b = y :=
    fun h => ⟨congrArg Prod.fst h, congrArg (fun q => q.2.1) h⟩
  refine ⟨?_, ?_, ?_, ?_, ?_, ?_, ?_, ?_, ?_⟩
  · intro hlen
    rw [if_pos hlen] at hd
    exact pick hd
  · intro e he
    rw [he] at hd
    by_cases hlen : (Fields s.mnemonicEntryText).length = NumMnemonicWords
    · rw [if_neg (not_not_intro hlen)] at hd
      exact pick hd
    · rw [if_pos hlen] at hd
      exact pick hd
  · intro seed e hs hk
    rw [hs] at hd
    simp only [hk] at hd
    by_cases hlen : (Fields s.mnemonicEntryText).length = NumMnemonicWords
    · rw [if_neg (not_not_intro hlen)] at hd
      exact pick hd
    · rw [if_pos hlen] at hd
      exact pick hd
  · intro seed k hlen hs hk
    rw [hs, if_neg (not_not_intro hlen)] at hd
    simp only [hk] at hd
    exact pick hd
  · intro e hr
    subst hr
    exact pick hg
  · intro entropy e hr hn
    subst hr
    simp only [hn] at hg
    exact pick hg
  · intro entropy seed e hr hn hm
    subst hr
    simp only [hn, hm] at hg
    exact pick hg
  · intro entropy seed words e hr hn hm hk
    subst hr
    simp only [hn, hm, hk] at hg
    exact pick hg
  · intro entropy seed words k hr hn hm hk
    subst hr
    simp only [hn, hm, hk] at hg
    exact pick hg

/-- The trace of `handleAddressLookup` once the search has started: the events
of `findAddressInSeed` come first, and a balance function is called after them
only if the search returned no error and the source is not Offline. -/
theorem handleAddressLookup_spec (L : Lib) (order : List (Nat × String))
    (online : Except (GoError L.Err) String) (s : AppState L) (target : String) :
    (s.selectedBlockchainSource = SourceOffline →
      oracleCallsOf (handleAddressLookup L order online s target) = []) ∧
    (target = "" → oracleCallsOf (handleAddressLookup L order online s target) = []) ∧
    (s.currentMasterKey = none →
      oracleCallsOf (handleAddressLookup L order online s target) = []) ∧
    (∀ e, (findAddressInSeed L order s.currentMasterKey target).1 = .error e →
      oracleCallsOf (handleAddressLookup L order online s target) = []) ∧
    (target ≠ "" → s.currentMasterKey ≠ none →
      ∃ post, handleAddressLookup L order online s target =
        .showStatus (.lookupStarted target) false ::
          (findAddressInSeed L order s.currentMasterKey target).2.map .core ++ post ∧
        oracleCallsOf (handleAddressLookup L order online s target) = oracleCallsOf post ∧
        (oracleCallsOf post).length ≤ 1) := by
  have hpre : oracleCallsOf (AppEvent.showStatus (.lookupStarted target) false ::
      (findAddressInSeed L order s.currentMasterKey target).2.map AppEvent.core) = [] :=
    oracleCallsOf_core _
  by_cases ht : target = ""
  · have h0 : handleAddressLookup L order online s target = [.showStatus .lookupEmpty true] := by
      simp only [handleAddressLookup, if_pos ht]
    rw [h0]
    exact ⟨fun _ => rfl, fun _ => rfl, fun _ => rfl, fun _ _ => rfl, fun h => absurd ht h⟩
  · cases hm : s.currentMasterKey with
    | none =>
      have h0 : handleAddressLookup L order online s target =
          [.showStatus .lookupNoSeed true] := by
        simp only [handleAddressLookup, if_neg ht, hm]
      rw [h0]
      exact ⟨fun _ => rfl, fun _ => rfl, fun _ => rfl, fun _ _ => rfl,
        fun _ h => absurd rfl h⟩
    | some m =>
      cases hr : (findAddressInSeed L order (some m) target).1 with
      | error e =>
        have h0 : handleAddressLookup L order online s target =
            .showStatus (.lookupStarted target) false ::
              (findAddressInSeed L order (some m) target).2.map .core ++
            [.showStatus (.lookupError e) true, .showLookupDialog (some e) false none] := by
          simp only [handleAddressLookup, if_neg ht, hm, hr]
        rw [hm] at hpre
        have h1 : oracleCallsOf (handleAddressLookup L order online s target) = [] := by
          rw [h0, oracleCallsOf_append, hpre]
          rfl
        refine ⟨fun _ => h1, fun _ => h1, fun _ => h1, fun _ _ => h1, fun _ _ => ⟨_, h0, ?_, ?_⟩⟩
        · rw [h1]
          rfl
        · exact Nat.zero_le _
      | ok r =>
        rw [hm] at hpre
        have key : ∃ post, handleAddressLookup L order online s target =
            .showStatus (.lookupStarted target) false ::
              (findAddressInSeed L order (some m) target).2.map .core ++ post ∧
            (s.selectedBlockchainSource = SourceOffline → oracleCallsOf post = []) ∧
            (oracleCallsOf post).length ≤ 1 := by
          by_cases hf : r.Found = false
          · by_cases ho : s.selectedBlockchainSource = SourceOffline
            · refine ⟨[.showStatus .lookupNotFound false, .showLookupDialog none false none],
                ?_, fun _ => rfl, Nat.zero_le _⟩
              simp only [handleAddressLookup, if_neg ht, hm, hr, if_pos hf,
                if_neg (not_not_intro ho)]
            · by_cases hb : s.selectedBlockchainSource = SourceBlockstream
              · refine ⟨[.oracleBlockstream target, .showStatus .lookupNotFound false,
                  .showLookupDialog none false (some online)],
                  ?_, fun h => absurd h ho, Nat.le_refl 1⟩
                simp only [handleAddressLookup, if_neg ht, hm, hr, if_pos hf, if_pos ho,
                  if_pos hb]
              · refine ⟨[.showStatus .lookupNotFound false,
                  .showLookupDialog none false (some (.ok
                    ("(Verificação de saldo via Nó Local requer que o endereço seja " ++
                      "encontrado na seed primeiro)")))],
                  ?_, fun _ => rfl, Nat.zero_le _⟩
                simp only [handleAddressLookup, if_neg ht, hm, hr, if_pos hf, if_pos ho,
                  if_neg hb]
          · by_cases ho : s.selectedBlockchainSource = SourceOffline
            · refine ⟨[.showStatus .lookupFound false, .showLookupDialog none true none],
                ?_, fun _ => rfl, Nat.zero_le _⟩
              simp only [handleAddressLookup, if_neg ht, hm, hr, if_neg hf,
                if_neg (not_not_intro ho)]
            · by_cases hb : s.selectedBlockchainSource = SourceBlockstream
              · refine ⟨[.oracleBlockstream target, .showStatus .lookupFound false,
                  .showLookupDialog none true (some online)],
                  ?_, fun h => absurd h ho, Nat.le_refl 1⟩
                simp only [handleAddressLookup, if_neg ht, hm, hr, if_neg hf, if_pos ho,
                  if_pos hb]
              · refine ⟨[.oracleLocalNode r.Address r.DerivedKey r.Purpose,
                  .showStatus .lookupFound false, .showLookupDialog none true (some online)],
                  ?_, fun h => absurd h ho, Nat.le_refl 1⟩
                simp only [handleAddressLookup, if_neg ht, hm, hr, if_neg hf, if_pos ho,
                  if_neg hb]
        obtain ⟨post, h0, h1, h2⟩ := key
        have h3 : oracleCallsOf (handleAddressLookup L order online s target) =
            oracleCallsOf post := by
          rw [h0, oracleCallsOf_append, hpre]
          rfl
        refine ⟨fun h => h3.trans (h1 h), fun h => absurd h ht, fun h => ?_, fun e he => ?_,
          fun _ _ => ⟨post, h0, h3, h2⟩⟩
        · cases h
        · cases he


/-- C24: the locator makes no call of a balance function, and Offline mode
reaches none.  The effects of `findAddressInSeed` hold no call of
`checkAddressBlockstream` or `checkAddressLocalNodeWithScan` (the only caller of
`getRPCClient`); `handleAddressLookup` makes none when the source is Offline or
when `findAddressInSeed` returned an error, and the call it makes otherwise, at
most one, comes after all the events of `findAddressInSeed`;
`checkDerivationInfo` in Offline mode shows a status and returns, with no
library call and no call of a balance function. -/
theorem C24_no_oracle_in_locator_or_offline (L : Lib) (order : List (Nat × String))
    (online : Except (GoError L.Err) String) (S : BalanceSource L) (sched : List Nat)
    (s : AppState L) (target : String) (purpose : Nat) (purposeName : String) :
    oracleCallsOf ((findAddressInSeed L order s.currentMasterKey target).2.map .core) = [] ∧
    (s.selectedBlockchainSource = SourceOffline →
      oracleCallsOf (handleAddressLookup L order online s target) = []) ∧
    (∀ e, (findAddressInSeed L order s.currentMasterKey target).1 = .error e →
      oracleCallsOf (handleAddressLookup L order online s target) = []) ∧
    (target ≠ "" → s.currentMasterKey ≠ none →
      ∃ post, handleAddressLookup L order online s target =
        .showStatus (.lookupStarted target) false ::
          (findAddressInSeed L order s.currentMasterKey target).2.map .core ++ post ∧
        oracleCallsOf (handleAddressLookup L order online s target) = oracleCallsOf post ∧
        (oracleCallsOf post).length ≤ 1) ∧
    ((target = "" ∨ s.currentMasterKey = none) →
      oracleCallsOf (handleAddressLookup L order online s target) = [] ∧
      coreOf (handleAddressLookup L order online s target) = []) ∧
    (s.selectedBlockchainSource = SourceOffline →
      checkDerivationInfo L S sched s purpose purposeName =
        [.showStatus .verificationOffline false] ∧
      coreOf (checkDerivationInfo L S sched s purpose purposeName) = [] ∧
      oracleCallsOf (checkDerivationInfo L S sched s purpose purposeName) = []) := by
  obtain ⟨h1, h2, h3, h4, h5⟩ := handleAddressLookup_spec L order online s target
  refine ⟨oracleCallsOf_core _, h1, h4, h5, ?_, ?_⟩
  · intro h
    rcases h with h | h
    · refine ⟨h2 h, ?_⟩
      simp only [handleAddressLookup, if_pos h]
      rfl
    · refine ⟨h3 h, ?_⟩
      by_cases ht : target = ""
      · simp only [handleAddressLookup, if_pos ht]
        rfl
      · simp only [handleAddressLookup, if_neg ht, h]
        rfl
  · intro h
    have h0 : checkDerivationInfo L S sched s purpose purposeName =
        [.showStatus .verificationOffline false] := by
      simp only [checkDerivationInfo, if_pos h]
    rw [h0]
    exact ⟨rfl, rfl, rfl⟩

/-! ## Completeness of the search, from facts of the library -/

theorem demoDecode_string (tag ch : Char) (n : Nat) (hch : ch = 'e' ∨ ch = 'i') :
    demoDecode (String.mk (tag :: ch :: List.replicate n 'x')) netParams =
      (if tag = '1' then
        .ok (.pubKeyHash (demoPad 20 [n, if ch = 'e' then 0 else 1]) netParams.PubKeyHashAddrID)
      else if tag = '3' then
        .ok (.scriptHash (demoPad 20 [0, 20, n, if ch = 'e' then 0 else 1])
          netParams.ScriptHashAddrID)
      else if tag = 'q' then
        .ok (.witnessPubKeyHash netParams.Bech32HRPSegwit.toLower 0
          (demoPad 20 [n, if ch = 'e' then 0 else 1]))
      else if tag = 'p' then
        .ok (.taproot netParams.Bech32HRPSegwit.toLower 1
          (demoPad 32 [n, if ch = 'e' then 0 else 1]))
      else .error "unknown address type") := by
  have hall : (List.replicate n 'x').all (fun x => x == 'x') = true := by
    simp [List.all_eq_true]
  unfold demoDecode
  simp only [String.toList, hall, hch, and_self, if_true, List.length_replicate]


theorem demoChain_letter (g : Nat) :
    ((if g = 0 then 'e' else 'i') = 'e' ∨ (if g = 0 then 'e' else 'i') = 'i') ∧
    (if (if (if g = 0 then 'e' else 'i') = 'e' then 0 else 1) = 0 then 'e' else 'i') =
      (if g = 0 then 'e' else 'i') := by
  by_cases h : g = 0
  · simp [h]
  · simp [h]

theorem demoLib_decodesOwnStrings : DecodesOwnStrings demoLib := by
  intro a hw hk
  cases a with
  | pubKeyHash h id =>
    obtain ⟨hl, _⟩ := demoChain_letter (h.getD 1 0)
    have hs : demoLib.addrString (.pubKeyHash h id) =
        String.mk ('1' :: (if h.getD 1 0 = 0 then 'e' else 'i') ::
          List.replicate (h.headD 0) 'x') := rfl
    refine ⟨.pubKeyHash (demoPad 20 [h.headD 0,
      if (if h.getD 1 0 = 0 then 'e' else 'i') = 'e' then 0 else 1])
      netParams.PubKeyHashAddrID, ?_, ?_⟩
    · rw [hs]
      exact (demoDecode_string '1' _ (h.headD 0) hl).trans (if_pos rfl)
    · rw [hs]
      show demoAddrString _ = _
      unfold demoAddrString
      simp only [Address.kind, Address.payload, demoTag, demoPad_headD, demoPad_getD_one,
        (demoChain_letter (h.getD 1 0)).2]
  | scriptHash h id =>
    obtain ⟨hl, _⟩ := demoChain_letter ((h.drop 2).getD 1 0)
    have hs : demoLib.addrString (.scriptHash h id) =
        String.mk ('3' :: (if (h.drop 2).getD 1 0 = 0 then 'e' else 'i') ::
          List.replicate ((h.drop 2).headD 0) 'x') := rfl
    refine ⟨.scriptHash (demoPad 20 [0, 20, (h.drop 2).headD 0,
      if (if (h.drop 2).getD 1 0 = 0 then 'e' else 'i') = 'e' then 0 else 1])
      netParams.ScriptHashAddrID, ?_, ?_⟩
    · rw [hs]
      exact (demoDecode_string '3' _ ((h.drop 2).headD 0) hl).trans
        ((if_neg (by decide)).trans (if_pos rfl))
    · rw [hs]
      show demoAddrString _ = _
      unfold demoAddrString
      have e1 : ∀ n c : Nat, ((demoPad 20 [0, 20, n, c]).drop 2).headD 0 = n := fun _ _ => rfl
      have e2 : ∀ n c : Nat, ((demoPad 20 [0, 20, n, c]).drop 2).getD 1 0 = c := fun _ _ => rfl
      simp only [Address.kind, demoTag, e1, e2, (demoChain_letter ((h.drop 2).getD 1 0)).2]
  | witnessPubKeyHash hrp v w =>
    obtain ⟨hl, _⟩ := demoChain_letter (w.getD 1 0)
    have hs : demoLib.addrString (.witnessPubKeyHash hrp v w) =
        String.mk ('q' :: (if w.getD 1 0 = 0 then 'e' else 'i') ::
          List.replicate (w.headD 0) 'x') := rfl
    refine ⟨.witnessPubKeyHash netParams.Bech32HRPSegwit.toLower 0 (demoPad 20 [w.headD 0,
      if (if w.getD 1 0 = 0 then 'e' else 'i') = 'e' then 0 else 1]), ?_, ?_⟩
    · rw [hs]
      exact (demoDecode_string 'q' _ (w.headD 0) hl).trans
        ((if_neg (by decide)).trans ((if_neg (by decide)).trans (if_pos rfl)))
    · rw [hs]
      show demoAddrString _ = _
      unfold demoAddrString
      simp only [Address.kind, Address.payload, demoTag, demoPad_headD, demoPad_getD_one,
        (demoChain_letter (w.getD 1 0)).2]
  | taproot hrp v w =>
    obtain ⟨hl, _⟩ := demoChain_letter (w.getD 1 0)
    have hs : demoLib.addrString (.taproot hrp v w) =
        String.mk ('p' :: (if w.getD 1 0 = 0 then 'e' else 'i') ::
          List.replicate (w.headD 0) 'x') := rfl
    refine ⟨.taproot netParams.Bech32HRPSegwit.toLower 1 (demoPad 32 [w.headD 0,
      if (if w.getD 1 0 = 0 then 'e' else 'i') = 'e' then 0 else 1]), ?_, ?_⟩
    · rw [hs]
      exact (demoDecode_string 'p' _ (w.headD 0) hl).trans
        ((if_neg (by decide)).trans ((if_neg (by decide)).trans
          ((if_neg (by decide)).trans (if_pos rfl))))
    · rw [hs]
      show demoAddrString _ = _
      unfold demoAddrString
      simp only [Address.kind, Address.payload, demoTag, demoPad_headD, demoPad_getD_one,
        (demoChain_letter (w.getD 1 0)).2]
  | witnessScriptHash hrp v w =>
    rcases hk with h | h | h | h <;> cases h
  | pubKey s id =>
    rcases hk with h | h | h | h <;> cases h

theorem demoLib_indexSeparated : IndexSeparated demoLib demoMaster := by
  intro x hx y hy hxy kx ax ky ay hrx hry hstr
  obtain ⟨⟨namex, hnx⟩, _, _⟩ := (mem_searchSpace purposes x).1 hx
  obtain ⟨⟨namey, hny⟩, _, _⟩ := (mem_searchSpace purposes y).1 hy
  obtain ⟨k1, a1, hr1, hs1⟩ := demoLib_render x.1 x.2.1 x.2.2 (purposes_mem_fst _ _ hnx)
  obtain ⟨k2, a2, hr2, hs2⟩ := demoLib_render y.1 y.2.1 y.2.2 (purposes_mem_fst _ _ hny)
  rw [hr1] at hrx
  rw [hr2] at hry
  have ha1 : a1 = ax := (Prod.mk.inj (Option.some.inj hrx)).2
  have ha2 : a2 = ay := (Prod.mk.inj (Option.some.inj hry)).2
  subst ha1 ha2
  have h : demoAddrString a1 = demoAddrString a2 := hstr
  rw [hs1, hs2] at h
  have hdata := congrArg String.data h
  have hrest := List.tail_eq_of_cons_eq (List.tail_eq_of_cons_eq hdata)
  have hlen := congrArg List.length hrest
  simpa only [List.length_replicate] using hlen


/-- C5: the locator is complete.  From a master key at which indices do not
collide, for a coordinate with purpose 44, 49, 84 or 86, chain 0 or 1 and index
below 20000 at which derivation and rendering succeed, `findAddressInSeed` on
the string of the address rendered there returns no error and a result with
`Found = true`, the purpose and the index of the coordinate, in whatever order
the map yields its purposes.  The decoder accepts that string and gives it back,
and addresses of different kinds have different strings, as `btcutil` has it. -/
theorem C5_locator_complete (L : Lib) (order : List (Nat × String))
    (hp : order.Perm purposes) (hK : KindSeparated L) (hD : DecodesOwnStrings L)
    (m : L.Key) (hI : IndexSeparated L m) (purpose changeType index : Nat)
    (key : L.Key) (a : Address)
    (hpur : purpose = BIP44Purpose ∨ purpose = BIP49Purpose ∨ purpose = BIP84Purpose ∨
      purpose = BIP86Purpose)
    (hchain : changeType = ExternalChain ∨ changeType = InternalChain)
    (hidx : index < addressSearchLimit)
    (hrender : renderAt L m purpose changeType index = some (key, a)) :
    ∃ res, (findAddressInSeed L order (some m) (L.addrString a)).1 = .ok res ∧
      res.Found = true ∧ res.Purpose = purpose ∧ res.Index = index := by
  have hin : (purpose, changeType, index) ∈ searchSpace purposes := by
    apply (mem_searchSpace purposes _).2
    refine ⟨?_, hchain, hidx⟩
    have h44 : (BIP44Purpose, "BIP44 (Legacy)") ∈ purposes := by decide
    have h49 : (BIP49Purpose, "BIP49 (Nested SegWit)") ∈ purposes := by decide
    have h84 : (BIP84Purpose, "BIP84 (Native SegWit)") ∈ purposes := by decide
    have h86 : (BIP86Purpose, "BIP86 (Taproot)") ∈ purposes := by decide
    rcases hpur with h | h | h | h
    · exact ⟨"BIP44 (Legacy)", by rw [h]; exact h44⟩
    · exact ⟨"BIP49 (Nested SegWit)", by rw [h]; exact h49⟩
    · exact ⟨"BIP84 (Native SegWit)", by rw [h]; exact h84⟩
    · exact ⟨"BIP86 (Taproot)", by rw [h]; exact h86⟩
  obtain ⟨_, hkind, hwf⟩ := renderAt_kind L m purpose changeType index key a hrender
  have hfour : a.kind = .legacy ∨ a.kind = .nested ∨ a.kind = .native ∨ a.kind = .taproot := by
    rw [hkind]
    rcases hpur with h | h | h | h <;> rw [h] <;> decide
  obtain ⟨a1, hdec, hnorm⟩ := hD a hwf hfour
  apply locator_complete_of_unique L order hp m purpose changeType index key a a1 hin
    hrender hdec hnorm
  intro x hx hm
  unfold matchesAt at hm
  cases hrx : renderAt L m x.1 x.2.1 x.2.2 with
  | none =>
    rw [hrx] at hm
    cases hm
  | some ka =>
    obtain ⟨kx, ax⟩ := ka
    rw [hrx] at hm
    have hstr : L.addrString ax = L.addrString a := of_decide_eq_true hm
    obtain ⟨hpx, hkx, hwx⟩ := renderAt_kind L m x.1 x.2.1 x.2.2 kx ax hrx
    have hk2 : kindOfPurpose x.1 = kindOfPurpose purpose := by
      rw [← hkx, ← hkind]
      exact hK ax a hwx hwf hstr
    have hp1 : x.1 = purpose := kindOfPurpose_injective x.1 purpose hpx hpur hk2
    refine ⟨hp1, ?_⟩
    exact hI x hx (purpose, changeType, index) hin hp1 kx ax key a hrx hrender hstr

theorem C5_witness :
    ∃ res, (findAddressInSeed demoLib purposes (some demoMaster)
        (demoLib.addrString
          (.scriptHash (demoPad 20 (0 :: 20 :: demoPad 20
            [3, 1, 2147483648, 2147483648, 2147483697])) 5))).1 = .ok res ∧
      res.Found = true ∧ res.Purpose = 49 ∧ res.Index = 3 :=
  C5_locator_complete demoLib purposes (List.Perm.refl _) demoLib_kindSeparated
    demoLib_decodesOwnStrings demoMaster demoLib_indexSeparated 49 1 3
    { path := [3, 1, 2147483648, 2147483648, 2147483697], priv := true }
    (.scriptHash (demoPad 20 (0 :: 20 :: demoPad 20
      [3, 1, 2147483648, 2147483648, 2147483697])) 5)
    (Or.inr (Or.inl rfl)) (Or.inr rfl) (by decide) rfl

/-! ## The strings of the four encodings -/

theorem toLower_data (s : String) : s.toLower.data = s.data.map Char.toLower := by
  unfold String.toLower
  rw [String.map_eq]

theorem bytesToNat_foldl (t : List Nat) :
    ∀ acc : Nat, List.foldl (fun x y => x * 256 + y) acc t =
      acc * 256 ^ t.length + List.foldl (fun x y => x * 256 + y) 0 t := by
  induction t with
  | nil =>
    intro acc
    simp
  | cons y t ih =>
    intro acc
    rw [List.foldl_cons, List.foldl_cons, ih (acc * 256 + y), ih (0 * 256 + y),
      List.length_cons, pow_succ]
    ring

theorem bytesToNat_cons (y : Nat) (t : List Nat) :
    bytesToNat (y :: t) = y * 256 ^ t.length + bytesToNat t := by
  unfold bytesToNat
  rw [List.foldl_cons, bytesToNat_foldl t (0 * 256 + y)]
  ring

theorem bytesToNat_lt (t : List Nat) (h : ∀ x ∈ t, x < 256) :
    bytesToNat t < 256 ^ t.length := by
  induction t with
  | nil => simp [bytesToNat]
  | cons y t ih =>
    have hy : y < 256 := h y (List.mem_cons_self _ _)
    have ht := ih (fun x hx => h x (List.mem_cons_of_mem _ hx))
    rw [bytesToNat_cons, List.length_cons, pow_succ]
    generalize 256 ^ t.length = P at ht ⊢
    nlinarith

/-- The most significant base-58 digit of a number between `2 * 58 ^ 33` and
`3 * 58 ^ 33` is 2. -/
theorem digits58_last (N : Nat) (h1 : 2 * 58 ^ 33 ≤ N) (h2 : N < 3 * 58 ^ 33) :
    ∃ l, Nat.digits 58 N = l ++ [2] := by
  have hK : 0 < 58 ^ 33 := Nat.pow_pos (by norm_num)
  have hN : N ≠ 0 := by
    intro h0
    rw [h0] at h1
    generalize 58 ^ 33 = K at hK h1
    omega
  have hlog : Nat.log 58 N = 33 := by
    apply Nat.log_eq_of_pow_le_of_lt_pow
    · generalize 58 ^ 33 = K at hK h1 h2
      omega
    · rw [pow_succ]
      generalize 58 ^ 33 = K at hK h1 h2
      omega
  have hlen := Nat.digits_len 58 N (by norm_num) hN
  rw [hlog] at hlen
  have hne : Nat.digits 58 N ≠ [] := Nat.digits_ne_nil_iff_ne_zero.2 hN
  have hsplit := List.dropLast_append_getLast hne
  have hof := Nat.ofDigits_digits 58 N
  rw [← hsplit, Nat.ofDigits_append, Nat.ofDigits_singleton, List.length_dropLast, hlen] at hof
  have hr : Nat.ofDigits 58 (Nat.digits 58 N).dropLast < 58 ^ 33 := by
    have := Nat.ofDigits_lt_base_pow_length (b := 58) (l := (Nat.digits 58 N).dropLast)
      (by norm_num)
      (fun x hx => Nat.digits_lt_base (by norm_num) (List.mem_of_mem_dropLast hx))
    rw [List.length_dropLast, hlen] at this
    exact this
  simp only [Nat.add_sub_cancel] at hof
  refine ⟨(Nat.digits 58 N).dropLast, ?_⟩
  have hlast : (Nat.digits 58 N).getLast hne = 2 := by
    generalize (Nat.digits 58 N).getLast hne = d at hof
    generalize Nat.ofDigits 58 (Nat.digits 58 N).dropLast = r at hof hr
    generalize 58 ^ 33 = K at hK h1 h2 hof hr
    have hd : N / K = d := by
      rw [← hof, Nat.add_mul_div_left _ _ hK, Nat.div_eq_of_lt hr, Nat.zero_add]
    have h2' : N / K = 2 := Nat.div_eq_of_lt_le (by omega) (by omega)
    omega
  rw [← hlast]
  exact hsplit.symm


/-- A base58 string of bytes that begin with a zero byte begins with `1`. -/
theorem Base58Encode_zero_head (t : List Nat) :
    ∃ rest, (Base58Encode (0 :: t)).data = '1' :: rest := by
  unfold Base58Encode
  simp only [List.reverse_append]
  have hz : (List.takeWhile (fun y => y == 0) (0 :: t)).length =
      (List.takeWhile (fun y => y == 0) t).length + 1 := by
    simp [List.takeWhile_cons]
  rw [hz, List.replicate_succ, List.reverse_cons, List.reverse_replicate]
  cases hk : (List.takeWhile (fun y => y == 0) t).length with
  | zero => exact ⟨_, rfl⟩
  | succ k => exact ⟨_, rfl⟩

/-- The base58check string of 20 bytes under version 5 begins with `3`. -/
theorem CheckEncode_five_head {E : Type} (B : Encodings E) (hC : ChecksumSized B)
    (h : List Nat) (hlen : h.length = 20) (hb : ∀ x ∈ h, x < 256) :
    ∃ rest, (CheckEncode B h 5).data = '3' :: rest := by
  obtain ⟨c1, c2⟩ := hC (5 :: h)
  have hl : (h ++ B.checksum (5 :: h)).length = 24 := by
    rw [List.length_append, hlen, c1]
  have hlt := bytesToNat_lt (h ++ B.checksum (5 :: h)) (by
    intro x hx
    rcases List.mem_append.1 hx with hx | hx
    · exact hb x hx
    · exact c2 x hx)
  rw [hl] at hlt
  have hN : bytesToNat (5 :: (h ++ B.checksum (5 :: h))) =
      5 * 256 ^ 24 + bytesToNat (h ++ B.checksum (5 :: h)) := by
    rw [bytesToNat_cons, hl]
  have e1 : 2 * 58 ^ 33 ≤ 5 * 256 ^ 24 := by norm_num
  have e2 : 6 * 256 ^ 24 ≤ 3 * 58 ^ 33 := by norm_num
  obtain ⟨l, hd⟩ := digits58_last (bytesToNat (5 :: (h ++ B.checksum (5 :: h))))
    (by
      rw [hN]
      exact le_trans e1 (Nat.le_add_right _ _))
    (by
      rw [hN]
      refine lt_of_lt_of_le ?_ e2
      generalize 256 ^ 24 = P at hlt
      generalize bytesToNat (h ++ B.checksum (5 :: h)) = r at hlt
      omega)
  unfold CheckEncode Base58Encode
  simp only [List.cons_append, hd, List.takeWhile_cons]
  refine ⟨(l.map fun d => base58Alphabet.data.getD d '1').reverse, ?_⟩
  simp
  rfl

/-- A string `encodeSegWitAddress` returns is the lower-case prefix, `1`, the
character of the witness version, which is 0 or 1, and the rest. -/
theorem encodeSegWitAddress_ok {E : Type} (B : Encodings E) (hrp : String) (v : Nat)
    (prog : List Nat) (s : String) (h : encodeSegWitAddress B hrp v prog = .ok s) :
    (v = 0 ∨ v = 1) ∧
    ∃ rest, s.data = hrp.toLower.data ++ '1' :: bech32Charset.data.getD v 'q' :: rest := by
  unfold encodeSegWitAddress at h
  cases hc : B.ConvertBits prog 8 5 true with
  | error e => simp [hc] at h
  | ok converted =>
    simp only [hc] at h
    have hgen : ∀ ver str, bech32EncodeGeneric B hrp (v :: converted) ver = .ok str →
        ∃ rest, str.data = hrp.toLower.data ++ '1' :: bech32Charset.data.getD v 'q' :: rest := by
      intro ver str hg
      unfold bech32EncodeGeneric at hg
      cases hf : List.find? (fun b => decide (bech32Charset.length ≤ b)) (v :: converted) with
      | some b => simp [hf] at hg
      | none =>
        simp only [hf, Except.ok.injEq] at hg
        subst hg
        refine ⟨(converted.map fun b => bech32Charset.data.getD b 'q') ++
          B.bech32Checksum hrp.toLower (v :: converted) ver, ?_⟩
        simp [String.data_append]
    have hfin : ∀ enc : Except (GoError E) String,
        (match enc with
          | .error err => (Except.error err : Except (GoError E) String)
          | .ok bech =>
            match B.decodeSegWitAddress bech with
            | .error err => .error (.wrap "invalid segwit address" (.lib err))
            | .ok (version, program) =>
              if version ≠ v ∨ program ≠ prog then .error (.new "invalid segwit address")
              else .ok bech) = .ok s → enc = .ok s := by
      intro enc he
      cases enc with
      | error e => simp at he
      | ok bech =>
        simp only at he
        cases hd : B.decodeSegWitAddress bech with
        | error e => simp [hd] at he
        | ok vp =>
          obtain ⟨version, program⟩ := vp
          simp only [hd] at he
          split at he
          · cases he
          · exact he
    have henc := hfin _ h
    by_cases h0 : v = 0
    · rw [if_pos h0] at henc
      exact ⟨Or.inl h0, hgen 0 s henc⟩
    · rw [if_neg h0] at henc
      by_cases h1 : v = 1
      · rw [if_pos h1] at henc
        exact ⟨Or.inr h1, hgen 1 s henc⟩
      · rw [if_neg h1] at henc
        cases henc


theorem mainnet_hrp_data :
    netParams.Bech32HRPSegwit.toLower.toLower.data = ['b', 'c'] := by
  rw [toLower_data, toLower_data]
  rfl

/-- C11: for a key whose public key can be extracted, the four encoders
return, on the mainnet parameters the program uses, four addresses whose
strings are pairwise distinct: the base58 string of the pubkey-hash address
begins with `1` (version byte 0), that of the script-hash address with `3`
(version byte 5), the bech32 strings of the two witness addresses with `bc1q`
(witness version 0) and `bc1p` (witness version 1).  `String` is `EncodeAddress`
of `btcutil`; hashes and checksum are byte strings of their size, and the
bech32 encoder accepts the two witness programs. -/
theorem C11_four_encodings_pairwise_distinct (L : Lib) (B : Encodings L.Err)
    (hH : Hash160Sized L) (hX : XOnlySized L) (hB : Hash160Bytes L) (hC : ChecksumSized B)
    (key : L.Key) (pub : L.PubKey) (hpub : L.ecPubKey key = .ok pub)
    (h3 : SegWitEncodes B 0 (L.hash160 (L.serializeCompressed pub)))
    (h4 : SegWitEncodes B 1 (L.schnorrSerializePubKey (L.computeTaprootKeyNoScript pub))) :
    ∃ a1 a2 a3 a4,
      generateLegacyAddress L key netParams = .ok a1 ∧
      generateNestedSegWitAddress L key netParams = .ok a2 ∧
      generateNativeSegWitAddress L key netParams = .ok a3 ∧
      generateTaprootAddress L key netParams = .ok a4 ∧
      EncodeAddress L B a1 ≠ EncodeAddress L B a2 ∧
      EncodeAddress L B a1 ≠ EncodeAddress L B a3 ∧
      EncodeAddress L B a1 ≠ EncodeAddress L B a4 ∧
      EncodeAddress L B a2 ≠ EncodeAddress L B a3 ∧
      EncodeAddress L B a2 ≠ EncodeAddress L B a4 ∧
      EncodeAddress L B a3 ≠ EncodeAddress L B a4 ∧
      ((∀ a, L.addrString a = EncodeAddress L B a) →
        L.addrString a1 ≠ L.addrString a2 ∧ L.addrString a1 ≠ L.addrString a3 ∧
        L.addrString a1 ≠ L.addrString a4 ∧ L.addrString a2 ≠ L.addrString a3 ∧
        L.addrString a2 ≠ L.addrString a4 ∧ L.addrString a3 ≠ L.addrString a4) := by
  have g1 := generateLegacyAddress_ok L hH key netParams pub hpub
  have g2 := generateNestedSegWitAddress_ok L hH key netParams pub hpub
  have g3 := generateNativeSegWitAddress_ok L hH key netParams pub hpub
  have g4 := generateTaprootAddress_ok L hX key netParams pub hpub
  obtain ⟨s3, e3⟩ := h3
  obtain ⟨s4, e4⟩ := h4
  -- the four strings
  obtain ⟨r1, d1⟩ := Base58Encode_zero_head
    ((L.hash160 (L.serializeCompressed pub)).take 20 ++
      B.checksum (0 :: (L.hash160 (L.serializeCompressed pub)).take 20))
  obtain ⟨r2, d2⟩ := CheckEncode_five_head B hC
    ((L.hash160 (0 :: 20 :: L.hash160 (L.serializeCompressed pub))).take 20)
    (by rw [List.length_take, hH]; rfl)
    (fun x hx => hB _ x (List.mem_of_mem_take hx))
  obtain ⟨_, r3, d3⟩ := encodeSegWitAddress_ok B _ _ _ s3 e3
  obtain ⟨_, r4, d4⟩ := encodeSegWitAddress_ok B _ _ _ s4 e4
  rw [mainnet_hrp_data] at d3 d4
  have c1 : (EncodeAddress L B (.pubKeyHash (L.hash160 (L.serializeCompressed pub))
      netParams.PubKeyHashAddrID)).data = '1' :: r1 := d1
  have c2 : (EncodeAddress L B (.scriptHash
      (L.hash160 (0 :: 20 :: L.hash160 (L.serializeCompressed pub)))
      netParams.ScriptHashAddrID)).data = '3' :: r2 := d2
  have c3 : (EncodeAddress L B (.witnessPubKeyHash netParams.Bech32HRPSegwit.toLower 0
      (L.hash160 (L.serializeCompressed pub)))).data = 'b' :: 'c' :: '1' :: 'q' :: r3 := by
    simp only [EncodeAddress, e3]
    exact d3
  have c4 : (EncodeAddress L B (.taproot netParams.Bech32HRPSegwit.toLower 1
      (L.schnorrSerializePubKey (L.computeTaprootKeyNoScript pub)))).data =
      'b' :: 'c' :: '1' :: 'p' :: r4 := by
    simp only [EncodeAddress, e4]
    exact d4
  have n12 : EncodeAddress L B (.pubKeyHash (L.hash160 (L.serializeCompressed pub))
      netParams.PubKeyHashAddrID) ≠ EncodeAddress L B (.scriptHash
      (L.hash160 (0 :: 20 :: L.hash160 (L.serializeCompressed pub)))
      netParams.ScriptHashAddrID) := by
    intro h
    have hd := congrArg String.data h
    rw [c1, c2] at hd
    exact absurd (List.head_eq_of_cons_eq hd) (by decide)
  have n13 : EncodeAddress L B (.pubKeyHash (L.hash160 (L.serializeCompressed pub))
      netParams.PubKeyHashAddrID) ≠ EncodeAddress L B
      (.witnessPubKeyHash netParams.Bech32HRPSegwit.toLower 0
        (L.hash160 (L.serializeCompressed pub))) := by
    intro h
    have hd := congrArg String.data h
    rw [c1, c3] at hd
    exact absurd (List.head_eq_of_cons_eq hd) (by decide)
  have n14 : EncodeAddress L B (.pubKeyHash (L.hash160 (L.serializeCompressed pub))
      netParams.PubKeyHashAddrID) ≠ EncodeAddress L B
      (.taproot netParams.Bech32HRPSegwit.toLower 1
        (L.schnorrSerializePubKey (L.computeTaprootKeyNoScript pub))) := by
    intro h
    have hd := congrArg String.data h
    rw [c1, c4] at hd
    exact absurd (List.head_eq_of_cons_eq hd) (by decide)
  have n23 : EncodeAddress L B (.scriptHash
      (L.hash160 (0 :: 20 :: L.hash160 (L.serializeCompressed pub)))
      netParams.ScriptHashAddrID) ≠ EncodeAddress L B
      (.witnessPubKeyHash netParams.Bech32HRPSegwit.toLower 0
        (L.hash160 (L.serializeCompressed pub))) := by
    intro h
    have hd := congrArg String.data h
    rw [c2, c3] at hd
    exact absurd (List.head_eq_of_cons_eq hd) (by decide)
  have n24 : EncodeAddress L B (.scriptHash
      (L.hash160 (0 :: 20 :: L.hash160 (L.serializeCompressed pub)))
      netParams.ScriptHashAddrID) ≠ EncodeAddress L B
      (.taproot netParams.Bech32HRPSegwit.toLower 1
        (L.schnorrSerializePubKey (L.computeTaprootKeyNoScript pub))) := by
    intro h
    have hd := congrArg String.data h
    rw [c2, c4] at hd
    exact absurd (List.head_eq_of_cons_eq hd) (by decide)
  have n34 : EncodeAddress L B (.witnessPubKeyHash netParams.Bech32HRPSegwit.toLower 0
      (L.hash160 (L.serializeCompressed pub))) ≠ EncodeAddress L B
      (.taproot netParams.Bech32HRPSegwit.toLower 1
        (L.schnorrSerializePubKey (L.computeTaprootKeyNoScript pub))) := by
    intro h
    have hd := congrArg String.data h
    rw [c3, c4] at hd
    have t1 := List.tail_eq_of_cons_eq hd
    have t2 := List.tail_eq_of_cons_eq t1
    have t3 := List.tail_eq_of_cons_eq t2
    exact absurd (List.head_eq_of_cons_eq t3) (by decide)
  refine ⟨_, _, _, _, g1, g2, g3, g4, n12, n13, n14, n23, n24, n34, ?_⟩
  intro hs
  rw [hs, hs, hs, hs]
  exact ⟨n12, n13, n14, n23, n24, n34⟩


theorem byteLib_hash160Sized : Hash160Sized byteLib := fun _ => demoPad_length 20 _

theorem byteLib_xOnlySized : XOnlySized byteLib := fun p => demoPad_length 32 p

theorem byteLib_hash160Bytes : Hash160Bytes byteLib := by
  intro b x hx
  have hx2 : x ∈ (b.map fun y => y % 256) ++ List.replicate 20 0 := List.mem_of_mem_take hx
  rcases List.mem_append.1 hx2 with h | h
  · obtain ⟨y, _, rfl⟩ := List.mem_map.1 h
    exact Nat.mod_lt _ (by norm_num)
  · rw [List.eq_of_mem_replicate h]
    norm_num

theorem demoEncodings_checksumSized : ChecksumSized demoEncodings := by
  intro b
  refine ⟨rfl, fun x hx => ?_⟩
  have h0 : x = 0 := by simpa [demoEncodings] using hx
  omega

theorem demoEncodings_generic (data : List Nat) (version : Nat)
    (hd : ∀ b ∈ data, b < 32) :
    bech32EncodeGeneric demoEncodings netParams.Bech32HRPSegwit.toLower data version =
      .ok (String.mk ('b' :: 'c' :: '1' ::
        ((data.map fun b => bech32Charset.data.getD b 'q') ++ List.replicate 6 'q'))) := by
  unfold bech32EncodeGeneric
  have hf : List.find? (fun b => decide (bech32Charset.length ≤ b)) data = none := by
    rw [List.find?_eq_none]
    intro b hb
    have := hd b hb
    have hl : bech32Charset.length = 32 := by decide
    simp only [hl, decide_eq_true_eq, not_le]
    exact this
  simp only [hf]
  congr 1
  apply String.ext
  simp only [String.data_append, mainnet_hrp_data]
  rfl

theorem demoEncodings_native :
    SegWitEncodes demoEncodings 0 (byteLib.hash160 (byteLib.serializeCompressed [])) := by
  refine ⟨String.mk ('b' :: 'c' :: '1' :: List.replicate 27 'q'), ?_⟩
  unfold encodeSegWitAddress
  have hc : demoEncodings.ConvertBits (byteLib.hash160 (byteLib.serializeCompressed [])) 8 5 true =
      .ok (List.replicate 20 0) := rfl
  simp only [hc, if_true]
  rw [demoEncodings_generic _ 0 (by decide)]
  rfl

theorem demoEncodings_taproot :
    SegWitEncodes demoEncodings 1
      (byteLib.schnorrSerializePubKey (byteLib.computeTaprootKeyNoScript [])) := by
  refine ⟨String.mk ('b' :: 'c' :: '1' :: 'p' :: List.replicate 38 'q'), ?_⟩
  unfold encodeSegWitAddress
  have hc : demoEncodings.ConvertBits
      (byteLib.schnorrSerializePubKey (byteLib.computeTaprootKeyNoScript [])) 8 5 true =
      .ok (List.replicate 32 0) := rfl
  simp only [hc, if_true]
  rw [if_neg (by decide), demoEncodings_generic _ 1 (by decide)]
  rfl


theorem C11_witness :
    ∃ a1 a2 a3 a4,
      generateLegacyAddress byteLib demoMaster netParams = .ok a1 ∧
      generateNestedSegWitAddress byteLib demoMaster netParams = .ok a2 ∧
      generateNativeSegWitAddress byteLib demoMaster netParams = .ok a3 ∧
      generateTaprootAddress byteLib demoMaster netParams = .ok a4 ∧
      EncodeAddress byteLib demoEncodings a1 ≠ EncodeAddress byteLib demoEncodings a2 ∧
      EncodeAddress byteLib demoEncodings a1 ≠ EncodeAddress byteLib demoEncodings a3 ∧
      EncodeAddress byteLib demoEncodings a1 ≠ EncodeAddress byteLib demoEncodings a4 ∧
      EncodeAddress byteLib demoEncodings a2 ≠ EncodeAddress byteLib demoEncodings a3 ∧
      EncodeAddress byteLib demoEncodings a2 ≠ EncodeAddress byteLib demoEncodings a4 ∧
      EncodeAddress byteLib demoEncodings a3 ≠ EncodeAddress byteLib demoEncodings a4 ∧
      ((∀ a, byteLib.addrString a = EncodeAddress byteLib demoEncodings a) →
        byteLib.addrString a1 ≠ byteLib.addrString a2 ∧
        byteLib.addrString a1 ≠ byteLib.addrString a3 ∧
        byteLib.addrString a1 ≠ byteLib.addrString a4 ∧
        byteLib.addrString a2 ≠ byteLib.addrString a3 ∧
        byteLib.addrString a2 ≠ byteLib.addrString a4 ∧
        byteLib.addrString a3 ≠ byteLib.addrString a4) :=
  C11_four_encodings_pairwise_distinct byteLib demoEncodings byteLib_hash160Sized
    byteLib_xOnlySized byteLib_hash160Bytes demoEncodings_checksumSized demoMaster [] rfl
    demoEncodings_native demoEncodings_taproot

end LND
